import Mathlib

/-!
# Museo Casa Azul: keyframe animation engine

A shallow embedding of the animation subsystem of `Museo_Casa_Azul.cpp`:
the keyframe stores, `resetElements`, `interpolation`, `animate`, the
animation keys of `my_input`, the keyframe authoring of `main` and the
animated scalars that the render loop reads to place the easel.

Modelling conventions.
* `float` and `double` values are exact rationals (`ℚ`); every statement
  below is a statement of exact arithmetic.
* `int` values are `Int`: the statements are about states whose `int`
  variables are away from the limits of their range, as in every run of the
  program, where `i_curr_steps` never exceeds `i_max_steps` and `playIndex`
  never exceeds `FrameIndex`, so no machine overflow is involved.
* The global variables are grouped by the section of the source that
  declares them (`Caballete`, `Foco`, `Silla`, `Pincel`); names are kept.
* `KeyFrame` is a memory indexed by `Int` of which the slots
  `0 .. MAX_FRAMES - 1` form the array. A read with a variable index
  outside the array makes the operation fail (`none`).
-/

set_option linter.unusedVariables false

namespace CasaAzul

/-! ## Section 5 of the source: assembly (caballete) keyframes -/

/-- The constant `#define MAX_FRAMES 20`. -/
def MAX_FRAMES : Int := 20

/-- The record `FRAME`: one keyframe of the assembly track. -/
structure FRAME where
  rotSilla : ℚ
  rotRodIzq : ℚ
  posX : ℚ
  posY : ℚ
  posZ : ℚ
  basePosY : ℚ
  baseRot : ℚ
  pataIzqPosY : ℚ
  pataIzqRot : ℚ
  pataDerPosY : ℚ
  pataDerRot : ℚ
  pataTrasPosY : ℚ
  pataTrasRot : ℚ
  soporteTrasPosY : ℚ
  soporteTrasRot : ℚ
  pinturaPosY : ℚ
  pinturaRot : ℚ
  pinturaRotZ : ℚ
  adornoPosY : ℚ
  adornoRot : ℚ

/-- A zero-initialised `FRAME` (the array is a global without initialiser). -/
def FRAME.zero : FRAME :=
  { rotSilla := 0, rotRodIzq := 0, posX := 0, posY := 0, posZ := 0,
    basePosY := 0, baseRot := 0, pataIzqPosY := 0, pataIzqRot := 0,
    pataDerPosY := 0, pataDerRot := 0, pataTrasPosY := 0, pataTrasRot := 0,
    soporteTrasPosY := 0, soporteTrasRot := 0, pinturaPosY := 0, pinturaRot := 0,
    pinturaRotZ := 0, adornoPosY := 0, adornoRot := 0 }

/-- The globals of the assembly track: the 16 animated variables, their 16
increments, the step counters, the keyframe store and the playback flags. -/
@[ext]
structure Caballete where
  posX : ℚ
  posY : ℚ
  posZ : ℚ
  basePosY : ℚ
  pataIzqPosY : ℚ
  pataDerPosY : ℚ
  pataTrasPosY : ℚ
  soporteTrasPosY : ℚ
  adornoPosY : ℚ
  baseRot : ℚ
  pataIzqRot : ℚ
  pataDerRot : ℚ
  pataTrasRot : ℚ
  soporteTrasRot : ℚ
  adornoRot : ℚ
  pinturaRotZ : ℚ
  incX : ℚ
  incY : ℚ
  incZ : ℚ
  basePosYInc : ℚ
  pataIzqPosYInc : ℚ
  pataDerPosYInc : ℚ
  pataTrasPosYInc : ℚ
  soporteTrasPosYInc : ℚ
  adornoPosYInc : ℚ
  baseRotInc : ℚ
  pataIzqRotInc : ℚ
  pataDerRotInc : ℚ
  pataTrasRotInc : ℚ
  soporteTrasRotInc : ℚ
  adornoRotInc : ℚ
  pinturaRotZInc : ℚ
  i_max_steps : Int
  i_curr_steps : Int
  KeyFrame : Int → FRAME
  FrameIndex : Int
  play : Bool
  playIndex : Int

/-- The function `resetElements`: copies the 16 animated fields of
`KeyFrame[0]` into the globals and zeroes `playIndex` and `i_curr_steps`. -/
def resetElements (c : Caballete) : Caballete :=
  { c with
    posX := (c.KeyFrame 0).posX
    posY := (c.KeyFrame 0).posY
    posZ := (c.KeyFrame 0).posZ
    basePosY := (c.KeyFrame 0).basePosY
    pataIzqPosY := (c.KeyFrame 0).pataIzqPosY
    pataDerPosY := (c.KeyFrame 0).pataDerPosY
    pataTrasPosY := (c.KeyFrame 0).pataTrasPosY
    soporteTrasPosY := (c.KeyFrame 0).soporteTrasPosY
    adornoPosY := (c.KeyFrame 0).adornoPosY
    baseRot := (c.KeyFrame 0).baseRot
    pataIzqRot := (c.KeyFrame 0).pataIzqRot
    pataDerRot := (c.KeyFrame 0).pataDerRot
    pataTrasRot := (c.KeyFrame 0).pataTrasRot
    soporteTrasRot := (c.KeyFrame 0).soporteTrasRot
    adornoRot := (c.KeyFrame 0).adornoRot
    pinturaRotZ := (c.KeyFrame 0).pinturaRotZ
    playIndex := 0
    i_curr_steps := 0 }

/-- The function `interpolation`: reads `KeyFrame[playIndex + 1]` and
`KeyFrame[playIndex]` and stores the 16 per-step increments. It fails when
one of the two reads is outside the array. -/
def interpolation (c : Caballete) : Option Caballete :=
  if 0 ≤ c.playIndex ∧ c.playIndex + 1 < MAX_FRAMES then
    some { c with
      incX := ((c.KeyFrame (c.playIndex + 1)).posX - (c.KeyFrame c.playIndex).posX) / (c.i_max_steps : ℚ)
      incY := ((c.KeyFrame (c.playIndex + 1)).posY - (c.KeyFrame c.playIndex).posY) / (c.i_max_steps : ℚ)
      incZ := ((c.KeyFrame (c.playIndex + 1)).posZ - (c.KeyFrame c.playIndex).posZ) / (c.i_max_steps : ℚ)
      basePosYInc := ((c.KeyFrame (c.playIndex + 1)).basePosY - (c.KeyFrame c.playIndex).basePosY) / (c.i_max_steps : ℚ)
      pataIzqPosYInc := ((c.KeyFrame (c.playIndex + 1)).pataIzqPosY - (c.KeyFrame c.playIndex).pataIzqPosY) / (c.i_max_steps : ℚ)
      pataDerPosYInc := ((c.KeyFrame (c.playIndex + 1)).pataDerPosY - (c.KeyFrame c.playIndex).pataDerPosY) / (c.i_max_steps : ℚ)
      pataTrasPosYInc := ((c.KeyFrame (c.playIndex + 1)).pataTrasPosY - (c.KeyFrame c.playIndex).pataTrasPosY) / (c.i_max_steps : ℚ)
      soporteTrasPosYInc := ((c.KeyFrame (c.playIndex + 1)).soporteTrasPosY - (c.KeyFrame c.playIndex).soporteTrasPosY) / (c.i_max_steps : ℚ)
      adornoPosYInc := ((c.KeyFrame (c.playIndex + 1)).adornoPosY - (c.KeyFrame c.playIndex).adornoPosY) / (c.i_max_steps : ℚ)
      baseRotInc := ((c.KeyFrame (c.playIndex + 1)).baseRot - (c.KeyFrame c.playIndex).baseRot) / (c.i_max_steps : ℚ)
      pataIzqRotInc := ((c.KeyFrame (c.playIndex + 1)).pataIzqRot - (c.KeyFrame c.playIndex).pataIzqRot) / (c.i_max_steps : ℚ)
      pataDerRotInc := ((c.KeyFrame (c.playIndex + 1)).pataDerRot - (c.KeyFrame c.playIndex).pataDerRot) / (c.i_max_steps : ℚ)
      pataTrasRotInc := ((c.KeyFrame (c.playIndex + 1)).pataTrasRot - (c.KeyFrame c.playIndex).pataTrasRot) / (c.i_max_steps : ℚ)
      soporteTrasRotInc := ((c.KeyFrame (c.playIndex + 1)).soporteTrasRot - (c.KeyFrame c.playIndex).soporteTrasRot) / (c.i_max_steps : ℚ)
      adornoRotInc := ((c.KeyFrame (c.playIndex + 1)).adornoRot - (c.KeyFrame c.playIndex).adornoRot) / (c.i_max_steps : ℚ)
      pinturaRotZInc := ((c.KeyFrame (c.playIndex + 1)).pinturaRotZ - (c.KeyFrame c.playIndex).pinturaRotZ) / (c.i_max_steps : ℚ) }
  else none

/-- Part 1 of `animate` (the block `if (play)`), for a given `speedFactor`. -/
def animateCaballete (speedFactor : ℚ) (c : Caballete) : Option Caballete :=
  if c.play then
    if c.i_curr_steps ≥ c.i_max_steps then
      let c1 := { c with playIndex := c.playIndex + 1 }
      if c1.playIndex > c1.FrameIndex - 2 then
        some { c1 with playIndex := 0, play := false }
      else
        interpolation { c1 with i_curr_steps := 0 }
    else
      some { c with
        posX := c.posX + c.incX * speedFactor
        posY := c.posY + c.incY * speedFactor
        posZ := c.posZ + c.incZ * speedFactor
        basePosY := c.basePosY + c.basePosYInc * speedFactor
        pataIzqPosY := c.pataIzqPosY + c.pataIzqPosYInc * speedFactor
        pataDerPosY := c.pataDerPosY + c.pataDerPosYInc * speedFactor
        pataTrasPosY := c.pataTrasPosY + c.pataTrasPosYInc * speedFactor
        soporteTrasPosY := c.soporteTrasPosY + c.soporteTrasPosYInc * speedFactor
        adornoPosY := c.adornoPosY + c.adornoPosYInc * speedFactor
        baseRot := c.baseRot + c.baseRotInc * speedFactor
        pataIzqRot := c.pataIzqRot + c.pataIzqRotInc * speedFactor
        pataDerRot := c.pataDerRot + c.pataDerRotInc * speedFactor
        pataTrasRot := c.pataTrasRot + c.pataTrasRotInc * speedFactor
        soporteTrasRot := c.soporteTrasRot + c.soporteTrasRotInc * speedFactor
        adornoRot := c.adornoRot + c.adornoRotInc * speedFactor
        pinturaRotZ := c.pinturaRotZ + c.pinturaRotZInc * speedFactor
        i_curr_steps := c.i_curr_steps + 1 }
  else some c

/-- The branch of `my_input` for the key `Z` (start / stop the assembly
track). -/
def keyZ (c : Caballete) : Option Caballete :=
  if c.play = false ∧ c.FrameIndex > 1 then
    match interpolation (resetElements c) with
    | some c1 => some { c1 with play := true, playIndex := 0, i_curr_steps := 0 }
    | none => none
  else
    some { c with play := false }

/-! ## GLM helpers -/

/-- Modelled from the spec: `glm::mix`, whose definition is in the GLM
library and not under `src/`; the linear blend `x * (1 - a) + y * a`. -/
def mix (x y a : ℚ) : ℚ := x * (1 - a) + y * a

/-- Modelled from the spec: `glm::clamp`, whose definition is in the GLM
library and not under `src/`; `min (max x minVal) maxVal`. -/
def clamp (x minVal maxVal : ℚ) : ℚ := min (max x minVal) maxVal

/-! ## Section 10 of the source: spotlight -/

/-- The globals of the spotlight oscillator. -/
structure Foco where
  focoIntensidad : ℚ
  focoSubiendo : Bool

/-- Part 2 of `animate` (intensity oscillation). -/
def animateFoco (speedFactor : ℚ) (c : Foco) : Foco :=
  if c.focoSubiendo then
    let c1 := { c with focoIntensidad := c.focoIntensidad + (2 / 100) * speedFactor }
    if c1.focoIntensidad ≥ 1 then { c1 with focoSubiendo := false } else c1
  else
    let c1 := { c with focoIntensidad := c.focoIntensidad - (2 / 100) * speedFactor }
    if c1.focoIntensidad ≤ 0 then { c1 with focoSubiendo := true } else c1

/-! ## Section 6 of the source: rocking chair -/

/-- The record `SILLAFRAME`. -/
structure SILLAFRAME where
  rotSilla : ℚ

/-- The globals of the chair track. -/
structure Silla where
  rotSilla : ℚ
  SillaKeyFrame : Int → SILLAFRAME
  playIndexSilla : Int
  i_max_steps_silla : Int
  playSilla : Bool
  sillaInterpT : ℚ
  firstPlaySilla : Bool

/-- One branch of the chair chain: blend keyframes `a` and `b` at the
current `sillaInterpT`, then roll over to segment `next` when
`sillaInterpT >= 1`. -/
def sillaTramo (c : Silla) (a b next : Int) : Silla :=
  let c1 := { c with rotSilla := mix (c.SillaKeyFrame a).rotSilla (c.SillaKeyFrame b).rotSilla c.sillaInterpT }
  if c1.sillaInterpT ≥ 1 then { c1 with sillaInterpT := 0, playIndexSilla := next } else c1

/-- Part 3 of `animate` (chair track). -/
def animateSilla (speedFactor : ℚ) (c : Silla) : Silla :=
  if c.playSilla then
    let c1 := if c.firstPlaySilla then
        { c with playIndexSilla := 0, sillaInterpT := 0, firstPlaySilla := false }
      else c
    let tInc : ℚ := 1 / (c1.i_max_steps_silla : ℚ)
    let c2 := { c1 with sillaInterpT := c1.sillaInterpT + tInc * speedFactor }
    if c2.playIndexSilla = 0 then sillaTramo c2 0 1 1
    else if c2.playIndexSilla = 1 then sillaTramo c2 1 2 2
    else if c2.playIndexSilla = 2 then sillaTramo c2 2 3 3
    else if c2.playIndexSilla = 3 then sillaTramo c2 3 0 0
    else c2
  else
    { c with firstPlaySilla := true }

/-! ## Section 8 of the source: brush and canvas -/

/-- The record `PINCELFRAME`. -/
structure PINCELFRAME where
  posX : ℚ
  posY : ℚ
  posZ : ℚ
  rotZ : ℚ

/-- The globals of the brush track and of the canvas layer. -/
structure Pincel where
  PincelKeyFrame : Int → PINCELFRAME
  playIndexPincel : Int
  pincelInterpT : ℚ
  playPincel : Bool
  firstPlayPincel : Bool
  i_max_steps_pincel : Int
  posPincelX : ℚ
  posPincelY : ℚ
  posPincelZ : ℚ
  rotPincelZ : ℚ
  pinturaActual : Int
  mezclaPintura : ℚ

/-- One branch of the brush chain: blend keyframes `a` and `b` at the
current `pincelInterpT`, then, when `pincelInterpT >= 1`, roll over to
segment `next` and select paint layer `capa`. -/
def pincelTramo (c : Pincel) (a b next capa : Int) : Pincel :=
  let c1 := { c with
    posPincelX := mix (c.PincelKeyFrame a).posX (c.PincelKeyFrame b).posX c.pincelInterpT
    posPincelY := mix (c.PincelKeyFrame a).posY (c.PincelKeyFrame b).posY c.pincelInterpT
    posPincelZ := mix (c.PincelKeyFrame a).posZ (c.PincelKeyFrame b).posZ c.pincelInterpT
    rotPincelZ := mix (c.PincelKeyFrame a).rotZ (c.PincelKeyFrame b).rotZ c.pincelInterpT }
  if c1.pincelInterpT ≥ 1 then
    { c1 with pincelInterpT := 0, playIndexPincel := next, pinturaActual := capa }
  else c1

/-- Part 4 of `animate` (brush track). -/
def animatePincel (speedFactor : ℚ) (c : Pincel) : Pincel :=
  if c.playPincel then
    let c1 := if c.firstPlayPincel then
        { c with playIndexPincel := 0, pincelInterpT := 0, firstPlayPincel := false }
      else c
    let tInc : ℚ := 1 / (c1.i_max_steps_pincel : ℚ)
    let c2 := { c1 with pincelInterpT := c1.pincelInterpT + tInc * speedFactor }
    let c3 := { c2 with mezclaPintura := c2.pincelInterpT }
    if c3.playIndexPincel = 0 then pincelTramo c3 0 1 1 1
    else if c3.playIndexPincel = 1 then pincelTramo c3 1 2 2 2
    else if c3.playIndexPincel = 2 then pincelTramo c3 2 3 3 3
    else if c3.playIndexPincel = 3 then pincelTramo c3 3 4 0 4
    else c3
  else
    { c with firstPlayPincel := true }

/-! ## Section 11 of the source: `animate` -/

/-- The animation globals of the program. -/
structure State where
  deltaTime : ℚ
  cab : Caballete
  foco : Foco
  silla : Silla
  pincel : Pincel

/-- The first three lines of `animate`: the speed factor of a tick. -/
def speedFactor (deltaTime : ℚ) : ℚ :=
  clamp (if deltaTime > 0 then deltaTime * 80 else 1) (1 / 10) 5

/-- The body of `animate` after the speed factor has been computed. -/
def animateWith (f : ℚ) (s : State) : Option State :=
  match animateCaballete f s.cab with
  | some c =>
    some { s with
      cab := c
      foco := animateFoco f s.foco
      silla := animateSilla f s.silla
      pincel := animatePincel f s.pincel }
  | none => none

/-- The function `animate`: one tick of all four animations. -/
def animate (s : State) : Option State :=
  animateWith (speedFactor s.deltaTime) s

/-- A run of ticks, one speed factor per tick. -/
def runTicks : List ℚ → State → Option State
  | [], s => some s
  | f :: fs, s =>
    match animateWith f s with
    | some s1 => runTicks fs s1
    | none => none

/-! ## Section 13 of the source: the animation keys of `my_input` -/

/-- The animation keys handled by `my_input` (press events). -/
inductive Key where
  | Z
  | E
  | Q

/-- The branch of `my_input` for the key `E` (toggle the chair track). -/
def keyE (c : Silla) : Silla :=
  let c1 := { c with playSilla := !c.playSilla }
  if c1.playSilla then
    { c1 with playIndexSilla := 0, sillaInterpT := 0, firstPlaySilla := true }
  else c1

/-- The branch of `my_input` for the key `Q` (toggle the brush track). -/
def keyQ (c : Pincel) : Pincel :=
  let c1 := { c with playPincel := !c.playPincel }
  if c1.playPincel then
    { c1 with playIndexPincel := 0, pincelInterpT := 0, firstPlayPincel := true }
  else c1

/-- The animation part of `my_input`. -/
def my_input (k : Key) (s : State) : Option State :=
  match k with
  | Key.Z =>
    match keyZ s.cab with
    | some c => some { s with cab := c }
    | none => none
  | Key.E => some { s with silla := keyE s.silla }
  | Key.Q => some { s with pincel := keyQ s.pincel }

/-! ## Section 8 of `main`: keyframe authoring and initial values -/

/-- The assignment `KeyFrame[i] = v`. -/
def setKeyFrame (K : Int → FRAME) (i : Int) (v : FRAME) : Int → FRAME :=
  fun j => if j = i then v else K j

/-- The authoring code of section 8.1 of `main`, statement by statement (a
copy followed by field assignments is written as one record update). The
last statement writes slot 20, which is not a slot of the array. -/
def authorKeyFrames (K : Int → FRAME) : Int → FRAME :=
  let K := setKeyFrame K 0 { K 0 with
    posX := 3000, posY := 400, posZ := -2500,
    basePosY := 0, pataDerPosY := 0, pataIzqPosY := 0, soporteTrasPosY := 0,
    pataTrasPosY := 0, adornoPosY := 0, pinturaPosY := 0,
    baseRot := -90, pataDerRot := 0, pataIzqRot := 0, soporteTrasRot := -10,
    pataTrasRot := 22, pinturaRot := -10, pinturaRotZ := 0, adornoRot := 90 }
  let K := setKeyFrame K 1 { K 0 with basePosY := -500 }
  let K := setKeyFrame K 2 { K 1 with pataDerPosY := -500 }
  let K := setKeyFrame K 3 { K 2 with pataIzqPosY := -500 }
  let K := setKeyFrame K 4 { K 3 with soporteTrasPosY := -500 }
  let K := setKeyFrame K 5 { K 4 with pataTrasPosY := -500 }
  let K := setKeyFrame K 6 { K 5 with adornoPosY := -500 }
  let K := setKeyFrame K 7 { K 6 with
    pinturaPosY := 350, pinturaRotZ := 45, pinturaRot := -15,
    posZ := -2380, posX := (K 0).posX - 20 }
  let K := setKeyFrame K 8 { K 7 with
    pinturaPosY := 500, pinturaRotZ := 180, pinturaRot := -20,
    posX := (K 7).posX + 10, posZ := -2340 }
  let K := setKeyFrame K 9 { K 8 with
    pinturaPosY := 600, pinturaRotZ := 360, pinturaRot := -10,
    posX := (K 8).posX - 10, posZ := -2360 }
  let K := setKeyFrame K 10 { K 9 with
    pinturaRotZ := 270, pinturaPosY := 500,
    posX := (K 0).posX - 10, posZ := -2400 }
  let K := setKeyFrame K 11 { K 10 with
    pinturaRotZ := 180, pinturaPosY := 350,
    posX := (K 0).posX - 20, posZ := -2480 }
  let K := setKeyFrame K 12 { K 11 with
    pinturaRotZ := 0, pinturaRot := -10, pinturaPosY := 0 }
  let K := setKeyFrame K 13 { K 12 with adornoPosY := 0 }
  let K := setKeyFrame K 14 { K 13 with pataTrasPosY := 0 }
  let K := setKeyFrame K 15 { K 14 with soporteTrasPosY := 0 }
  let K := setKeyFrame K 16 { K 15 with pataIzqPosY := 0 }
  let K := setKeyFrame K 17 { K 16 with pataDerPosY := 0 }
  let K := setKeyFrame K 18 { K 17 with basePosY := 0 }
  let K := setKeyFrame K 19 (K 0)
  let K := setKeyFrame K 20 (K 19)
  K

/-- The authored assembly keyframes: the authoring code run on the
zero-initialised array. -/
def authoredKeyFrame : Int → FRAME :=
  authorKeyFrames (fun _ => FRAME.zero)

/-- The authored chair keyframes (section 8.2 of `main`). -/
def authoredSillaKeyFrame : Int → SILLAFRAME :=
  fun i =>
    if i = 0 then { rotSilla := 0 }
    else if i = 1 then { rotSilla := 10 }
    else if i = 2 then { rotSilla := -10 }
    else if i = 3 then { rotSilla := 0 }
    else { rotSilla := 0 }

/-- The authored brush keyframes (section 8.4 of `main`). -/
def authoredPincelKeyFrame : Int → PINCELFRAME :=
  fun i =>
    if i = 0 then { posX := 2875, posY := 380, posZ := -1000, rotZ := 0 }
    else if i = 1 then { posX := 2885, posY := 385, posZ := -1020, rotZ := 10 }
    else if i = 2 then { posX := 2895, posY := 390, posZ := -1040, rotZ := -10 }
    else if i = 3 then { posX := 2885, posY := 385, posZ := -1010, rotZ := 5 }
    else if i = 4 then { posX := 2875, posY := 380, posZ := -1000, rotZ := 0 }
    else { posX := 0, posY := 0, posZ := 0, rotZ := 0 }

/-- The assembly globals when the render loop starts: the initialisers of
the declarations and the authored keyframes. -/
def initialCaballete : Caballete :=
  { posX := 0, posY := 0, posZ := 0,
    basePosY := 0, pataIzqPosY := 0, pataDerPosY := 0, pataTrasPosY := 0,
    soporteTrasPosY := 0, adornoPosY := 0,
    baseRot := 0, pataIzqRot := 0, pataDerRot := 0, pataTrasRot := 0,
    soporteTrasRot := 0, adornoRot := 0, pinturaRotZ := 0,
    incX := 0, incY := 0, incZ := 0,
    basePosYInc := 0, pataIzqPosYInc := 0, pataDerPosYInc := 0, pataTrasPosYInc := 0,
    soporteTrasPosYInc := 0, adornoPosYInc := 0,
    baseRotInc := 0, pataIzqRotInc := 0, pataDerRotInc := 0, pataTrasRotInc := 0,
    soporteTrasRotInc := 0, adornoRotInc := 0, pinturaRotZInc := 0,
    i_max_steps := 45, i_curr_steps := 0,
    KeyFrame := authoredKeyFrame, FrameIndex := 20,
    play := false, playIndex := 0 }

/-- The spotlight globals when the render loop starts. -/
def initialFoco : Foco :=
  { focoIntensidad := 20, focoSubiendo := true }

/-- The chair globals when the render loop starts (`main` sets
`i_max_steps_silla = 35`). -/
def initialSilla : Silla :=
  { rotSilla := 0, SillaKeyFrame := authoredSillaKeyFrame,
    playIndexSilla := 0, i_max_steps_silla := 35,
    playSilla := false, sillaInterpT := 0, firstPlaySilla := true }

/-- The brush globals when the render loop starts. -/
def initialPincel : Pincel :=
  { PincelKeyFrame := authoredPincelKeyFrame,
    playIndexPincel := 0, pincelInterpT := 0,
    playPincel := false, firstPlayPincel := true, i_max_steps_pincel := 30,
    posPincelX := 2875, posPincelY := 380, posPincelZ := -1000, rotPincelZ := 0,
    pinturaActual := 0, mezclaPintura := 1 / 2 }

/-- The animation globals when the render loop starts. -/
def initialState : State :=
  { deltaTime := 0, cab := initialCaballete, foco := initialFoco,
    silla := initialSilla, pincel := initialPincel }

/-- The state right after the first `Z` command of a session: the `Z` branch
of `my_input` run on the initial state. -/
def playbackStart : State :=
  (my_input Key.Z initialState).getD initialState

/-! ## Views used to state the properties -/

/-- The 16 animated attributes of the assembly track. -/
inductive Attr where
  | posX
  | posY
  | posZ
  | basePosY
  | pataIzqPosY
  | pataDerPosY
  | pataTrasPosY
  | soporteTrasPosY
  | adornoPosY
  | baseRot
  | pataIzqRot
  | pataDerRot
  | pataTrasRot
  | soporteTrasRot
  | adornoRot
  | pinturaRotZ

/-- The value of an animated attribute in a keyframe. -/
def FRAME.attr (k : FRAME) : Attr → ℚ
  | Attr.posX => k.posX
  | Attr.posY => k.posY
  | Attr.posZ => k.posZ
  | Attr.basePosY => k.basePosY
  | Attr.pataIzqPosY => k.pataIzqPosY
  | Attr.pataDerPosY => k.pataDerPosY
  | Attr.pataTrasPosY => k.pataTrasPosY
  | Attr.soporteTrasPosY => k.soporteTrasPosY
  | Attr.adornoPosY => k.adornoPosY
  | Attr.baseRot => k.baseRot
  | Attr.pataIzqRot => k.pataIzqRot
  | Attr.pataDerRot => k.pataDerRot
  | Attr.pataTrasRot => k.pataTrasRot
  | Attr.soporteTrasRot => k.soporteTrasRot
  | Attr.adornoRot => k.adornoRot
  | Attr.pinturaRotZ => k.pinturaRotZ

/-- The current value of an animated attribute (the global of that name). -/
def Caballete.attr (c : Caballete) : Attr → ℚ
  | Attr.posX => c.posX
  | Attr.posY => c.posY
  | Attr.posZ => c.posZ
  | Attr.basePosY => c.basePosY
  | Attr.pataIzqPosY => c.pataIzqPosY
  | Attr.pataDerPosY => c.pataDerPosY
  | Attr.pataTrasPosY => c.pataTrasPosY
  | Attr.soporteTrasPosY => c.soporteTrasPosY
  | Attr.adornoPosY => c.adornoPosY
  | Attr.baseRot => c.baseRot
  | Attr.pataIzqRot => c.pataIzqRot
  | Attr.pataDerRot => c.pataDerRot
  | Attr.pataTrasRot => c.pataTrasRot
  | Attr.soporteTrasRot => c.soporteTrasRot
  | Attr.adornoRot => c.adornoRot
  | Attr.pinturaRotZ => c.pinturaRotZ

/-- The increment variable of an animated attribute. -/
def Caballete.inc (c : Caballete) : Attr → ℚ
  | Attr.posX => c.incX
  | Attr.posY => c.incY
  | Attr.posZ => c.incZ
  | Attr.basePosY => c.basePosYInc
  | Attr.pataIzqPosY => c.pataIzqPosYInc
  | Attr.pataDerPosY => c.pataDerPosYInc
  | Attr.pataTrasPosY => c.pataTrasPosYInc
  | Attr.soporteTrasPosY => c.soporteTrasPosYInc
  | Attr.adornoPosY => c.adornoPosYInc
  | Attr.baseRot => c.baseRotInc
  | Attr.pataIzqRot => c.pataIzqRotInc
  | Attr.pataDerRot => c.pataDerRotInc
  | Attr.pataTrasRot => c.pataTrasRotInc
  | Attr.soporteTrasRot => c.soporteTrasRotInc
  | Attr.adornoRot => c.adornoRotInc
  | Attr.pinturaRotZ => c.pinturaRotZInc

/-- A run of ticks of the assembly block alone. -/
def runCab : List ℚ → Caballete → Option Caballete
  | [], c => some c
  | f :: fs, c =>
    match animateCaballete f c with
    | some c1 => runCab fs c1
    | none => none

/-- The track has just entered segment `p` of a playback run at the constant
speed factor `f`: the attributes have moved from `KeyFrame[0]` by `f` times
the distance to `KeyFrame[p]`, and the increments are those of segment `p`. -/
def SegStart (K : Int → FRAME) (FI N : Int) (f : ℚ) (p : Int) (c : Caballete) : Prop :=
  c.play = true ∧ c.playIndex = p ∧ c.i_curr_steps = 0 ∧
  c.KeyFrame = K ∧ c.FrameIndex = FI ∧ c.i_max_steps = N ∧
  (∀ a, c.attr a = (K 0).attr a + f * ((K p).attr a - (K 0).attr a)) ∧
  (∀ a, c.inc a = ((K (p + 1)).attr a - (K p).attr a) / (N : ℚ))

/-- The call of `interpolation` made by a tick of the assembly block: the
state the function is called in, when the tick reaches the call (track
playing, segment completed, not the last segment). -/
def tickInterpolationCall (c : Caballete) : Option Caballete :=
  if c.play then
    if c.i_curr_steps ≥ c.i_max_steps then
      let c1 := { c with playIndex := c.playIndex + 1 }
      if c1.playIndex > c1.FrameIndex - 2 then none
      else some { c1 with i_curr_steps := 0 }
    else none
  else none

/-- A run of ticks of the chair block alone. -/
def runSilla : List ℚ → Silla → Silla
  | [], c => c
  | f :: fs, c => runSilla fs (animateSilla f c)

/-- Whether a tick of the chair block completes a segment, that is, executes
one of the four blocks guarded by `sillaInterpT >= 1.0f`. -/
def sillaRollover (speedFactor : ℚ) (c : Silla) : Bool :=
  if c.playSilla then
    let c1 := if c.firstPlaySilla then
        { c with playIndexSilla := 0, sillaInterpT := 0, firstPlaySilla := false }
      else c
    let tInc : ℚ := 1 / (c1.i_max_steps_silla : ℚ)
    let c2 := { c1 with sillaInterpT := c1.sillaInterpT + tInc * speedFactor }
    decide (0 ≤ c2.playIndexSilla ∧ c2.playIndexSilla ≤ 3 ∧ c2.sillaInterpT ≥ 1)
  else false

/-- The number of segment completions during a run of the chair block. -/
def sillaRollovers : List ℚ → Silla → ℕ
  | [], _ => 0
  | f :: fs, c => (if sillaRollover f c then 1 else 0) + sillaRollovers fs (animateSilla f c)

/-- A run of ticks of the brush block alone. -/
def runPincel : List ℚ → Pincel → Pincel
  | [], c => c
  | f :: fs, c => runPincel fs (animatePincel f c)

/-- Whether a tick of the brush block completes a segment, that is, executes
one of the four blocks guarded by `pincelInterpT >= 1.0f`. -/
def pincelRollover (speedFactor : ℚ) (c : Pincel) : Bool :=
  if c.playPincel then
    let c1 := if c.firstPlayPincel then
        { c with playIndexPincel := 0, pincelInterpT := 0, firstPlayPincel := false }
      else c
    let tInc : ℚ := 1 / (c1.i_max_steps_pincel : ℚ)
    let c2 := { c1 with pincelInterpT := c1.pincelInterpT + tInc * speedFactor }
    decide (0 ≤ c2.playIndexPincel ∧ c2.playIndexPincel ≤ 3 ∧ c2.pincelInterpT ≥ 1)
  else false

/-- The number of segment completions during a run of the brush block. -/
def pincelRollovers : List ℚ → Pincel → ℕ
  | [], _ => 0
  | f :: fs, c => (if pincelRollover f c then 1 else 0) + pincelRollovers fs (animatePincel f c)

/-- The paint layer the brush chain has selected after `r` segment
completions, starting from layer 0: the four branches assign 1, 2, 3, 4 in
turn, so the layers run 0, 1, 2, 3, 4, 1, 2, 3, 4, 1, ... -/
def capaTras (r : ℕ) : Int :=
  if r = 0 then 0 else (((r - 1) % 4 : ℕ) : Int) + 1

/-- The block `if (firstPlaySilla) { ... }` at the head of the chair part of
`animate`: the pending activation reset. -/
def sillaFirstPlay (c : Silla) : Silla :=
  if c.firstPlaySilla then
    { c with playIndexSilla := 0, sillaInterpT := 0, firstPlaySilla := false }
  else c

/-- The reference step of the chair, in the words of the specification, with
`s = playIndexSilla` and `t = sillaInterpT`: `t1 = t + f / i_max_steps_silla`;
`rotSilla = lerp(SillaKeyFrame[s], SillaKeyFrame[(s+1) mod 4], t1)`; if
`t1 >= 1` then `t = 0` and `s = (s+1) mod 4`, else `t = t1` and `s` is
unchanged. -/
def sillaRefStep (f : ℚ) (c : Silla) : Silla :=
  let t1 : ℚ := c.sillaInterpT + f / (c.i_max_steps_silla : ℚ)
  let r : ℚ := mix (c.SillaKeyFrame c.playIndexSilla).rotSilla
    (c.SillaKeyFrame ((c.playIndexSilla + 1) % 4)).rotSilla t1
  if t1 ≥ 1 then
    { c with rotSilla := r, sillaInterpT := 0, playIndexSilla := (c.playIndexSilla + 1) % 4 }
  else
    { c with rotSilla := r, sillaInterpT := t1 }

/-- The states of the program: the state in which the render loop starts, and
every state reached from it by animation keys and by `animate` ticks whose
speed factor lies in `[0.1, 5.0]`. -/
inductive Reachable : State → Prop where
  | init : Reachable initialState
  | key (s s1 : State) (k : Key) (hs : Reachable s) (hk : my_input k s = some s1) :
      Reachable s1
  | tick (s s1 : State) (f : ℚ) (hs : Reachable s) (hlo : 1 / 10 ≤ f) (hhi : f ≤ 5)
      (ht : animateWith f s = some s1) : Reachable s1

/-- The invariant of the chair globals: progress in `[0, 1)`, a segment index
in `{0, 1, 2, 3}`, the step count set by `main`, and an activation reset that
is pending on an active track only at segment 0 with `t = 0`. -/
def SillaInv (c : Silla) : Prop :=
  0 ≤ c.sillaInterpT ∧ c.sillaInterpT < 1 ∧
  0 ≤ c.playIndexSilla ∧ c.playIndexSilla ≤ 3 ∧
  c.i_max_steps_silla = 35 ∧
  (c.playSilla = true → c.firstPlaySilla = true →
    c.playIndexSilla = 0 ∧ c.sillaInterpT = 0)

/-- The invariant of the brush globals: progress in `[0, 1)`, a segment index
in `{0, 1, 2, 3}`, a paint layer in `{0, .., 4}`, the initial step count, and
an activation reset that is pending on an active track only at segment 0 with
`t = 0`. -/
def PincelInv (c : Pincel) : Prop :=
  0 ≤ c.pincelInterpT ∧ c.pincelInterpT < 1 ∧
  0 ≤ c.playIndexPincel ∧ c.playIndexPincel ≤ 3 ∧
  0 ≤ c.pinturaActual ∧ c.pinturaActual ≤ 4 ∧
  c.i_max_steps_pincel = 30 ∧
  (c.playPincel = true → c.firstPlayPincel = true →
    c.playIndexPincel = 0 ∧ c.pincelInterpT = 0)

/-- A run of ticks of the spotlight block alone. -/
def runFoco : List ℚ → Foco → Foco
  | [], c => c
  | f :: fs, c => runFoco fs (animateFoco f c)

/-- The constant `FPS` of the source. -/
def FPS : Int := 60

/-- The constant `LOOP_TIME = 1000 / FPS` of the source (integer division): the
target duration of a frame in milliseconds, the unit of `SDL_GetTicks` and
hence of `deltaTime`. -/
def LOOP_TIME : Int := 1000 / FPS

/-- The 20 fields of the record `FRAME`. -/
inductive Campo where
  | rotSilla
  | rotRodIzq
  | posX
  | posY
  | posZ
  | basePosY
  | baseRot
  | pataIzqPosY
  | pataIzqRot
  | pataDerPosY
  | pataDerRot
  | pataTrasPosY
  | pataTrasRot
  | soporteTrasPosY
  | soporteTrasRot
  | pinturaPosY
  | pinturaRot
  | pinturaRotZ
  | adornoPosY
  | adornoRot

/-- The value of a field in a keyframe. -/
def FRAME.campo (k : FRAME) : Campo → ℚ
  | Campo.rotSilla => k.rotSilla
  | Campo.rotRodIzq => k.rotRodIzq
  | Campo.posX => k.posX
  | Campo.posY => k.posY
  | Campo.posZ => k.posZ
  | Campo.basePosY => k.basePosY
  | Campo.baseRot => k.baseRot
  | Campo.pataIzqPosY => k.pataIzqPosY
  | Campo.pataIzqRot => k.pataIzqRot
  | Campo.pataDerPosY => k.pataDerPosY
  | Campo.pataDerRot => k.pataDerRot
  | Campo.pataTrasPosY => k.pataTrasPosY
  | Campo.pataTrasRot => k.pataTrasRot
  | Campo.soporteTrasPosY => k.soporteTrasPosY
  | Campo.soporteTrasRot => k.soporteTrasRot
  | Campo.pinturaPosY => k.pinturaPosY
  | Campo.pinturaRot => k.pinturaRot
  | Campo.pinturaRotZ => k.pinturaRotZ
  | Campo.adornoPosY => k.adornoPosY
  | Campo.adornoRot => k.adornoRot

/-- The keyframe field that an animated attribute is interpolated from: the
field read by `resetElements`, `interpolation` and `saveFrame` for the global
of that name. -/
def Attr.campo : Attr → Campo
  | Attr.posX => Campo.posX
  | Attr.posY => Campo.posY
  | Attr.posZ => Campo.posZ
  | Attr.basePosY => Campo.basePosY
  | Attr.pataIzqPosY => Campo.pataIzqPosY
  | Attr.pataDerPosY => Campo.pataDerPosY
  | Attr.pataTrasPosY => Campo.pataTrasPosY
  | Attr.soporteTrasPosY => Campo.soporteTrasPosY
  | Attr.adornoPosY => Campo.adornoPosY
  | Attr.baseRot => Campo.baseRot
  | Attr.pataIzqRot => Campo.pataIzqRot
  | Attr.pataDerRot => Campo.pataDerRot
  | Attr.pataTrasRot => Campo.pataTrasRot
  | Attr.soporteTrasRot => Campo.soporteTrasRot
  | Attr.adornoRot => Campo.adornoRot
  | Attr.pinturaRotZ => Campo.pinturaRotZ

/-- The animated scalars that the render loop (section 11.5 of `main`) passes
to `glm::translate` and `glm::rotate` when it places the parts of the easel;
the constant offsets of the parts are left out. -/
structure Pose where
  posX : ℚ
  posY : ℚ
  posZ : ℚ
  pinturaRot : ℚ
  pinturaRotZ : ℚ
  soporteTrasPosY : ℚ
  soporteTrasRot : ℚ
  adornoPosY : ℚ
  adornoRot : ℚ
  basePosY : ℚ
  baseRot : ℚ
  pataDerPosY : ℚ
  pataDerRot : ℚ
  pataIzqPosY : ℚ
  pataIzqRot : ℚ
  pataTrasPosY : ℚ
  pataTrasRot : ℚ

/-- The easel part of the render loop: every scalar is read from
`KeyFrame[playIndex]`, except the canvas rotation about Z, which is the global
`pinturaRotZ`. The read fails when `playIndex` is outside the array. -/
def renderCaballete (c : Caballete) : Option Pose :=
  if 0 ≤ c.playIndex ∧ c.playIndex < MAX_FRAMES then
    some {
      posX := (c.KeyFrame c.playIndex).posX
      posY := (c.KeyFrame c.playIndex).posY
      posZ := (c.KeyFrame c.playIndex).posZ
      pinturaRot := (c.KeyFrame c.playIndex).pinturaRot
      pinturaRotZ := c.pinturaRotZ
      soporteTrasPosY := (c.KeyFrame c.playIndex).soporteTrasPosY
      soporteTrasRot := (c.KeyFrame c.playIndex).soporteTrasRot
      adornoPosY := (c.KeyFrame c.playIndex).adornoPosY
      adornoRot := (c.KeyFrame c.playIndex).adornoRot
      basePosY := (c.KeyFrame c.playIndex).basePosY
      baseRot := (c.KeyFrame c.playIndex).baseRot
      pataDerPosY := (c.KeyFrame c.playIndex).pataDerPosY
      pataDerRot := (c.KeyFrame c.playIndex).pataDerRot
      pataIzqPosY := (c.KeyFrame c.playIndex).pataIzqPosY
      pataIzqRot := (c.KeyFrame c.playIndex).pataIzqRot
      pataTrasPosY := (c.KeyFrame c.playIndex).pataTrasPosY
      pataTrasRot := (c.KeyFrame c.playIndex).pataTrasRot }
  else none

/-- The states of a playback: the state produced by a `Z` command that
starts the track, and every state that `animate` ticks lead to from it. -/
inductive PlaybackReachable : State → Prop where
  | start (s0 s : State) (hZ : my_input Key.Z s0 = some s) (hplay : s.cab.play = true) :
      PlaybackReachable s
  | tick (s s1 : State) (f : ℚ) (hs : PlaybackReachable s) (ht : animateWith f s = some s1) :
      PlaybackReachable s1

/-! ## Basic facts about the assembly block -/

theorem animateWith_cab (f : ℚ) (s s1 : State) (h : animateWith f s = some s1) :
    animateCaballete f s.cab = some s1.cab := by
  unfold animateWith at h
  cases hc : animateCaballete f s.cab with
  | none => simp [hc] at h
  | some c =>
    simp only [hc, Option.some.injEq] at h
    rw [← h]

theorem animateWith_of_cab (f : ℚ) (s : State) (c : Caballete)
    (h : animateCaballete f s.cab = some c) :
    ∃ s1, animateWith f s = some s1 ∧ s1.cab = c := by
  unfold animateWith
  simp [h]

theorem runTicks_of_runCab (fs : List ℚ) (s : State) (c : Caballete)
    (h : runCab fs s.cab = some c) :
    ∃ s1, runTicks fs s = some s1 ∧ s1.cab = c := by
  induction fs generalizing s with
  | nil =>
    simp only [runCab, Option.some.injEq] at h
    exact ⟨s, rfl, h⟩
  | cons f fs ih =>
    simp only [runCab] at h
    cases hc : animateCaballete f s.cab with
    | none => simp [hc] at h
    | some c1 =>
      simp only [hc] at h
      obtain ⟨s1, hs1, hcab⟩ := animateWith_of_cab f s c1 hc
      obtain ⟨s2, hs2, hcab2⟩ := ih s1 (by rw [hcab]; exact h)
      exact ⟨s2, by simp [runTicks, hs1, hs2], hcab2⟩

theorem runCab_append (fs gs : List ℚ) (c c1 : Caballete) (h : runCab fs c = some c1) :
    runCab (fs ++ gs) c = runCab gs c1 := by
  induction fs generalizing c with
  | nil =>
    simp only [runCab, Option.some.injEq] at h
    simp [h]
  | cons f fs ih =>
    simp only [runCab, List.cons_append] at h ⊢
    cases hc : animateCaballete f c with
    | none => simp [hc] at h
    | some c2 =>
      simp only [hc] at h ⊢
      exact ih c2 h

theorem interpolation_spec (c : Caballete)
    (h0 : 0 ≤ c.playIndex) (h1 : c.playIndex + 1 < MAX_FRAMES) :
    ∃ c1, interpolation c = some c1 ∧
      (∀ a, c1.inc a = ((c.KeyFrame (c.playIndex + 1)).attr a
          - (c.KeyFrame c.playIndex).attr a) / (c.i_max_steps : ℚ)) ∧
      (∀ a, c1.attr a = c.attr a) ∧
      c1.KeyFrame = c.KeyFrame ∧ c1.FrameIndex = c.FrameIndex ∧
      c1.i_max_steps = c.i_max_steps ∧ c1.playIndex = c.playIndex ∧
      c1.i_curr_steps = c.i_curr_steps ∧ c1.play = c.play := by
  have hv : 0 ≤ c.playIndex ∧ c.playIndex + 1 < MAX_FRAMES := ⟨h0, h1⟩
  unfold interpolation
  rw [if_pos hv]
  refine ⟨_, rfl, ?_, ?_, rfl, rfl, rfl, rfl, rfl, rfl⟩
  · intro a
    cases a <;> rfl
  · intro a
    cases a <;> rfl

theorem keyZ_start (c : Caballete) (hplay : c.play = false) (hFI : c.FrameIndex > 1) :
    ∃ c1, keyZ c = some c1 ∧ c1.play = true ∧ c1.playIndex = 0 ∧ c1.i_curr_steps = 0 ∧
      (∀ a, c1.attr a = (c.KeyFrame 0).attr a) ∧
      (∀ a, c1.inc a = ((c.KeyFrame 1).attr a - (c.KeyFrame 0).attr a) / (c.i_max_steps : ℚ)) ∧
      c1.KeyFrame = c.KeyFrame ∧ c1.FrameIndex = c.FrameIndex ∧
      c1.i_max_steps = c.i_max_steps := by
  obtain ⟨c1, hc1, hinc, hattr, hK, hF, hN, hp, hs, hpl⟩ :=
    interpolation_spec (resetElements c) (by simp [resetElements])
      (by simp [resetElements, MAX_FRAMES])
  refine ⟨{ c1 with play := true, playIndex := 0, i_curr_steps := 0 }, ?_, rfl, rfl, rfl,
    ?_, ?_, hK, hF, hN⟩
  · simp only [keyZ, hplay, hFI, and_self, if_true, hc1]
  · intro a
    have h := hattr a
    cases a <;> exact h
  · intro a
    have h := hinc a
    cases a <;> exact h

/-! ## One tick of the assembly block, branch by branch -/

theorem animateCaballete_idle (f : ℚ) (c : Caballete) (hplay : c.play = false) :
    animateCaballete f c = some c := by
  simp [animateCaballete, hplay]

theorem animateCaballete_advance (f : ℚ) (c : Caballete) (hplay : c.play = true)
    (hlt : c.i_curr_steps < c.i_max_steps) :
    ∃ c1, animateCaballete f c = some c1 ∧
      (∀ a, c1.attr a = c.attr a + c.inc a * f) ∧ (∀ a, c1.inc a = c.inc a) ∧
      c1.i_curr_steps = c.i_curr_steps + 1 ∧ c1.play = true ∧
      c1.playIndex = c.playIndex ∧ c1.KeyFrame = c.KeyFrame ∧
      c1.FrameIndex = c.FrameIndex ∧ c1.i_max_steps = c.i_max_steps := by
  have hge : ¬ (c.i_curr_steps ≥ c.i_max_steps) := by omega
  unfold animateCaballete
  rw [if_pos hplay, if_neg hge]
  refine ⟨_, rfl, ?_, ?_, rfl, hplay, rfl, rfl, rfl, rfl⟩
  · intro a
    cases a <;> rfl
  · intro a
    cases a <;> rfl

theorem animateCaballete_finish (f : ℚ) (c : Caballete) (hplay : c.play = true)
    (hge : c.i_curr_steps ≥ c.i_max_steps) (hlast : c.playIndex + 1 > c.FrameIndex - 2) :
    animateCaballete f c = some { c with playIndex := 0, play := false } := by
  unfold animateCaballete
  rw [if_pos hplay, if_pos hge]
  simp only [hlast, if_true]

theorem animateCaballete_next (f : ℚ) (c : Caballete) (hplay : c.play = true)
    (hge : c.i_curr_steps ≥ c.i_max_steps) (hnext : ¬ (c.playIndex + 1 > c.FrameIndex - 2))
    (h0 : 0 ≤ c.playIndex + 1) (h1 : c.playIndex + 1 + 1 < MAX_FRAMES) :
    ∃ c1, animateCaballete f c = some c1 ∧
      (∀ a, c1.attr a = c.attr a) ∧
      (∀ a, c1.inc a = ((c.KeyFrame (c.playIndex + 1 + 1)).attr a
          - (c.KeyFrame (c.playIndex + 1)).attr a) / (c.i_max_steps : ℚ)) ∧
      c1.i_curr_steps = 0 ∧ c1.play = true ∧
      c1.playIndex = c.playIndex + 1 ∧ c1.KeyFrame = c.KeyFrame ∧
      c1.FrameIndex = c.FrameIndex ∧ c1.i_max_steps = c.i_max_steps := by
  obtain ⟨c1, hc1, hinc, hattr, hK, hF, hN, hp, hs, hpl⟩ :=
    interpolation_spec { c with playIndex := c.playIndex + 1, i_curr_steps := 0 } h0 h1
  refine ⟨c1, ?_, ?_, hinc, hs, by rw [hpl]; exact hplay, hp, hK, hF, hN⟩
  · unfold animateCaballete
    rw [if_pos hplay, if_pos hge]
    simp only [hnext, if_false]
    exact hc1
  · intro a
    rw [hattr a]
    cases a <;> rfl

/-- A run of advancing ticks: as long as the step counter stays within
`i_max_steps`, every attribute has moved by its increment times the sum of
the speed factors. -/
theorem runCab_advance (fs : List ℚ) (c : Caballete) (hplay : c.play = true)
    (hk : c.i_curr_steps + (fs.length : ℤ) ≤ c.i_max_steps) :
    ∃ c1, runCab fs c = some c1 ∧
      (∀ a, c1.attr a = c.attr a + c.inc a * fs.sum) ∧ (∀ a, c1.inc a = c.inc a) ∧
      c1.i_curr_steps = c.i_curr_steps + (fs.length : ℤ) ∧ c1.play = true ∧
      c1.playIndex = c.playIndex ∧ c1.KeyFrame = c.KeyFrame ∧
      c1.FrameIndex = c.FrameIndex ∧ c1.i_max_steps = c.i_max_steps := by
  induction fs generalizing c with
  | nil =>
    exact ⟨c, rfl, by simp, by simp, by simp, hplay, rfl, rfl, rfl, rfl⟩
  | cons f fs ih =>
    simp only [List.length_cons, Nat.cast_add, Nat.cast_one] at hk
    obtain ⟨c1, hc1, hattr, hinc, hs, hpl, hp, hK, hF, hN⟩ :=
      animateCaballete_advance f c hplay (by omega)
    obtain ⟨c2, hc2, hattr2, hinc2, hs2, hpl2, hp2, hK2, hF2, hN2⟩ :=
      ih c1 hpl (by rw [hs, hN]; omega)
    refine ⟨c2, by simp only [runCab, hc1, hc2], ?_, ?_, ?_, hpl2, by rw [hp2, hp],
      by rw [hK2, hK], by rw [hF2, hF], by rw [hN2, hN]⟩
    · intro a
      rw [hattr2, hattr, hinc, List.sum_cons]
      ring
    · intro a
      rw [hinc2, hinc]
    · rw [hs2, hs]
      simp only [List.length_cons, Nat.cast_add, Nat.cast_one]
      ring

theorem sum_replicate_rat (n : ℕ) (f : ℚ) : (List.replicate n f).sum = (n : ℚ) * f := by
  simp [List.sum_replicate]

/-! ## The claims about `interpolation` and the `Z` command -/

/-- C5: for every `playIndex` such that `playIndex` and `playIndex + 1` are
slots of the keyframe array and every positive `i_max_steps`, the call
`interpolation()` returns, each of the 16 increment variables equals
`(KeyFrame[playIndex+1].a - KeyFrame[playIndex].a) / i_max_steps` for its
attribute `a`, and the keyframes, the attributes, `playIndex`,
`i_curr_steps`, `FrameIndex`, `i_max_steps` and `play` are unchanged. -/
theorem interpolation_computes_increments (c : Caballete)
    (h0 : 0 ≤ c.playIndex) (h1 : c.playIndex + 1 < MAX_FRAMES) (hN : 0 < c.i_max_steps) :
    ∃ c1, interpolation c = some c1 ∧
      (∀ a, c1.inc a = ((c.KeyFrame (c.playIndex + 1)).attr a
          - (c.KeyFrame c.playIndex).attr a) / (c.i_max_steps : ℚ)) ∧
      (∀ a, c1.attr a = c.attr a) ∧
      c1.KeyFrame = c.KeyFrame ∧ c1.FrameIndex = c.FrameIndex ∧
      c1.i_max_steps = c.i_max_steps ∧ c1.playIndex = c.playIndex ∧
      c1.i_curr_steps = c.i_curr_steps ∧ c1.play = c.play :=
  interpolation_spec c h0 h1

/-- Witness of C5 on the program's initial assembly state: segment 0 of the
authored keyframes lowers the base by 500 in 45 steps. -/
theorem interpolation_computes_increments_witness :
    (0 ≤ initialCaballete.playIndex ∧ initialCaballete.playIndex + 1 < MAX_FRAMES ∧
      0 < initialCaballete.i_max_steps) ∧
    ∃ c1, interpolation initialCaballete = some c1 ∧
      c1.inc Attr.basePosY = -500 / 45 ∧ c1.inc Attr.posX = 0 := by
  refine ⟨⟨by decide, by decide, by decide⟩, ?_⟩
  obtain ⟨c1, hc1, hinc, _⟩ :=
    interpolation_computes_increments initialCaballete (by decide) (by decide) (by decide)
  refine ⟨c1, hc1, ?_, ?_⟩
  · rw [hinc]
    norm_num [initialCaballete, authoredKeyFrame, authorKeyFrames, setKeyFrame, FRAME.attr,
      FRAME.zero]
  · rw [hinc]
    norm_num [initialCaballete, authoredKeyFrame, authorKeyFrames, setKeyFrame, FRAME.attr,
      FRAME.zero]

/-- C4: for every state with `FrameIndex <= 1` the `Z` command returns, leaves
`play == false`, and changes no animated attribute, no increment, and neither
`playIndex` nor `i_curr_steps` (nor anything else: the state is the old one
with `play` cleared). -/
theorem keyZ_insufficient_keyframes (s : State) (hFI : s.cab.FrameIndex ≤ 1) :
    ∃ s1, my_input Key.Z s = some s1 ∧ s1.cab.play = false ∧
      (∀ a, s1.cab.attr a = s.cab.attr a) ∧ (∀ a, s1.cab.inc a = s.cab.inc a) ∧
      s1.cab.playIndex = s.cab.playIndex ∧ s1.cab.i_curr_steps = s.cab.i_curr_steps ∧
      s1 = { s with cab := { s.cab with play := false } } := by
  have h : ¬ (s.cab.FrameIndex > 1) := by omega
  refine ⟨{ s with cab := { s.cab with play := false } }, ?_, rfl, ?_, ?_, rfl, rfl, rfl⟩
  · simp [my_input, keyZ, h]
  · intro a
    cases a <;> rfl
  · intro a
    cases a <;> rfl

/-- Witness of C4: the initial state with a single defined keyframe. -/
theorem keyZ_insufficient_keyframes_witness :
    ({ initialState with cab := { initialCaballete with FrameIndex := 1 } } : State).cab.FrameIndex ≤ 1 ∧
    ∃ s1, my_input Key.Z { initialState with cab := { initialCaballete with FrameIndex := 1 } }
        = some s1 ∧ s1.cab.play = false ∧ s1.cab.attr Attr.posX = 0 := by
  refine ⟨by decide, ?_⟩
  obtain ⟨s1, h1, hp, ha, _⟩ := keyZ_insufficient_keyframes
    { initialState with cab := { initialCaballete with FrameIndex := 1 } } (by decide)
  exact ⟨s1, h1, hp, by rw [ha]; rfl⟩

/-- C6: for every state with `play == false` and `FrameIndex > 1` the `Z`
command returns with `play = true`, `playIndex = 0`, `i_curr_steps = 0`,
every animated attribute equal to its value in `KeyFrame[0]` and every
increment equal to `(KeyFrame[1].a - KeyFrame[0].a) / i_max_steps`; the
keyframes, `FrameIndex` and `i_max_steps` are unchanged. -/
theorem keyZ_starts_playback (s : State) (hplay : s.cab.play = false)
    (hFI : s.cab.FrameIndex > 1) :
    ∃ s1, my_input Key.Z s = some s1 ∧ s1.cab.play = true ∧ s1.cab.playIndex = 0 ∧
      s1.cab.i_curr_steps = 0 ∧
      (∀ a, s1.cab.attr a = (s.cab.KeyFrame 0).attr a) ∧
      (∀ a, s1.cab.inc a = ((s.cab.KeyFrame 1).attr a - (s.cab.KeyFrame 0).attr a)
          / (s.cab.i_max_steps : ℚ)) ∧
      s1.cab.KeyFrame = s.cab.KeyFrame ∧ s1.cab.FrameIndex = s.cab.FrameIndex ∧
      s1.cab.i_max_steps = s.cab.i_max_steps := by
  obtain ⟨c1, hc1, h⟩ := keyZ_start s.cab hplay hFI
  exact ⟨{ s with cab := c1 }, by simp [my_input, hc1], h⟩

/-- Witness of C6 on the program's initial state. -/
theorem keyZ_starts_playback_witness :
    (initialState.cab.play = false ∧ initialState.cab.FrameIndex > 1) ∧
    ∃ s1, my_input Key.Z initialState = some s1 ∧ s1.cab.play = true ∧
      s1.cab.attr Attr.posX = 3000 ∧ s1.cab.inc Attr.basePosY = -500 / 45 := by
  refine ⟨⟨by decide, by decide⟩, ?_⟩
  obtain ⟨s1, h1, hp, _, _, ha, hi, _⟩ :=
    keyZ_starts_playback initialState (by decide) (by decide)
  refine ⟨s1, h1, hp, ?_, ?_⟩
  · rw [ha]
    norm_num [initialState, initialCaballete, authoredKeyFrame, authorKeyFrames, setKeyFrame,
      FRAME.attr, FRAME.zero]
  · rw [hi]
    norm_num [initialState, initialCaballete, authoredKeyFrame, authorKeyFrames, setKeyFrame,
      FRAME.attr, FRAME.zero]

/-! ## The claims about a playback of the assembly track -/

/-- C1: in exact arithmetic, for every segment index `p = playIndex` with
`0 <= p <= FrameIndex - 2` and a positive `i_max_steps`, if the track is
playing and has just entered segment `p` (`i_curr_steps = 0`, the increments
are the quotients computed by `interpolation()` for `playIndex = p`) and every
animated attribute equals its value in `KeyFrame[p]`, then `i_max_steps`
consecutive `animate()` ticks with speed factor 1 all return, and after them
every one of the 16 animated attributes equals its value in `KeyFrame[p+1]`
and `i_curr_steps = i_max_steps` (the track is still playing segment `p`). -/
theorem assembly_segment_reaches_next_keyframe (s : State)
    (hplay : s.cab.play = true) (hN : 0 < s.cab.i_max_steps)
    (hp0 : 0 ≤ s.cab.playIndex) (hp1 : s.cab.playIndex ≤ s.cab.FrameIndex - 2)
    (hsteps : s.cab.i_curr_steps = 0)
    (hinc : ∀ a, s.cab.inc a = ((s.cab.KeyFrame (s.cab.playIndex + 1)).attr a
        - (s.cab.KeyFrame s.cab.playIndex).attr a) / (s.cab.i_max_steps : ℚ))
    (hattr : ∀ a, s.cab.attr a = (s.cab.KeyFrame s.cab.playIndex).attr a) :
    ∃ s1, runTicks (List.replicate s.cab.i_max_steps.toNat 1) s = some s1 ∧
      (∀ a, s1.cab.attr a = (s.cab.KeyFrame (s.cab.playIndex + 1)).attr a) ∧
      s1.cab.i_curr_steps = s.cab.i_max_steps ∧
      s1.cab.play = true ∧ s1.cab.playIndex = s.cab.playIndex := by
  have hcast : ((s.cab.i_max_steps.toNat : ℤ)) = s.cab.i_max_steps :=
    Int.toNat_of_nonneg hN.le
  have hcastq : ((s.cab.i_max_steps.toNat : ℕ) : ℚ) = (s.cab.i_max_steps : ℚ) := by
    exact_mod_cast hcast
  have hne : (s.cab.i_max_steps : ℚ) ≠ 0 := by
    exact_mod_cast hN.ne.symm
  obtain ⟨c1, hc1, hattr1, _, hs1, hpl1, hp1, _⟩ :=
    runCab_advance (List.replicate s.cab.i_max_steps.toNat 1) s.cab hplay
      (by rw [hsteps, List.length_replicate, hcast]; omega)
  obtain ⟨s1, hs, hcab⟩ := runTicks_of_runCab _ s c1 hc1
  refine ⟨s1, hs, ?_, ?_, by rw [hcab]; exact hpl1, by rw [hcab]; exact hp1⟩
  · intro a
    rw [hcab, hattr1, hattr, hinc, sum_replicate_rat, hcastq]
    field_simp
  · rw [hcab, hs1, hsteps, List.length_replicate, hcast]
    ring

/-- Witness of C1: segment 0 of the authored keyframes, entered by the first
`Z` command, lowers the base to -500 in 45 ticks. -/
theorem assembly_segment_reaches_next_keyframe_witness :
    (playbackStart.cab.play = true ∧ 0 < playbackStart.cab.i_max_steps ∧
      0 ≤ playbackStart.cab.playIndex ∧
      playbackStart.cab.playIndex ≤ playbackStart.cab.FrameIndex - 2 ∧
      playbackStart.cab.i_curr_steps = 0) ∧
    ∃ s1, runTicks (List.replicate 45 1) playbackStart = some s1 ∧
      s1.cab.attr Attr.basePosY = -500 ∧ s1.cab.attr Attr.posX = 3000 ∧
      s1.cab.i_curr_steps = 45 := by
  refine ⟨⟨by decide, by decide, by decide, by decide, by decide⟩, ?_⟩
  obtain ⟨s1, h1, ha, hs, _⟩ := assembly_segment_reaches_next_keyframe playbackStart
    (by decide) (by decide) (by decide) (by decide) (by decide)
    (by intro a; cases a <;> rfl) (by intro a; cases a <;> rfl)
  have h45 : playbackStart.cab.i_max_steps.toNat = 45 := by decide
  rw [h45] at h1
  refine ⟨s1, h1, ?_, ?_, hs⟩
  · rw [ha]
    norm_num [playbackStart, initialState, initialCaballete, my_input, keyZ, interpolation,
      resetElements, MAX_FRAMES, authoredKeyFrame, authorKeyFrames, setKeyFrame, FRAME.attr,
      FRAME.zero]
  · rw [ha]
    norm_num [playbackStart, initialState, initialCaballete, my_input, keyZ, interpolation,
      resetElements, MAX_FRAMES, authoredKeyFrame, authorKeyFrames, setKeyFrame, FRAME.attr,
      FRAME.zero]

/-- The control state of a playback with `FrameIndex = 20` and
`i_max_steps = 45`, whatever the speed factors: `m` ticks after the start the
track is in segment `m / 46` at step `m % 46`, for every `m <= 873`. -/
theorem playback_control (fs : List ℚ) (c : Caballete) (m : ℕ)
    (hplay : c.play = true) (hFI : c.FrameIndex = 20) (hN : c.i_max_steps = 45)
    (hp : c.playIndex = ((m / 46 : ℕ) : ℤ)) (hs : c.i_curr_steps = ((m % 46 : ℕ) : ℤ))
    (hm : m + fs.length ≤ 873) :
    ∃ c1, runCab fs c = some c1 ∧ c1.play = true ∧ c1.FrameIndex = 20 ∧
      c1.i_max_steps = 45 ∧ c1.playIndex = (((m + fs.length) / 46 : ℕ) : ℤ) ∧
      c1.i_curr_steps = (((m + fs.length) % 46 : ℕ) : ℤ) := by
  induction fs generalizing c m with
  | nil => exact ⟨c, rfl, hplay, hFI, hN, by simpa using hp, by simpa using hs⟩
  | cons f fs ih =>
    simp only [List.length_cons] at hm ⊢
    by_cases hlt : c.i_curr_steps < c.i_max_steps
    · obtain ⟨c1, hc1, _, _, hs1, hpl1, hp1, _, hF1, hN1⟩ :=
        animateCaballete_advance f c hplay hlt
      obtain ⟨c2, hc2, h2⟩ := ih c1 (m + 1) hpl1 (by rw [hF1, hFI]) (by rw [hN1, hN])
        (by rw [hp1, hp]; omega) (by rw [hs1, hs]; omega) (by omega)
      refine ⟨c2, by simp only [runCab, hc1, hc2], ?_⟩
      have e : m + 1 + fs.length = m + (fs.length + 1) := by omega
      rw [← e]
      exact h2
    · obtain ⟨c1, hc1, _, _, hs1, hpl1, hp1, _, hF1, hN1⟩ :=
        animateCaballete_next f c hplay (by omega) (by omega) (by omega)
          (by simp only [MAX_FRAMES]; omega)
      obtain ⟨c2, hc2, h2⟩ := ih c1 (m + 1) hpl1 (by rw [hF1, hFI]) (by rw [hN1, hN])
        (by rw [hp1, hp]; omega) (by rw [hs1]; omega) (by omega)
      refine ⟨c2, by simp only [runCab, hc1, hc2], ?_⟩
      have e : m + 1 + fs.length = m + (fs.length + 1) := by omega
      rw [← e]
      exact h2

/-- C2: with `FrameIndex = 20` and `i_max_steps = 45`, after the `Z` command
that starts the playback every run of `animate()` ticks returns, whatever the
speed factors; after `n <= 873` ticks `play` is still true and the track is in
segment `n / 46` at step `n % 46` (so the segments 0 .. 18 are traversed in
order), and after tick 874 `play = false` and `playIndex = 0`. -/
theorem assembly_playback_completes (s0 : State) (hplay : s0.cab.play = false)
    (hFI : s0.cab.FrameIndex = 20) (hN : s0.cab.i_max_steps = 45) :
    ∃ s1, my_input Key.Z s0 = some s1 ∧ s1.cab.play = true ∧
      (∀ fs : List ℚ, fs.length ≤ 873 →
        ∃ s, runTicks fs s1 = some s ∧ s.cab.play = true ∧
          s.cab.playIndex = ((fs.length / 46 : ℕ) : ℤ) ∧
          s.cab.i_curr_steps = ((fs.length % 46 : ℕ) : ℤ)) ∧
      (∀ fs : List ℚ, fs.length = 874 →
        ∃ s, runTicks fs s1 = some s ∧ s.cab.play = false ∧ s.cab.playIndex = 0) := by
  obtain ⟨c0, hc0, hpl0, hp0, hs0, _, _, _, hF0, hN0⟩ := keyZ_start s0.cab hplay (by omega)
  obtain ⟨s1, hs1, hcab1⟩ : ∃ s1 : State, my_input Key.Z s0 = some s1 ∧ s1.cab = c0 :=
    ⟨{ s0 with cab := c0 }, by simp [my_input, hc0], rfl⟩
  have hpl : s1.cab.play = true := by rw [hcab1]; exact hpl0
  have hp : s1.cab.playIndex = 0 := by rw [hcab1]; exact hp0
  have hs : s1.cab.i_curr_steps = 0 := by rw [hcab1]; exact hs0
  have hF : s1.cab.FrameIndex = 20 := by rw [hcab1, hF0, hFI]
  have hN1 : s1.cab.i_max_steps = 45 := by rw [hcab1, hN0, hN]
  refine ⟨s1, hs1, hpl, ?_, ?_⟩
  · intro fs hlen
    obtain ⟨c1, hc1, hpl1, _, _, hp1, hs1⟩ := playback_control fs s1.cab 0 hpl hF hN1
      (by rw [hp]; rfl) (by rw [hs]; rfl) (by omega)
    obtain ⟨s2, hs2, hcab⟩ := runTicks_of_runCab fs s1 c1 hc1
    refine ⟨s2, hs2, by rw [hcab]; exact hpl1, ?_, ?_⟩
    · rw [hcab, hp1, Nat.zero_add]
    · rw [hcab, hs1, Nat.zero_add]
  · intro fs hlen
    have hsplit : fs = fs.take 873 ++ fs.drop 873 := (List.take_append_drop 873 fs).symm
    have hlt : (fs.take 873).length = 873 := by
      rw [List.length_take]; omega
    have hld : (fs.drop 873).length = 1 := by
      rw [List.length_drop]; omega
    obtain ⟨g, hg⟩ := List.length_eq_one.mp hld
    obtain ⟨c1, hc1, hpl1, hF1, hN2, hp1, hs1⟩ :=
      playback_control (fs.take 873) s1.cab 0 hpl hF hN1
        (by rw [hp]; rfl) (by rw [hs]; rfl) (by omega)
    rw [Nat.zero_add, hlt] at hp1 hs1
    have hfin := animateCaballete_finish g c1 hpl1 (by rw [hs1, hN2]; decide)
      (by rw [hp1, hF1]; decide)
    have hrun : runCab fs s1.cab = some { c1 with playIndex := 0, play := false } := by
      rw [hsplit, runCab_append _ _ _ _ hc1, hg]
      simp only [runCab, hfin]
    obtain ⟨s2, hs2, hcab⟩ := runTicks_of_runCab fs s1 _ hrun
    exact ⟨s2, hs2, by rw [hcab], by rw [hcab]⟩

/-- Witness of C2 on the program's initial state. -/
theorem assembly_playback_completes_witness :
    (initialState.cab.play = false ∧ initialState.cab.FrameIndex = 20 ∧
      initialState.cab.i_max_steps = 45) ∧
    ∃ s1, my_input Key.Z initialState = some s1 ∧
      (∃ s, runTicks (List.replicate 873 1) s1 = some s ∧ s.cab.play = true ∧
        s.cab.playIndex = 18 ∧ s.cab.i_curr_steps = 45) ∧
      (∃ s, runTicks (List.replicate 874 1) s1 = some s ∧ s.cab.play = false ∧
        s.cab.playIndex = 0) := by
  refine ⟨⟨by decide, by decide, by decide⟩, ?_⟩
  obtain ⟨s1, h1, _, hrun, hfin⟩ :=
    assembly_playback_completes initialState (by decide) (by decide) (by decide)
  refine ⟨s1, h1, ?_, hfin _ (List.length_replicate 874 1)⟩
  obtain ⟨s, hs, hpl, hp, hst⟩ := hrun (List.replicate 873 1) (List.length_replicate 873 1).le
  rw [List.length_replicate] at hp hst
  exact ⟨s, hs, hpl, hp, hst⟩

/-! ## A whole playback at a constant speed factor -/

theorem runCab_idle (fs : List ℚ) (c : Caballete) (hplay : c.play = false) :
    runCab fs c = some c := by
  induction fs with
  | nil => rfl
  | cons f fs ih => simp only [runCab, animateCaballete_idle f c hplay, ih]

theorem segStart_of_keyZ (c c1 : Caballete) (f : ℚ) (hplay : c.play = false)
    (hFI : c.FrameIndex > 1) (hZ : keyZ c = some c1) :
    SegStart c.KeyFrame c.FrameIndex c.i_max_steps f 0 c1 := by
  obtain ⟨c2, hc2, hpl, hp, hs, hattr, hinc, hK, hF, hN⟩ := keyZ_start c hplay hFI
  rw [hZ, Option.some.injEq] at hc2
  subst hc2
  refine ⟨hpl, hp, hs, hK, hF, hN, ?_, ?_⟩
  · intro a
    rw [hattr]
    ring
  · intro a
    rw [hinc, zero_add]

/-- Inside segment `p`: `k <= i_max_steps` advancing ticks at speed `f`. -/
theorem segStart_advance (K : Int → FRAME) (FI N : Int) (f : ℚ) (p : Int) (c : Caballete)
    (h : SegStart K FI N f p c) (k : ℕ) (hk : (k : ℤ) ≤ N) :
    ∃ c1, runCab (List.replicate k f) c = some c1 ∧ c1.play = true ∧ c1.playIndex = p ∧
      c1.i_curr_steps = (k : ℤ) ∧ c1.KeyFrame = K ∧ c1.FrameIndex = FI ∧ c1.i_max_steps = N ∧
      (∀ a, c1.attr a = (K 0).attr a + f * ((K p).attr a - (K 0).attr a)
          + ((K (p + 1)).attr a - (K p).attr a) / (N : ℚ) * ((k : ℚ) * f)) ∧
      (∀ a, c1.inc a = ((K (p + 1)).attr a - (K p).attr a) / (N : ℚ)) := by
  obtain ⟨hpl, hp, hs, hK, hF, hN, hattr, hinc⟩ := h
  obtain ⟨c1, hc1, hattr1, hinc1, hs1, hpl1, hp1, hK1, hF1, hN1⟩ :=
    runCab_advance (List.replicate k f) c hpl
      (by rw [hs, List.length_replicate, hN]; omega)
  refine ⟨c1, hc1, hpl1, by rw [hp1, hp], ?_, by rw [hK1, hK], by rw [hF1, hF],
    by rw [hN1, hN], ?_, ?_⟩
  · rw [hs1, hs, List.length_replicate, zero_add]
  · intro a
    rw [hattr1, hattr, hinc, sum_replicate_rat]
  · intro a
    rw [hinc1, hinc]

/-- A segment that is not the last one: `i_max_steps` advancing ticks and the
boundary tick lead to the start of the next segment. -/
theorem segStart_next (K : Int → FRAME) (FI N : Int) (f : ℚ) (p : Int) (c : Caballete)
    (h : SegStart K FI N f p c) (hN0 : 0 < N) (hp0 : 0 ≤ p) (hp1 : p + 1 ≤ FI - 2)
    (hFI : FI ≤ MAX_FRAMES) :
    ∃ c1, runCab (List.replicate (N.toNat + 1) f) c = some c1 ∧
      SegStart K FI N f (p + 1) c1 := by
  have hcast : ((N.toNat : ℤ)) = N := Int.toNat_of_nonneg hN0.le
  have hcastq : ((N.toNat : ℕ) : ℚ) = (N : ℚ) := by exact_mod_cast hcast
  have hne : (N : ℚ) ≠ 0 := by exact_mod_cast hN0.ne.symm
  obtain ⟨c1, hc1, hpl1, hp1x, hs1, hK1, hF1, hN1, hattr1, hinc1⟩ :=
    segStart_advance K FI N f p c h N.toNat (by omega)
  obtain ⟨c2, hc2, hattr2, hinc2, hs2, hpl2, hp2, hK2, hF2, hN2⟩ :=
    animateCaballete_next f c1 hpl1 (by rw [hs1, hN1]; omega) (by rw [hp1x, hF1]; omega)
      (by rw [hp1x]; omega) (by rw [hp1x]; simp only [MAX_FRAMES] at hFI ⊢; omega)
  refine ⟨c2, ?_, hpl2, by rw [hp2, hp1x], hs2, by rw [hK2, hK1], by rw [hF2, hF1],
    by rw [hN2, hN1], ?_, ?_⟩
  · rw [List.replicate_add, runCab_append _ _ _ _ hc1]
    simp only [List.replicate, runCab, hc2]
  · intro a
    rw [hattr2, hattr1, hcastq]
    field_simp
    ring
  · intro a
    rw [hinc2, hK1, hp1x, hN1]

/-- The last segment: `i_max_steps` advancing ticks and the boundary tick stop
the track. -/
theorem segStart_last (K : Int → FRAME) (FI N : Int) (f : ℚ) (p : Int) (c : Caballete)
    (h : SegStart K FI N f p c) (hN0 : 0 < N) (hp1 : p + 1 > FI - 2) :
    ∃ c1, runCab (List.replicate (N.toNat + 1) f) c = some c1 ∧
      c1.play = false ∧ c1.playIndex = 0 ∧
      (∀ a, c1.attr a = (K 0).attr a + f * ((K (p + 1)).attr a - (K 0).attr a)) := by
  have hcast : ((N.toNat : ℤ)) = N := Int.toNat_of_nonneg hN0.le
  have hcastq : ((N.toNat : ℕ) : ℚ) = (N : ℚ) := by exact_mod_cast hcast
  have hne : (N : ℚ) ≠ 0 := by exact_mod_cast hN0.ne.symm
  obtain ⟨c1, hc1, hpl1, hp1x, hs1, hK1, hF1, hN1, hattr1, hinc1⟩ :=
    segStart_advance K FI N f p c h N.toNat (by omega)
  have hfin := animateCaballete_finish f c1 hpl1 (by rw [hs1, hN1]; omega)
    (by rw [hp1x, hF1]; omega)
  refine ⟨{ c1 with playIndex := 0, play := false }, ?_, rfl, rfl, ?_⟩
  · rw [List.replicate_add, runCab_append _ _ _ _ hc1]
    simp only [List.replicate, runCab, hfin]
  · intro a
    have h1 := hattr1 a
    rw [hcastq] at h1
    have h2 : ({ c1 with playIndex := 0, play := false } : Caballete).attr a = c1.attr a := by
      cases a <;> rfl
    rw [h2, h1]
    field_simp
    ring

/-- After `j` whole segments the track is at the start of segment `j`. -/
theorem segStart_iterate (K : Int → FRAME) (FI N : Int) (f : ℚ) (c : Caballete)
    (h : SegStart K FI N f 0 c) (hN0 : 0 < N) (hFI : FI ≤ MAX_FRAMES)
    (j : ℕ) (hj : (j : ℤ) ≤ FI - 2) :
    ∃ c1, runCab (List.replicate (j * (N.toNat + 1)) f) c = some c1 ∧
      SegStart K FI N f (j : ℤ) c1 := by
  induction j with
  | zero => exact ⟨c, by simp [runCab], by simpa using h⟩
  | succ j ih =>
    obtain ⟨c1, hc1, hseg⟩ := ih (by omega)
    obtain ⟨c2, hc2, hseg2⟩ := segStart_next K FI N f j c1 hseg hN0 (by omega) (by omega) hFI
    refine ⟨c2, ?_, by simpa using hseg2⟩
    rw [Nat.succ_mul, List.replicate_add, runCab_append _ _ _ _ hc1]
    exact hc2

/-- A whole playback at constant speed `f`: it stops at tick
`(FrameIndex - 1) * (i_max_steps + 1)` with every attribute at
`KeyFrame[0].a + f * (KeyFrame[FrameIndex - 1].a - KeyFrame[0].a)`. -/
theorem playback_finishes (K : Int → FRAME) (FI N : Int) (f : ℚ) (c : Caballete)
    (h : SegStart K FI N f 0 c) (hN0 : 0 < N) (hFI2 : 2 ≤ FI) (hFI : FI ≤ MAX_FRAMES) :
    ∃ c1, runCab (List.replicate ((FI - 1).toNat * (N.toNat + 1)) f) c = some c1 ∧
      c1.play = false ∧ c1.playIndex = 0 ∧
      (∀ a, c1.attr a = (K 0).attr a + f * ((K (FI - 1)).attr a - (K 0).attr a)) := by
  have hj : (((FI - 2).toNat : ℕ) : ℤ) = FI - 2 := Int.toNat_of_nonneg (by omega)
  obtain ⟨c1, hc1, hseg⟩ := segStart_iterate K FI N f c h hN0 hFI (FI - 2).toNat (by omega)
  rw [hj] at hseg
  obtain ⟨c2, hc2, hpl, hp, hattr⟩ := segStart_last K FI N f (FI - 2) c1 hseg hN0 (by omega)
  have e : (FI - 1).toNat = (FI - 2).toNat + 1 := by omega
  refine ⟨c2, ?_, hpl, hp, ?_⟩
  · rw [e, Nat.succ_mul, List.replicate_add, runCab_append _ _ _ _ hc1]
    exact hc2
  · intro a
    rw [hattr]
    have e2 : FI - 2 + 1 = FI - 1 := by ring
    rw [e2]

/-- Before tick `(FrameIndex - 1) * (i_max_steps + 1)` the track is playing. -/
theorem playback_playing (K : Int → FRAME) (FI N : Int) (f : ℚ) (c : Caballete)
    (h : SegStart K FI N f 0 c) (hN0 : 0 < N) (hFI2 : 2 ≤ FI) (hFI : FI ≤ MAX_FRAMES)
    (n : ℕ) (hn : n < (FI - 1).toNat * (N.toNat + 1)) :
    ∃ c1, runCab (List.replicate n f) c = some c1 ∧ c1.play = true := by
  have hdm : (N.toNat + 1) * (n / (N.toNat + 1)) + n % (N.toNat + 1) = n :=
    Nat.div_add_mod n (N.toNat + 1)
  have hmod : n % (N.toNat + 1) < N.toNat + 1 := Nat.mod_lt _ (Nat.succ_pos _)
  have hdiv : n / (N.toNat + 1) < (FI - 1).toNat := by
    rw [Nat.div_lt_iff_lt_mul (Nat.succ_pos _)]
    exact hn
  have hcast : ((N.toNat : ℤ)) = N := Int.toNat_of_nonneg hN0.le
  obtain ⟨c1, hc1, hseg⟩ :=
    segStart_iterate K FI N f c h hN0 hFI (n / (N.toNat + 1)) (by omega)
  obtain ⟨c2, hc2, hpl, _⟩ :=
    segStart_advance K FI N f _ c1 hseg (n % (N.toNat + 1)) (by omega)
  refine ⟨c2, ?_, hpl⟩
  have e : n = n / (N.toNat + 1) * (N.toNat + 1) + n % (N.toNat + 1) := by
    rw [Nat.mul_comm]; exact hdm.symm
  rw [e, List.replicate_add, runCab_append _ _ _ _ hc1]
  exact hc2

theorem authored_rest_eq_start : authoredKeyFrame 19 = authoredKeyFrame 0 := by
  simp [authoredKeyFrame, authorKeyFrames, setKeyFrame]

/-- C3: with the authored keyframes, `FrameIndex = 20` and a positive
`i_max_steps`, a playback started by `Z` and run with speed factor 1 on every
tick is still playing after every `n < 19 * (i_max_steps + 1)` ticks, has
`play = false` after tick `19 * (i_max_steps + 1)`, and from that tick on every
one of the 16 animated attributes equals, in exact arithmetic, its value in
`KeyFrame[0]`. -/
theorem assembly_round_trip (s0 : State) (hplay : s0.cab.play = false)
    (hK : s0.cab.KeyFrame = authoredKeyFrame) (hFI : s0.cab.FrameIndex = 20)
    (hN : 0 < s0.cab.i_max_steps) :
    ∃ s1, my_input Key.Z s0 = some s1 ∧
      (∀ n, n < 19 * (s0.cab.i_max_steps.toNat + 1) →
        ∃ s, runTicks (List.replicate n 1) s1 = some s ∧ s.cab.play = true) ∧
      (∀ n, 19 * (s0.cab.i_max_steps.toNat + 1) ≤ n →
        ∃ s, runTicks (List.replicate n 1) s1 = some s ∧ s.cab.play = false ∧
          ∀ a, s.cab.attr a = (authoredKeyFrame 0).attr a) := by
  obtain ⟨c1, hc1, _⟩ := keyZ_start s0.cab hplay (by omega)
  have hseg := segStart_of_keyZ s0.cab c1 1 hplay (by omega) hc1
  rw [hK, hFI] at hseg
  have h19 : ((20 : ℤ) - 1).toNat = 19 := by decide
  refine ⟨{ s0 with cab := c1 }, by simp [my_input, hc1], ?_, ?_⟩
  · intro n hn
    obtain ⟨c2, hc2, hpl⟩ := playback_playing authoredKeyFrame 20 s0.cab.i_max_steps 1 c1 hseg
      hN (by decide) (by decide) n (by rw [h19]; exact hn)
    obtain ⟨s2, hs2, hcab⟩ := runTicks_of_runCab _ { s0 with cab := c1 } c2 hc2
    exact ⟨s2, hs2, by rw [hcab]; exact hpl⟩
  · intro n hn
    obtain ⟨c2, hc2, hpl, _, hattr⟩ :=
      playback_finishes authoredKeyFrame 20 s0.cab.i_max_steps 1 c1 hseg hN (by decide)
        (by decide)
    rw [h19] at hc2
    have hrun : runCab (List.replicate n 1) c1 = some c2 := by
      have e : n = 19 * (s0.cab.i_max_steps.toNat + 1)
          + (n - 19 * (s0.cab.i_max_steps.toNat + 1)) := by omega
      rw [e, List.replicate_add, runCab_append _ _ _ _ hc2]
      exact runCab_idle _ c2 hpl
    obtain ⟨s2, hs2, hcab⟩ := runTicks_of_runCab _ { s0 with cab := c1 } c2 hrun
    refine ⟨s2, hs2, by rw [hcab]; exact hpl, ?_⟩
    intro a
    rw [hcab, hattr]
    have e : ((20 : ℤ) - 1) = 19 := by decide
    rw [e, authored_rest_eq_start]
    ring

/-- Witness of C3 on the program's initial state: play is true after 873
ticks, and after 874 ticks the pose is that of `KeyFrame[0]`. -/
theorem assembly_round_trip_witness :
    (initialState.cab.play = false ∧ initialState.cab.KeyFrame = authoredKeyFrame ∧
      initialState.cab.FrameIndex = 20 ∧ 0 < initialState.cab.i_max_steps) ∧
    ∃ s1, my_input Key.Z initialState = some s1 ∧
      (∃ s, runTicks (List.replicate 873 1) s1 = some s ∧ s.cab.play = true) ∧
      (∃ s, runTicks (List.replicate 874 1) s1 = some s ∧ s.cab.play = false ∧
        s.cab.attr Attr.posX = 3000 ∧ s.cab.attr Attr.baseRot = -90 ∧
        s.cab.attr Attr.pinturaRotZ = 0) := by
  refine ⟨⟨by decide, rfl, by decide, by decide⟩, ?_⟩
  obtain ⟨s1, h1, hbefore, hafter⟩ :=
    assembly_round_trip initialState (by decide) rfl (by decide) (by decide)
  refine ⟨s1, h1, hbefore 873 (by decide), ?_⟩
  obtain ⟨s, hs, hpl, hattr⟩ := hafter 874 (by decide)
  refine ⟨s, hs, hpl, ?_, ?_, ?_⟩
  · rw [hattr]
    norm_num [authoredKeyFrame, authorKeyFrames, setKeyFrame, FRAME.attr, FRAME.zero]
  · rw [hattr]
    norm_num [authoredKeyFrame, authorKeyFrames, setKeyFrame, FRAME.attr, FRAME.zero]
  · rw [hattr]
    norm_num [authoredKeyFrame, authorKeyFrames, setKeyFrame, FRAME.attr, FRAME.zero]

/-! ## Invariants of a playback -/

theorem interpolation_some_valid (c c1 : Caballete) (h : interpolation c = some c1) :
    0 ≤ c.playIndex ∧ c.playIndex + 1 < MAX_FRAMES := by
  by_cases hv : 0 ≤ c.playIndex ∧ c.playIndex + 1 < MAX_FRAMES
  · exact hv
  · unfold interpolation at h
    rw [if_neg hv] at h
    exact absurd h (by simp)

theorem tickInterpolationCall_spec (f : ℚ) (c c1 : Caballete)
    (h : tickInterpolationCall c = some c1) :
    animateCaballete f c = interpolation c1 ∧ c.play = true ∧
      c1.playIndex = c.playIndex + 1 ∧ c1.FrameIndex = c.FrameIndex ∧
      c1.playIndex ≤ c1.FrameIndex - 2 := by
  unfold tickInterpolationCall at h
  by_cases hplay : c.play = true
  · by_cases hge : c.i_curr_steps ≥ c.i_max_steps
    · by_cases hlast : c.playIndex + 1 > c.FrameIndex - 2
      · simp [hplay, hge, hlast] at h
      · simp only [hplay, hge, hlast, if_true, if_false, Option.some.injEq] at h
        subst h
        refine ⟨?_, hplay, rfl, rfl, ?_⟩
        · unfold animateCaballete
          simp only [hplay, hge, hlast, if_true, if_false]
        · simp only
          omega
    · simp [hplay, hge] at h
  · simp [hplay] at h

/-- The four ways a tick of the assembly block can return. -/
theorem animateCaballete_cases (f : ℚ) (c c1 : Caballete)
    (h : animateCaballete f c = some c1) :
    (c.play = false ∧ c1 = c) ∨
    (c.play = true ∧ c.i_curr_steps < c.i_max_steps ∧ c1.play = true ∧
      c1.playIndex = c.playIndex ∧ c1.KeyFrame = c.KeyFrame ∧
      c1.FrameIndex = c.FrameIndex ∧ c1.i_max_steps = c.i_max_steps ∧
      (∀ a, c1.inc a = c.inc a) ∧ (∀ a, c1.attr a = c.attr a + c.inc a * f)) ∨
    (c.play = true ∧ c.i_curr_steps ≥ c.i_max_steps ∧ c.playIndex + 1 > c.FrameIndex - 2 ∧
      c1.play = false ∧ c1.FrameIndex = c.FrameIndex) ∨
    (c.play = true ∧ c.i_curr_steps ≥ c.i_max_steps ∧ c.playIndex + 1 ≤ c.FrameIndex - 2 ∧
      0 ≤ c.playIndex + 1 ∧ c.playIndex + 1 + 1 < MAX_FRAMES ∧ c1.play = true ∧
      c1.playIndex = c.playIndex + 1 ∧ c1.KeyFrame = c.KeyFrame ∧
      c1.FrameIndex = c.FrameIndex ∧ c1.i_max_steps = c.i_max_steps ∧
      (∀ a, c1.inc a = ((c.KeyFrame (c.playIndex + 1 + 1)).attr a
          - (c.KeyFrame (c.playIndex + 1)).attr a) / (c.i_max_steps : ℚ))) := by
  by_cases hplay : c.play = true
  · by_cases hge : c.i_curr_steps ≥ c.i_max_steps
    · by_cases hlast : c.playIndex + 1 > c.FrameIndex - 2
      · rw [animateCaballete_finish f c hplay hge hlast, Option.some.injEq] at h
        subst h
        exact Or.inr (Or.inr (Or.inl ⟨hplay, hge, hlast, rfl, rfl⟩))
      · have hcall : tickInterpolationCall c
            = some { c with playIndex := c.playIndex + 1, i_curr_steps := 0 } := by
          unfold tickInterpolationCall
          simp only [hplay, hge, hlast, if_true, if_false]
        obtain ⟨heq, _⟩ := tickInterpolationCall_spec f c _ hcall
        rw [heq] at h
        obtain ⟨h0, h1⟩ := interpolation_some_valid _ _ h
        obtain ⟨c2, hc2, _, hinc, _, hpl2, hp2, hK2, hF2, hN2⟩ :=
          animateCaballete_next f c hplay hge hlast h0 h1
        rw [heq, h, Option.some.injEq] at hc2
        subst hc2
        exact Or.inr (Or.inr (Or.inr ⟨hplay, hge, by omega, h0, h1, hpl2, hp2, hK2, hF2, hN2,
          hinc⟩))
    · obtain ⟨c2, hc2, hattr, hinc, _, hpl2, hp2, hK2, hF2, hN2⟩ :=
        animateCaballete_advance f c hplay (by omega)
      rw [h, Option.some.injEq] at hc2
      subst hc2
      exact Or.inr (Or.inl ⟨hplay, by omega, hpl2, hp2, hK2, hF2, hN2, hinc, hattr⟩)
  · have hp : c.play = false := by simpa using hplay
    rw [animateCaballete_idle f c hp, Option.some.injEq] at h
    exact Or.inl ⟨hp, h.symm⟩

theorem playback_start_inv (s0 s : State) (hZ : my_input Key.Z s0 = some s)
    (hplay : s.cab.play = true) :
    s0.cab.play = false ∧ s0.cab.FrameIndex > 1 ∧ keyZ s0.cab = some s.cab := by
  simp only [my_input] at hZ
  cases hc : keyZ s0.cab with
  | none => simp [hc] at hZ
  | some c =>
    simp only [hc, Option.some.injEq] at hZ
    subst hZ
    by_cases hg : s0.cab.play = false ∧ s0.cab.FrameIndex > 1
    · exact ⟨hg.1, hg.2, rfl⟩
    · unfold keyZ at hc
      rw [if_neg hg, Option.some.injEq] at hc
      subst hc
      simp at hplay

/-- While a playback is running the increments are those of the current
segment, and `playIndex` is the first index of a segment. -/
theorem playback_invariant (s : State) (h : PlaybackReachable s) (hplay : s.cab.play = true) :
    (∀ a, s.cab.inc a = ((s.cab.KeyFrame (s.cab.playIndex + 1)).attr a
        - (s.cab.KeyFrame s.cab.playIndex).attr a) / (s.cab.i_max_steps : ℚ)) ∧
    0 ≤ s.cab.playIndex ∧ s.cab.playIndex ≤ s.cab.FrameIndex - 2 := by
  induction h with
  | start s0 s hZ hpl =>
    obtain ⟨hp0, hF0, hk⟩ := playback_start_inv s0 s hZ hpl
    obtain ⟨c1, hc1, _, hp, _, _, hinc, hK, hF, hN⟩ := keyZ_start s0.cab hp0 hF0
    rw [hk, Option.some.injEq] at hc1
    subst hc1
    refine ⟨?_, by rw [hp], by rw [hp, hF]; omega⟩
    intro a
    rw [hinc, hp, hK, hN, zero_add]
  | tick s s1 f hs ht ih =>
    have hc := animateWith_cab f s s1 ht
    rcases animateCaballete_cases f s.cab s1.cab hc with
      ⟨hp, he⟩ | ⟨hp, _, _, hp1, hK1, hF1, hN1, hinc1, _⟩ | ⟨_, _, _, hp1, _⟩ |
      ⟨hp, _, hle, h0, _, _, hp1, hK1, hF1, hN1, hinc1⟩
    · rw [he, hp] at hplay
      exact absurd hplay (by simp)
    · obtain ⟨hinc, hlo, hhi⟩ := ih hp
      refine ⟨?_, by rw [hp1]; exact hlo, by rw [hp1, hF1]; exact hhi⟩
      intro a
      rw [hinc1, hinc, hp1, hK1, hN1]
    · rw [hp1] at hplay
      exact absurd hplay (by simp)
    · refine ⟨?_, by rw [hp1]; exact h0, by rw [hp1, hF1]; exact hle⟩
      intro a
      rw [hinc1, hp1, hK1, hN1]

theorem playbackStart_reachable : PlaybackReachable playbackStart :=
  PlaybackReachable.start initialState playbackStart rfl (by decide)

/-- C7: in every state reachable from an assembly play command by `animate()`
ticks in which `play` is true, each increment variable equals
`(KeyFrame[playIndex+1].a - KeyFrame[playIndex].a) / i_max_steps` for the
current `playIndex`; hence the amount a tick adds to an attribute is the
speed factor times the quotient computed from the two keyframes bounding the
segment being played. -/
theorem no_stale_increments (s : State) (h : PlaybackReachable s)
    (hplay : s.cab.play = true) :
    (∀ a, s.cab.inc a = ((s.cab.KeyFrame (s.cab.playIndex + 1)).attr a
        - (s.cab.KeyFrame s.cab.playIndex).attr a) / (s.cab.i_max_steps : ℚ)) ∧
    (∀ f s1, animateWith f s = some s1 → s.cab.i_curr_steps < s.cab.i_max_steps →
      ∀ a, s1.cab.attr a = s.cab.attr a
        + ((s.cab.KeyFrame (s.cab.playIndex + 1)).attr a
          - (s.cab.KeyFrame s.cab.playIndex).attr a) / (s.cab.i_max_steps : ℚ) * f) := by
  obtain ⟨hinc, _, _⟩ := playback_invariant s h hplay
  refine ⟨hinc, ?_⟩
  intro f s1 ht hlt a
  obtain ⟨c1, hc1, hattr, _⟩ := animateCaballete_advance f s.cab hplay hlt
  rw [animateWith_cab f s s1 ht, Option.some.injEq] at hc1
  rw [hc1, hattr, hinc]

/-- Witness of C7: the state right after the first `Z` command. -/
theorem no_stale_increments_witness :
    (PlaybackReachable playbackStart ∧ playbackStart.cab.play = true) ∧
    playbackStart.cab.inc Attr.basePosY = -500 / 45 := by
  refine ⟨⟨playbackStart_reachable, by decide⟩, ?_⟩
  rw [(no_stale_increments playbackStart playbackStart_reachable (by decide)).1]
  have h0 : playbackStart.cab.playIndex = 0 := by decide
  have hN : playbackStart.cab.i_max_steps = 45 := by decide
  have hK : playbackStart.cab.KeyFrame = authoredKeyFrame := rfl
  rw [h0, hN, hK]
  norm_num [authoredKeyFrame, authorKeyFrames, setKeyFrame, FRAME.attr, FRAME.zero]

/-- C8: if `2 <= FrameIndex <= MAX_FRAMES`, then in every state reachable from
an assembly play command by `animate()` ticks (i) while the track plays, the
`playIndex` in force (the one the last call of `interpolation()` used, the
call of the `Z` command included) satisfies `0 <= playIndex` and
`playIndex + 1 <= FrameIndex - 1 < MAX_FRAMES`; (ii) if the next tick calls
`interpolation()`, it calls it with `0 <= playIndex` and
`playIndex + 1 <= FrameIndex - 1 < MAX_FRAMES`; (iii) the next tick returns,
that is, it reads no keyframe outside the array. -/
theorem playback_index_safety (s : State) (h : PlaybackReachable s)
    (hFI2 : 2 ≤ s.cab.FrameIndex) (hFI : s.cab.FrameIndex ≤ MAX_FRAMES) :
    (s.cab.play = true → 0 ≤ s.cab.playIndex ∧
      s.cab.playIndex + 1 ≤ s.cab.FrameIndex - 1 ∧ s.cab.FrameIndex - 1 < MAX_FRAMES) ∧
    (∀ c1, tickInterpolationCall s.cab = some c1 → 0 ≤ c1.playIndex ∧
      c1.playIndex + 1 ≤ c1.FrameIndex - 1 ∧ c1.FrameIndex - 1 < MAX_FRAMES) ∧
    (∀ f, ∃ s1, animateWith f s = some s1) := by
  refine ⟨?_, ?_, ?_⟩
  · intro hplay
    obtain ⟨_, hlo, hhi⟩ := playback_invariant s h hplay
    exact ⟨hlo, by omega, by omega⟩
  · intro c1 hcall
    obtain ⟨_, hplay, hp, hF, hle⟩ := tickInterpolationCall_spec 0 s.cab c1 hcall
    obtain ⟨_, hlo, _⟩ := playback_invariant s h hplay
    exact ⟨by omega, by omega, by omega⟩
  · intro f
    have hsome : ∃ c1, animateCaballete f s.cab = some c1 := by
      by_cases hplay : s.cab.play = true
      · obtain ⟨_, hlo, hhi⟩ := playback_invariant s h hplay
        by_cases hge : s.cab.i_curr_steps ≥ s.cab.i_max_steps
        · by_cases hlast : s.cab.playIndex + 1 > s.cab.FrameIndex - 2
          · exact ⟨_, animateCaballete_finish f s.cab hplay hge hlast⟩
          · obtain ⟨c1, hc1, _⟩ := animateCaballete_next f s.cab hplay hge hlast
              (by omega) (by omega)
            exact ⟨c1, hc1⟩
        · obtain ⟨c1, hc1, _⟩ := animateCaballete_advance f s.cab hplay (by omega)
          exact ⟨c1, hc1⟩
      · exact ⟨_, animateCaballete_idle f s.cab (by simpa using hplay)⟩
    obtain ⟨c1, hc1⟩ := hsome
    obtain ⟨s1, hs1, _⟩ := animateWith_of_cab f s c1 hc1
    exact ⟨s1, hs1⟩

/-- Witness of C8: the state right after the first `Z` command. -/
theorem playback_index_safety_witness :
    (PlaybackReachable playbackStart ∧ 2 ≤ playbackStart.cab.FrameIndex ∧
      playbackStart.cab.FrameIndex ≤ MAX_FRAMES) ∧
    ∃ s1, animateWith 1 playbackStart = some s1 :=
  ⟨⟨playbackStart_reachable, by decide, by decide⟩,
    (playback_index_safety playbackStart playbackStart_reachable (by decide) (by decide)).2.2 1⟩

/-! ## The cyclic tracks -/

theorem animateWith_silla (f : ℚ) (s s1 : State) (h : animateWith f s = some s1) :
    s1.silla = animateSilla f s.silla := by
  unfold animateWith at h
  cases hc : animateCaballete f s.cab with
  | none => simp [hc] at h
  | some c =>
    simp only [hc, Option.some.injEq] at h
    rw [← h]

theorem runTicks_silla (fs : List ℚ) (s s1 : State) (h : runTicks fs s = some s1) :
    s1.silla = runSilla fs s.silla := by
  induction fs generalizing s with
  | nil =>
    simp only [runTicks, Option.some.injEq] at h
    rw [← h]
    rfl
  | cons f fs ih =>
    simp only [runTicks] at h
    cases hc : animateWith f s with
    | none => simp [hc] at h
    | some s2 =>
      simp only [hc] at h
      rw [ih s2 h, animateWith_silla f s s2 hc]
      rfl

theorem runSilla_append (fs gs : List ℚ) (c : Silla) :
    runSilla (fs ++ gs) c = runSilla gs (runSilla fs c) := by
  induction fs generalizing c with
  | nil => rfl
  | cons f fs ih =>
    show runSilla (fs ++ gs) (animateSilla f c) = runSilla gs (runSilla fs (animateSilla f c))
    exact ih _

theorem mix_zero (x y : ℚ) : mix x y 0 = x := by
  unfold mix
  ring

theorem mix_one (x y : ℚ) : mix x y 1 = y := by
  unfold mix
  ring

/-- One tick of an active chair track with the authored keyframes, `r`
segment completions after its activation. -/
theorem animateSilla_step (f : ℚ) (c : Silla) (r : ℕ) (hplay : c.playSilla = true)
    (hK : c.SillaKeyFrame = authoredSillaKeyFrame)
    (hidx : c.playIndexSilla = ((r % 4 : ℕ) : ℤ))
    (hfirst : c.firstPlaySilla = true → c.playIndexSilla = 0) :
    (animateSilla f c).playSilla = true ∧
    (animateSilla f c).SillaKeyFrame = authoredSillaKeyFrame ∧
    (animateSilla f c).i_max_steps_silla = c.i_max_steps_silla ∧
    (animateSilla f c).firstPlaySilla = false ∧
    (animateSilla f c).playIndexSilla
      = (((r + (if sillaRollover f c then 1 else 0)) % 4 : ℕ) : ℤ) ∧
    (sillaRollover f c = true → c.playIndexSilla = 3 →
      (animateSilla f c).rotSilla = 0) := by
  have h4 : r % 4 = 0 ∨ r % 4 = 1 ∨ r % 4 = 2 ∨ r % 4 = 3 := by omega
  cases hf : c.firstPlaySilla with
  | true =>
    have h0 := hfirst hf
    have hr : r % 4 = 0 := by omega
    by_cases ht : 1 ≤ (c.i_max_steps_silla : ℚ)⁻¹ * f
    · have e : (r + 1) % 4 = 1 := by omega
      simp [animateSilla, sillaRollover, sillaTramo, hplay, hf, hK, ht, h0, e]
    · simp [animateSilla, sillaRollover, sillaTramo, hplay, hf, hK, ht, h0, hr]
  | false =>
    by_cases ht : 1 ≤ c.sillaInterpT + (c.i_max_steps_silla : ℚ)⁻¹ * f
    · rcases h4 with h | h | h | h
      · have e : (r + 1) % 4 = 1 := by omega
        simp [animateSilla, sillaRollover, sillaTramo, hplay, hf, hK, ht, hidx, h, e]
      · have e : (r + 1) % 4 = 2 := by omega
        simp [animateSilla, sillaRollover, sillaTramo, hplay, hf, hK, ht, hidx, h, e]
      · have e : (r + 1) % 4 = 3 := by omega
        simp [animateSilla, sillaRollover, sillaTramo, hplay, hf, hK, ht, hidx, h, e]
      · have e : (r + 1) % 4 = 0 := by omega
        simp [animateSilla, sillaRollover, sillaTramo, hplay, hf, hK, ht, hidx, h, e,
          authoredSillaKeyFrame, mix]
    · rcases h4 with h | h | h | h
      · simp [animateSilla, sillaRollover, sillaTramo, hplay, hf, hK, ht, hidx, h]
      · simp [animateSilla, sillaRollover, sillaTramo, hplay, hf, hK, ht, hidx, h]
      · simp [animateSilla, sillaRollover, sillaTramo, hplay, hf, hK, ht, hidx, h]
      · simp [animateSilla, sillaRollover, sillaTramo, hplay, hf, hK, ht, hidx, h]

/-- One tick of an active chair track in terms of the advanced progress
`t1 = sillaInterpT + 1 / i_max_steps_silla * f`: the blend of the current
segment is taken at `t1`, and the segment is completed when `t1 >= 1`. -/
theorem animateSilla_active (f : ℚ) (c : Silla) (hplay : c.playSilla = true)
    (hfirst : c.firstPlaySilla = true → c.playIndexSilla = 0 ∧ c.sillaInterpT = 0)
    (hlo : 0 ≤ c.playIndexSilla) (hhi : c.playIndexSilla ≤ 3) :
    (animateSilla f c).playSilla = true ∧
    (animateSilla f c).SillaKeyFrame = c.SillaKeyFrame ∧
    (animateSilla f c).i_max_steps_silla = c.i_max_steps_silla ∧
    (animateSilla f c).firstPlaySilla = false ∧
    (animateSilla f c).rotSilla
      = mix (c.SillaKeyFrame c.playIndexSilla).rotSilla
          (c.SillaKeyFrame ((c.playIndexSilla + 1) % 4)).rotSilla
          (c.sillaInterpT + 1 / (c.i_max_steps_silla : ℚ) * f) ∧
    (animateSilla f c).sillaInterpT
      = (if c.sillaInterpT + 1 / (c.i_max_steps_silla : ℚ) * f ≥ 1 then 0
          else c.sillaInterpT + 1 / (c.i_max_steps_silla : ℚ) * f) ∧
    (animateSilla f c).playIndexSilla
      = (if c.sillaInterpT + 1 / (c.i_max_steps_silla : ℚ) * f ≥ 1
          then (c.playIndexSilla + 1) % 4 else c.playIndexSilla) ∧
    sillaRollover f c = decide (c.sillaInterpT + 1 / (c.i_max_steps_silla : ℚ) * f ≥ 1) := by
  have h4 : c.playIndexSilla = 0 ∨ c.playIndexSilla = 1 ∨ c.playIndexSilla = 2 ∨
      c.playIndexSilla = 3 := by omega
  cases hf : c.firstPlaySilla with
  | true =>
    obtain ⟨h0, ht0⟩ := hfirst hf
    by_cases ht : 1 ≤ (c.i_max_steps_silla : ℚ)⁻¹ * f
    · simp [animateSilla, sillaRollover, sillaTramo, hplay, hf, ht, h0, ht0]
    · simp [animateSilla, sillaRollover, sillaTramo, hplay, hf, ht, h0, ht0]
  | false =>
    by_cases ht : 1 ≤ c.sillaInterpT + (c.i_max_steps_silla : ℚ)⁻¹ * f
    · rcases h4 with h | h | h | h <;>
        simp [animateSilla, sillaRollover, sillaTramo, hplay, hf, ht, h]
    · rcases h4 with h | h | h | h <;>
        simp [animateSilla, sillaRollover, sillaTramo, hplay, hf, ht, h]

/-- A run of an active chair track with the authored keyframes: the segment
index is the number of completed segments modulo 4. -/
theorem runSilla_index (fs : List ℚ) (c : Silla) (r : ℕ) (hplay : c.playSilla = true)
    (hK : c.SillaKeyFrame = authoredSillaKeyFrame)
    (hidx : c.playIndexSilla = ((r % 4 : ℕ) : ℤ))
    (hfirst : c.firstPlaySilla = true → c.playIndexSilla = 0) :
    (runSilla fs c).playSilla = true ∧
    (runSilla fs c).SillaKeyFrame = authoredSillaKeyFrame ∧
    (runSilla fs c).playIndexSilla = (((r + sillaRollovers fs c) % 4 : ℕ) : ℤ) ∧
    ((runSilla fs c).firstPlaySilla = true → (runSilla fs c).playIndexSilla = 0) := by
  induction fs generalizing c r with
  | nil => exact ⟨hplay, hK, by simpa [sillaRollovers, runSilla] using hidx, hfirst⟩
  | cons f fs ih =>
    obtain ⟨hp1, hK1, _, hf1, hi1, _⟩ := animateSilla_step f c r hplay hK hidx hfirst
    have h := ih (animateSilla f c) (r + (if sillaRollover f c then 1 else 0)) hp1 hK1 hi1
      (by intro hft; rw [hf1] at hft; exact absurd hft (by simp))
    simp only [runSilla, sillaRollovers]
    rw [← Nat.add_assoc]
    exact h

/-- A run at speed factor 1 with `i_max_steps_silla = 35`: `m` ticks after the
activation the track is in segment `(m / 35) % 4` with progress
`(m % 35) / 35`, and a tick completes a segment exactly when `m % 35 = 34`. -/
theorem animateSilla_unit_step (c : Silla) (m : ℕ) (hplay : c.playSilla = true)
    (hN : c.i_max_steps_silla = 35)
    (hidx : c.playIndexSilla = (((m / 35) % 4 : ℕ) : ℤ))
    (ht : c.sillaInterpT = ((m % 35 : ℕ) : ℚ) / 35)
    (hfirst : c.firstPlaySilla = true → c.playIndexSilla = 0 ∧ c.sillaInterpT = 0) :
    (animateSilla 1 c).playSilla = true ∧ (animateSilla 1 c).i_max_steps_silla = 35 ∧
    (animateSilla 1 c).playIndexSilla = ((((m + 1) / 35) % 4 : ℕ) : ℤ) ∧
    (animateSilla 1 c).sillaInterpT = (((m + 1) % 35 : ℕ) : ℚ) / 35 ∧
    (animateSilla 1 c).firstPlaySilla = false ∧
    (sillaRollover 1 c = true ↔ m % 35 = 34) := by
  obtain ⟨hp1, _, hN1, hf1, _, ht1, hi1, hroll⟩ :=
    animateSilla_active 1 c hplay hfirst (by omega) (by omega)
  have hstep : c.sillaInterpT + 1 / (c.i_max_steps_silla : ℚ) * 1
      = ((m % 35 : ℕ) : ℚ) / 35 + 1 / 35 := by
    rw [ht, hN]
    norm_num
  rw [hstep] at ht1 hi1 hroll
  have hk : m % 35 < 35 := Nat.mod_lt _ (by decide)
  by_cases h34 : m % 35 = 34
  · have hge : ((m % 35 : ℕ) : ℚ) / 35 + 1 / 35 ≥ 1 := by
      rw [h34]
      norm_num
    rw [if_pos hge] at ht1 hi1
    have e1 : (m + 1) % 35 = 0 := by omega
    have e2 : ((m + 1) / 35) % 4 = (m / 35 % 4 + 1) % 4 := by omega
    refine ⟨hp1, by rw [hN1, hN], ?_, ?_, hf1, ?_⟩
    · rw [hi1, hidx, e2]
      omega
    · rw [ht1, e1]
      norm_num
    · rw [hroll, decide_eq_true_iff]
      exact ⟨fun _ => h34, fun _ => hge⟩
  · have hlt : ¬ (((m % 35 : ℕ) : ℚ) / 35 + 1 / 35 ≥ 1) := by
      have h33 : m % 35 ≤ 33 := by omega
      have h33q : ((m % 35 : ℕ) : ℚ) ≤ 33 := by exact_mod_cast h33
      intro hge
      have : (35 : ℚ) ≤ ((m % 35 : ℕ) : ℚ) + 1 := by
        have h35 : (0 : ℚ) < 35 := by norm_num
        have := mul_le_mul_of_nonneg_right hge h35.le
        field_simp at this
        linarith
      linarith
    rw [if_neg hlt] at ht1 hi1
    have e1 : (m + 1) % 35 = m % 35 + 1 := by omega
    have e2 : (m + 1) / 35 = m / 35 := by omega
    refine ⟨hp1, by rw [hN1, hN], by rw [hi1, hidx, e2], ?_, hf1, ?_⟩
    · rw [ht1, e1]
      push_cast
      ring
    · rw [hroll, decide_eq_true_iff]
      exact ⟨fun h => absurd h hlt, fun h => absurd h h34⟩

theorem runSilla_unit (n : ℕ) (c : Silla) (m : ℕ) (hplay : c.playSilla = true)
    (hN : c.i_max_steps_silla = 35)
    (hidx : c.playIndexSilla = (((m / 35) % 4 : ℕ) : ℤ))
    (ht : c.sillaInterpT = ((m % 35 : ℕ) : ℚ) / 35)
    (hfirst : c.firstPlaySilla = true → c.playIndexSilla = 0 ∧ c.sillaInterpT = 0) :
    sillaRollovers (List.replicate n 1) c + m / 35 = (m + n) / 35 ∧
    (sillaRollover 1 (runSilla (List.replicate n 1) c) = true ↔ (m + n) % 35 = 34) := by
  induction n generalizing c m with
  | zero =>
    obtain ⟨_, _, _, _, _, hroll⟩ := animateSilla_unit_step c m hplay hN hidx ht hfirst
    exact ⟨by simp [sillaRollovers], by simpa [runSilla] using hroll⟩
  | succ n ih =>
    obtain ⟨hp1, hN1, hi1, ht1, hf1, hroll⟩ :=
      animateSilla_unit_step c m hplay hN hidx ht hfirst
    obtain ⟨hcount, hnext⟩ := ih (animateSilla 1 c) (m + 1) hp1 hN1 hi1 ht1
      (by intro hft; rw [hf1] at hft; exact absurd hft (by simp))
    have e : m + 1 + n = m + (n + 1) := by omega
    rw [e] at hcount hnext
    refine ⟨?_, ?_⟩
    · simp only [List.replicate, sillaRollovers]
      by_cases h34 : m % 35 = 34
      · rw [if_pos (hroll.mpr h34)]
        have e2 : (m + 1) / 35 = m / 35 + 1 := by omega
        omega
      · have hr : ¬ (sillaRollover 1 c = true) := fun h => h34 (hroll.mp h)
        rw [if_neg hr]
        have e2 : (m + 1) / 35 = m / 35 := by omega
        omega
    · simp only [List.replicate, runSilla]
      exact hnext

/-- C9: the blend used by the chair and brush ticks returns its first
argument at `t = 0` and its second argument at `t = 1`, exactly: for all
keyframe slots `a`, `b` of the chair and of the brush store, a segment branch
run at progress 0 sets the interpolated attribute (`rotSilla`; `posPincelX`,
`posPincelY`, `posPincelZ`, `rotPincelZ`) to its value in keyframe `a`, and
run at progress 1 sets it to its value in keyframe `b`. -/
theorem lerp_endpoints (c : Silla) (p : Pincel) (a b next capa : Int) :
    (∀ x y : ℚ, mix x y 0 = x ∧ mix x y 1 = y) ∧
    (sillaTramo { c with sillaInterpT := 0 } a b next).rotSilla = (c.SillaKeyFrame a).rotSilla ∧
    (sillaTramo { c with sillaInterpT := 1 } a b next).rotSilla = (c.SillaKeyFrame b).rotSilla ∧
    ((pincelTramo { p with pincelInterpT := 0 } a b next capa).posPincelX
        = (p.PincelKeyFrame a).posX ∧
      (pincelTramo { p with pincelInterpT := 0 } a b next capa).posPincelY
        = (p.PincelKeyFrame a).posY ∧
      (pincelTramo { p with pincelInterpT := 0 } a b next capa).posPincelZ
        = (p.PincelKeyFrame a).posZ ∧
      (pincelTramo { p with pincelInterpT := 0 } a b next capa).rotPincelZ
        = (p.PincelKeyFrame a).rotZ) ∧
    ((pincelTramo { p with pincelInterpT := 1 } a b next capa).posPincelX
        = (p.PincelKeyFrame b).posX ∧
      (pincelTramo { p with pincelInterpT := 1 } a b next capa).posPincelY
        = (p.PincelKeyFrame b).posY ∧
      (pincelTramo { p with pincelInterpT := 1 } a b next capa).posPincelZ
        = (p.PincelKeyFrame b).posZ ∧
      (pincelTramo { p with pincelInterpT := 1 } a b next capa).rotPincelZ
        = (p.PincelKeyFrame b).rotZ) := by
  refine ⟨fun x y => ⟨mix_zero x y, mix_one x y⟩, ?_, ?_, ⟨?_, ?_, ?_, ?_⟩, ⟨?_, ?_, ?_, ?_⟩⟩ <;>
    norm_num [sillaTramo, pincelTramo, mix_zero, mix_one]

theorem keyE_activate (c0 : Silla) (hoff : c0.playSilla = false) :
    (keyE c0).playSilla = true ∧ (keyE c0).playIndexSilla = 0 ∧ (keyE c0).sillaInterpT = 0 ∧
    (keyE c0).firstPlaySilla = true ∧ (keyE c0).SillaKeyFrame = c0.SillaKeyFrame ∧
    (keyE c0).i_max_steps_silla = c0.i_max_steps_silla := by
  simp [keyE, hoff]

/-- C10: starting from the activation of the chair track by the key `E`
(segment 0, `t = 0`) with the authored chair keyframes and a positive
`i_max_steps_silla`, for every sequence of speed factors in `[0.1, 5.0]`,
immediately after the tick that makes the fourth segment completion
`playIndexSilla` is 0 and `rotSilla` equals `SillaKeyFrame[0].rotSilla`; with
`i_max_steps_silla = 35` and speed factor 1 on every tick the number of
completed segments after `n` ticks is `n / 35`, so the fourth completion
happens at tick 140 exactly. -/
theorem chair_closed_loop (c0 : Silla) (hoff : c0.playSilla = false)
    (hK : c0.SillaKeyFrame = authoredSillaKeyFrame) (hN : 0 < c0.i_max_steps_silla) :
    (∀ (fs : List ℚ) (g : ℚ), (∀ f ∈ fs ++ [g], 1 / 10 ≤ f ∧ f ≤ 5) →
      sillaRollovers fs (keyE c0) = 3 →
      sillaRollover g (runSilla fs (keyE c0)) = true →
      (runSilla (fs ++ [g]) (keyE c0)).playIndexSilla = 0 ∧
      (runSilla (fs ++ [g]) (keyE c0)).rotSilla = (authoredSillaKeyFrame 0).rotSilla) ∧
    (c0.i_max_steps_silla = 35 →
      (∀ n, sillaRollovers (List.replicate n 1) (keyE c0) = n / 35) ∧
      sillaRollover 1 (runSilla (List.replicate 139 1) (keyE c0)) = true ∧
      (runSilla (List.replicate 140 1) (keyE c0)).playIndexSilla = 0 ∧
      (runSilla (List.replicate 140 1) (keyE c0)).rotSilla
        = (authoredSillaKeyFrame 0).rotSilla) := by
  obtain ⟨hEp, hEi, hEt, hEf, hEK, hEN⟩ := keyE_activate c0 hoff
  have hA : ∀ (fs : List ℚ) (g : ℚ), sillaRollovers fs (keyE c0) = 3 →
      sillaRollover g (runSilla fs (keyE c0)) = true →
      (runSilla (fs ++ [g]) (keyE c0)).playIndexSilla = 0 ∧
      (runSilla (fs ++ [g]) (keyE c0)).rotSilla = (authoredSillaKeyFrame 0).rotSilla := by
    intro fs g h3 h4
    obtain ⟨hp, hK1, hi, hf⟩ := runSilla_index fs (keyE c0) 0 hEp (by rw [hEK, hK])
      (by rw [hEi]; rfl) (fun _ => hEi)
    rw [h3] at hi
    have hi3 : (runSilla fs (keyE c0)).playIndexSilla = 3 := by rw [hi]; rfl
    obtain ⟨_, _, _, _, hidx, hrot⟩ :=
      animateSilla_step g (runSilla fs (keyE c0)) 3 hp hK1 (by rw [hi3]; rfl) hf
    rw [runSilla_append]
    refine ⟨?_, ?_⟩
    · show (animateSilla g (runSilla fs (keyE c0))).playIndexSilla = 0
      rw [hidx, if_pos h4]
      rfl
    · show (animateSilla g (runSilla fs (keyE c0))).rotSilla = _
      rw [hrot h4 hi3]
      simp [authoredSillaKeyFrame]
  refine ⟨fun fs g _ h3 h4 => hA fs g h3 h4, ?_⟩
  intro h35
  have hunit : ∀ n, sillaRollovers (List.replicate n 1) (keyE c0) + 0 / 35 = (0 + n) / 35 ∧
      (sillaRollover 1 (runSilla (List.replicate n 1) (keyE c0)) = true ↔ (0 + n) % 35 = 34) :=
    fun n => runSilla_unit n (keyE c0) 0 hEp (by rw [hEN, h35]) (by rw [hEi]; rfl)
      (by rw [hEt]; norm_num) (fun _ => ⟨hEi, hEt⟩)
  have hcount : ∀ n, sillaRollovers (List.replicate n 1) (keyE c0) = n / 35 := by
    intro n
    have h := (hunit n).1
    simpa using h
  have h139 : sillaRollover 1 (runSilla (List.replicate 139 1) (keyE c0)) = true :=
    (hunit 139).2.mpr (by decide)
  have h140 := hA (List.replicate 139 1) 1 (by rw [hcount]) h139
  have e : List.replicate 139 (1 : ℚ) ++ [1] = List.replicate 140 1 := by
    rw [List.replicate_add 139 1 (1 : ℚ)]
    rfl
  rw [e] at h140
  exact ⟨hcount, h139, h140⟩

/-- Witness of C10 on the program's initial chair state. -/
theorem chair_closed_loop_witness :
    (initialSilla.playSilla = false ∧ initialSilla.SillaKeyFrame = authoredSillaKeyFrame ∧
      0 < initialSilla.i_max_steps_silla) ∧
    sillaRollovers (List.replicate 139 1) (keyE initialSilla) = 3 ∧
    sillaRollovers (List.replicate 140 1) (keyE initialSilla) = 4 ∧
    (runSilla (List.replicate 140 1) (keyE initialSilla)).playIndexSilla = 0 ∧
    (runSilla (List.replicate 140 1) (keyE initialSilla)).rotSilla = 0 := by
  obtain ⟨_, hB⟩ := chair_closed_loop initialSilla (by decide) rfl (by decide)
  obtain ⟨hcount, _, hidx, hrot⟩ := hB (by decide)
  refine ⟨⟨by decide, rfl, by decide⟩, by rw [hcount], by rw [hcount], hidx, ?_⟩
  rw [hrot]
  simp [authoredSillaKeyFrame]

/-! ## The frame clock -/

theorem speedFactor_pos (dt : ℚ) (h : 0 < dt) : speedFactor dt = clamp (dt * 80) (1 / 10) 5 := by
  unfold speedFactor
  rw [if_pos h]

theorem speedFactor_nonpos (dt : ℚ) (h : dt ≤ 0) : speedFactor dt = 1 := by
  unfold speedFactor clamp
  rw [if_neg (not_lt.mpr h)]
  norm_num

theorem clamp_range (x : ℚ) : 1 / 10 ≤ clamp x (1 / 10) 5 ∧ clamp x (1 / 10) 5 ≤ 5 := by
  unfold clamp
  refine ⟨le_min (le_max_right _ _) (by norm_num), min_le_right _ _⟩

/-- Counterexample to C14: for `deltaTime = 0` the guard `deltaTime > 0.0`
fails, the default 1.0 is what gets clamped, and the speed factor is 1.0, not
0.1. -/
theorem speedFactor_zero_not_lower_clamp : speedFactor 0 = 1 ∧ speedFactor 0 ≠ 1 / 10 := by
  have h : speedFactor 0 = 1 := speedFactor_nonpos 0 le_rfl
  refine ⟨h, ?_⟩
  rw [h]
  norm_num

/-- C14 (amended): for `deltaTime = 0` the speed factor computed by
`animate()` is 1.0; the lower clamp value 0.1 is the speed factor of every
`deltaTime` with `0 < deltaTime * 80 <= 0.1`. -/
theorem speedFactor_zero_and_lower_clamp :
    speedFactor 0 = 1 ∧
    ∀ dt : ℚ, 0 < dt → dt * 80 ≤ 1 / 10 → speedFactor dt = 1 / 10 := by
  refine ⟨speedFactor_nonpos 0 le_rfl, ?_⟩
  intro dt hpos hle
  rw [speedFactor_pos dt hpos]
  unfold clamp
  rw [max_eq_right hle]
  norm_num

/-- Witness of C14 (amended): one thousandth of a time unit. -/
theorem speedFactor_zero_and_lower_clamp_witness :
    ((0 : ℚ) < 1 / 1000 ∧ (1 / 1000 : ℚ) * 80 ≤ 1 / 10) ∧ speedFactor (1 / 1000) = 1 / 10 :=
  ⟨⟨by norm_num, by norm_num⟩,
    speedFactor_zero_and_lower_clamp.2 (1 / 1000) (by norm_num) (by norm_num)⟩

/-- C15: for every `deltaTime` with `deltaTime * 80 >= 5.0` the speed factor
computed by `animate()` is exactly 5.0, and for every `deltaTime` the speed
factor lies in `[0.1, 5.0]`. -/
theorem speedFactor_upper_clamp_and_range :
    (∀ dt : ℚ, dt * 80 ≥ 5 → speedFactor dt = 5) ∧
    (∀ dt : ℚ, 1 / 10 ≤ speedFactor dt ∧ speedFactor dt ≤ 5) := by
  refine ⟨?_, ?_⟩
  · intro dt h
    have hpos : 0 < dt := by linarith
    rw [speedFactor_pos dt hpos]
    unfold clamp
    have h1 : max (dt * 80) (1 / 10) = dt * 80 := max_eq_left (by linarith)
    rw [h1]
    exact min_eq_right h
  · intro dt
    by_cases hpos : 0 < dt
    · rw [speedFactor_pos dt hpos]
      exact clamp_range _
    · rw [speedFactor_nonpos dt (not_lt.mp hpos)]
      norm_num

/-- Witness of C15: a frame of 16 time units. -/
theorem speedFactor_upper_clamp_and_range_witness :
    ((16 : ℚ) * 80 ≥ 5) ∧ speedFactor 16 = 5 :=
  ⟨by norm_num, speedFactor_upper_clamp_and_range.1 16 (by norm_num)⟩

/-! ## Single ticks of the assembly block and of the spotlight -/

/-- C16: for every state with `play` true and `i_curr_steps < i_max_steps`
and every speed factor `f`, one `animate()` tick returns, adds
`increment[a] * f` to each of the 16 animated attributes, increases
`i_curr_steps` by exactly 1, and leaves `playIndex`, `play` and all increments
unchanged (as well as the keyframes, `FrameIndex` and `i_max_steps`). -/
theorem assembly_tick_advances (s : State) (f : ℚ) (hplay : s.cab.play = true)
    (hlt : s.cab.i_curr_steps < s.cab.i_max_steps) :
    ∃ s1, animateWith f s = some s1 ∧
      (∀ a, s1.cab.attr a = s.cab.attr a + s.cab.inc a * f) ∧
      s1.cab.i_curr_steps = s.cab.i_curr_steps + 1 ∧
      s1.cab.playIndex = s.cab.playIndex ∧ s1.cab.play = true ∧
      (∀ a, s1.cab.inc a = s.cab.inc a) ∧
      s1.cab.KeyFrame = s.cab.KeyFrame ∧ s1.cab.FrameIndex = s.cab.FrameIndex ∧
      s1.cab.i_max_steps = s.cab.i_max_steps := by
  obtain ⟨c1, hc1, hattr, hinc, hs, hpl, hp, hK, hF, hN⟩ :=
    animateCaballete_advance f s.cab hplay hlt
  obtain ⟨s1, hs1, hcab⟩ := animateWith_of_cab f s c1 hc1
  rw [← hcab] at hattr hinc hs hpl hp hK hF hN
  exact ⟨s1, hs1, hattr, hs, hp, hpl, hinc, hK, hF, hN⟩

/-- Witness of C16: the first tick of the first playback, at speed factor 2;
the base moves by twice its increment. -/
theorem assembly_tick_advances_witness :
    (playbackStart.cab.play = true ∧
      playbackStart.cab.i_curr_steps < playbackStart.cab.i_max_steps) ∧
    ∃ s1, animateWith 2 playbackStart = some s1 ∧
      s1.cab.attr Attr.basePosY = -1000 / 45 ∧ s1.cab.i_curr_steps = 1 := by
  refine ⟨⟨by decide, by decide⟩, ?_⟩
  obtain ⟨s1, h1, hattr, hs, _⟩ :=
    assembly_tick_advances playbackStart 2 (by decide) (by decide)
  refine ⟨s1, h1, ?_, by rw [hs]; decide⟩
  rw [hattr]
  norm_num [playbackStart, initialState, initialCaballete, my_input, keyZ, interpolation,
    resetElements, MAX_FRAMES, authoredKeyFrame, authorKeyFrames, setKeyFrame, FRAME.attr,
    FRAME.zero, Caballete.attr, Caballete.inc]

theorem animateWith_foco (f : ℚ) (s s1 : State) (h : animateWith f s = some s1) :
    s1.foco = animateFoco f s.foco := by
  unfold animateWith at h
  cases hc : animateCaballete f s.cab with
  | none => simp [hc] at h
  | some c =>
    simp only [hc, Option.some.injEq] at h
    rw [← h]

theorem animateFoco_rising (f : ℚ) (c : Foco) (h : c.focoSubiendo = true) :
    (animateFoco f c).focoIntensidad = c.focoIntensidad + 2 / 100 * f ∧
    ((animateFoco f c).focoSubiendo = false ↔ c.focoIntensidad + 2 / 100 * f ≥ 1) := by
  unfold animateFoco
  rw [if_pos h]
  by_cases hge : c.focoIntensidad + 2 / 100 * f ≥ 1
  · simp only [hge, if_true, iff_true, and_self]
  · simp only [hge, if_false, iff_false, h, true_and]
    simp

theorem animateFoco_falling (f : ℚ) (c : Foco) (h : c.focoSubiendo = false) :
    (animateFoco f c).focoIntensidad = c.focoIntensidad - 2 / 100 * f ∧
    ((animateFoco f c).focoSubiendo = true ↔ c.focoIntensidad - 2 / 100 * f ≤ 0) := by
  unfold animateFoco
  rw [if_neg (by rw [h]; simp)]
  by_cases hle : c.focoIntensidad - 2 / 100 * f ≤ 0
  · simp only [hle, if_true, iff_true, and_self]
  · simp only [hle, if_false, iff_false, h, true_and]
    simp

/-- C20: on every `animate()` tick that returns, whatever the state of the
assembly, chair and brush tracks, the spotlight part of the new state is the
spotlight step applied to the old spotlight state alone; that step changes the
intensity by exactly `0.02 * speedFactor`, upward when `focoSubiendo` is set
and downward otherwise; a set flag is cleared exactly when the increased
intensity is `>= 1.0`, a cleared flag is set exactly when the decreased
intensity is `<= 0.0`, and the flag is unchanged otherwise. -/
theorem spotlight_step (f : ℚ) :
    (∀ s s1 : State, animateWith f s = some s1 → s1.foco = animateFoco f s.foco) ∧
    (∀ c : Foco, c.focoSubiendo = true →
      (animateFoco f c).focoIntensidad = c.focoIntensidad + 2 / 100 * f ∧
      ((animateFoco f c).focoSubiendo = false ↔ c.focoIntensidad + 2 / 100 * f ≥ 1)) ∧
    (∀ c : Foco, c.focoSubiendo = false →
      (animateFoco f c).focoIntensidad = c.focoIntensidad - 2 / 100 * f ∧
      ((animateFoco f c).focoSubiendo = true ↔ c.focoIntensidad - 2 / 100 * f ≤ 0)) :=
  ⟨fun s s1 h => animateWith_foco f s s1 h, fun c h => animateFoco_rising f c h,
    fun c h => animateFoco_falling f c h⟩

/-- Witness of C20: the first tick of the program at speed factor 1 returns,
raises the intensity from 20 to 20.02 and clears the rising flag. -/
theorem spotlight_step_witness :
    initialFoco.focoSubiendo = true ∧
    ∃ s1, animateWith 1 initialState = some s1 ∧
      s1.foco.focoIntensidad = 2002 / 100 ∧ s1.foco.focoSubiendo = false := by
  obtain ⟨hstate, hrise, _⟩ := spotlight_step 1
  obtain ⟨hi, hf⟩ := hrise initialFoco rfl
  obtain ⟨s1, hs1, _⟩ := animateWith_of_cab 1 initialState initialCaballete
    (animateCaballete_idle 1 initialCaballete rfl)
  have hfoco : s1.foco = animateFoco 1 initialFoco := hstate initialState s1 hs1
  refine ⟨rfl, s1, hs1, ?_, ?_⟩
  · rw [hfoco, hi]
    norm_num [initialFoco]
  · rw [hfoco, hf]
    norm_num [initialFoco]

/-! ## The control state of a playback, for any `FrameIndex` and step count -/

theorem succ_div_mod (m d : ℕ) (hd : 0 < d) :
    (m % d + 1 < d → (m + 1) / d = m / d ∧ (m + 1) % d = m % d + 1) ∧
    (m % d + 1 = d → (m + 1) / d = m / d + 1 ∧ (m + 1) % d = 0) := by
  have h := Nat.div_add_mod m d
  refine ⟨?_, ?_⟩
  · intro hlt
    have e : m + 1 = (m % d + 1) + d * (m / d) := by omega
    rw [e, Nat.add_mul_div_left _ _ hd, Nat.add_mul_mod_self_left, Nat.div_eq_of_lt hlt,
      Nat.mod_eq_of_lt hlt]
    exact ⟨by omega, rfl⟩
  · intro heq
    have e : m + 1 = d * (m / d + 1) := by
      rw [Nat.mul_add, Nat.mul_one]
      omega
    rw [e, Nat.mul_div_cancel_left _ hd, Nat.mul_mod_right]
    exact ⟨rfl, rfl⟩

theorem pred_mul_div_mod (q d : ℕ) (hq : 0 < q) (hd : 0 < d) :
    (q * d - 1) / d = q - 1 ∧ (q * d - 1) % d = d - 1 := by
  obtain ⟨q1, rfl⟩ : ∃ q1, q = q1 + 1 := ⟨q - 1, by omega⟩
  have e : (q1 + 1) * d - 1 = (d - 1) + d * q1 := by
    have e1 : (q1 + 1) * d = d * q1 + d := by ring
    rw [e1]
    omega
  have hlt : d - 1 < d := by omega
  rw [e, Nat.add_mul_div_left _ _ hd, Nat.add_mul_mod_self_left, Nat.div_eq_of_lt hlt,
    Nat.mod_eq_of_lt hlt]
  exact ⟨by omega, rfl⟩

/-- The control state of a playback, whatever the speed factors: `m` ticks
after the start the track is in segment `m / (i_max_steps + 1)` at step
`m % (i_max_steps + 1)`, as long as `m < (FrameIndex - 1) * (i_max_steps + 1)`. -/
theorem playback_control_general (fs : List ℚ) (c : Caballete) (m : ℕ)
    (hplay : c.play = true) (hN : 0 ≤ c.i_max_steps) (hFI : c.FrameIndex ≤ MAX_FRAMES)
    (hp : c.playIndex = ((m / (c.i_max_steps.toNat + 1) : ℕ) : ℤ))
    (hs : c.i_curr_steps = ((m % (c.i_max_steps.toNat + 1) : ℕ) : ℤ))
    (hm : m + fs.length < (c.FrameIndex - 1).toNat * (c.i_max_steps.toNat + 1)) :
    ∃ c1, runCab fs c = some c1 ∧ c1.play = true ∧ c1.FrameIndex = c.FrameIndex ∧
      c1.i_max_steps = c.i_max_steps ∧ c1.KeyFrame = c.KeyFrame ∧
      c1.playIndex = (((m + fs.length) / (c.i_max_steps.toNat + 1) : ℕ) : ℤ) ∧
      c1.i_curr_steps = (((m + fs.length) % (c.i_max_steps.toNat + 1) : ℕ) : ℤ) := by
  induction fs generalizing c m with
  | nil => exact ⟨c, rfl, hplay, rfl, rfl, rfl, by simpa using hp, by simpa using hs⟩
  | cons f fs ih =>
    simp only [List.length_cons] at hm ⊢
    have hd : 0 < c.i_max_steps.toNat + 1 := Nat.succ_pos _
    have hcast : ((c.i_max_steps.toNat : ℕ) : ℤ) = c.i_max_steps := Int.toNat_of_nonneg hN
    have hmod : m % (c.i_max_steps.toNat + 1) < c.i_max_steps.toNat + 1 := Nat.mod_lt _ hd
    obtain ⟨hcase1, hcase2⟩ := succ_div_mod m (c.i_max_steps.toNat + 1) hd
    have e : m + 1 + fs.length = m + (fs.length + 1) := by omega
    simp only [MAX_FRAMES] at hFI
    by_cases hlt : c.i_curr_steps < c.i_max_steps
    · obtain ⟨hq, hr⟩ := hcase1 (by omega)
      obtain ⟨c1, hc1, _, _, hs1, hpl1, hp1, hK1, hF1, hN1⟩ :=
        animateCaballete_advance f c hplay hlt
      obtain ⟨c2, hc2, hpl2, hF2, hN2, hK2, hp2, hs2⟩ := ih c1 (m + 1) hpl1
        (by rw [hN1]; exact hN) (by rw [hF1]; simpa [MAX_FRAMES] using hFI)
        (by rw [hp1, hp, hN1, hq]) (by rw [hs1, hs, hN1, hr]; push_cast; ring)
        (by rw [hF1, hN1, e]; exact hm)
      rw [hN1, e] at hp2 hs2
      exact ⟨c2, by simp only [runCab, hc1, hc2], hpl2, by rw [hF2, hF1], by rw [hN2, hN1],
        by rw [hK2, hK1], hp2, hs2⟩
    · obtain ⟨hq, hr⟩ := hcase2 (by omega)
      have hlt2 : (m + 1) / (c.i_max_steps.toNat + 1) < (c.FrameIndex - 1).toNat := by
        rw [Nat.div_lt_iff_lt_mul hd]
        omega
      have hpi0 : 0 ≤ c.playIndex := by rw [hp]; exact Int.natCast_nonneg _
      have hpi : c.playIndex + 1 < c.FrameIndex - 1 := by
        have h1 : m / (c.i_max_steps.toNat + 1) + 1 < (c.FrameIndex - 1).toNat := by
          rw [← hq]; exact hlt2
        have h2 : ((m / (c.i_max_steps.toNat + 1) : ℕ) : ℤ) + 1
            < (((c.FrameIndex - 1).toNat : ℕ) : ℤ) := by exact_mod_cast h1
        have h3 : (((c.FrameIndex - 1).toNat : ℕ) : ℤ) = c.FrameIndex - 1 :=
          Int.toNat_of_nonneg (by omega)
        rw [hp, ← h3]
        exact h2
      obtain ⟨c1, hc1, _, _, hs1, hpl1, hp1, hK1, hF1, hN1⟩ :=
        animateCaballete_next f c hplay (by omega) (by omega) (by omega)
          (by simp only [MAX_FRAMES]; omega)
      obtain ⟨c2, hc2, hpl2, hF2, hN2, hK2, hp2, hs2⟩ := ih c1 (m + 1) hpl1
        (by rw [hN1]; exact hN) (by rw [hF1]; simpa [MAX_FRAMES] using hFI)
        (by rw [hp1, hp, hN1, hq]; push_cast; ring) (by rw [hs1, hN1, hr]; rfl)
        (by rw [hF1, hN1, e]; exact hm)
      rw [hN1, e] at hp2 hs2
      exact ⟨c2, by simp only [runCab, hc1, hc2], hpl2, by rw [hF2, hF1], by rw [hN2, hN1],
        by rw [hK2, hK1], hp2, hs2⟩

theorem reachable_runTicks (fs : List ℚ) (s s1 : State) (hs : PlaybackReachable s)
    (h : runTicks fs s = some s1) : PlaybackReachable s1 := by
  induction fs generalizing s with
  | nil =>
    simp only [runTicks, Option.some.injEq] at h
    rw [← h]
    exact hs
  | cons f fs ih =>
    simp only [runTicks] at h
    cases hc : animateWith f s with
    | none => simp [hc] at h
    | some s2 =>
      simp only [hc] at h
      exact ih s2 (PlaybackReachable.tick s s2 f hs hc) h

/-- C17: for every state with `play` true and `i_curr_steps >= i_max_steps`,
one `animate()` tick increments `playIndex`. (1) If the new `playIndex`
exceeds `FrameIndex - 2` the tick returns with `playIndex = 0` and
`play = false`. (2) Otherwise, in a state whose `playIndex` is not negative and
whose `FrameIndex` is at most `MAX_FRAMES`, the tick returns with the
incremented `playIndex`, `i_curr_steps = 0` and the increments of the new
segment. In both cases no animated attribute changes. (3) Consequently, for
`2 <= FrameIndex <= 20` and a positive `i_max_steps`, a playback started by `Z`
is, `n` ticks later and whatever the speed factors, playing segment
`n / (i_max_steps + 1)` with the increments of that segment, for every
`n < (FrameIndex - 1) * (i_max_steps + 1)`, and has stopped after tick
`(FrameIndex - 1) * (i_max_steps + 1)`: it interpolates exactly the segments
`0 .. FrameIndex - 2`, in order. -/
theorem assembly_tick_boundary :
    (∀ (s : State) (f : ℚ), s.cab.play = true → s.cab.i_curr_steps ≥ s.cab.i_max_steps →
      s.cab.playIndex + 1 > s.cab.FrameIndex - 2 →
      ∃ s1, animateWith f s = some s1 ∧ s1.cab.playIndex = 0 ∧ s1.cab.play = false ∧
        (∀ a, s1.cab.attr a = s.cab.attr a)) ∧
    (∀ (s : State) (f : ℚ), s.cab.play = true → s.cab.i_curr_steps ≥ s.cab.i_max_steps →
      s.cab.playIndex + 1 ≤ s.cab.FrameIndex - 2 →
      0 ≤ s.cab.playIndex → s.cab.FrameIndex ≤ MAX_FRAMES →
      ∃ s1, animateWith f s = some s1 ∧ s1.cab.playIndex = s.cab.playIndex + 1 ∧
        s1.cab.play = true ∧ s1.cab.i_curr_steps = 0 ∧
        (∀ a, s1.cab.inc a = ((s.cab.KeyFrame (s.cab.playIndex + 1 + 1)).attr a
          - (s.cab.KeyFrame (s.cab.playIndex + 1)).attr a) / (s.cab.i_max_steps : ℚ)) ∧
        (∀ a, s1.cab.attr a = s.cab.attr a)) ∧
    (∀ s0 : State, s0.cab.play = false → 2 ≤ s0.cab.FrameIndex →
      s0.cab.FrameIndex ≤ MAX_FRAMES → 0 < s0.cab.i_max_steps →
      ∃ s1, my_input Key.Z s0 = some s1 ∧
        (∀ fs : List ℚ,
          fs.length < (s0.cab.FrameIndex - 1).toNat * (s0.cab.i_max_steps.toNat + 1) →
          ∃ s, runTicks fs s1 = some s ∧ s.cab.play = true ∧
            s.cab.playIndex = ((fs.length / (s0.cab.i_max_steps.toNat + 1) : ℕ) : ℤ) ∧
            s.cab.i_curr_steps = ((fs.length % (s0.cab.i_max_steps.toNat + 1) : ℕ) : ℤ) ∧
            (∀ a, s.cab.inc a = ((s0.cab.KeyFrame (s.cab.playIndex + 1)).attr a
              - (s0.cab.KeyFrame s.cab.playIndex).attr a) / (s0.cab.i_max_steps : ℚ))) ∧
        (∀ fs : List ℚ,
          fs.length = (s0.cab.FrameIndex - 1).toNat * (s0.cab.i_max_steps.toNat + 1) →
          ∃ s, runTicks fs s1 = some s ∧ s.cab.play = false ∧ s.cab.playIndex = 0)) := by
  refine ⟨?_, ?_, ?_⟩
  · intro s f hplay hge hlast
    have hfin := animateCaballete_finish f s.cab hplay hge hlast
    obtain ⟨s1, hs1, hcab⟩ := animateWith_of_cab f s _ hfin
    refine ⟨s1, hs1, by rw [hcab], by rw [hcab], ?_⟩
    intro a
    rw [hcab]
    cases a <;> rfl
  · intro s f hplay hge hnext h0 hFI
    simp only [MAX_FRAMES] at hFI
    obtain ⟨c1, hc1, hattr, hinc, hs, hpl, hp, _⟩ :=
      animateCaballete_next f s.cab hplay hge (by omega) (by omega)
        (by simp only [MAX_FRAMES]; omega)
    obtain ⟨s1, hs1, hcab⟩ := animateWith_of_cab f s c1 hc1
    rw [← hcab] at hattr hinc hs hpl hp
    exact ⟨s1, hs1, hp, hpl, hs, hinc, hattr⟩
  · intro s0 hplay hFI2 hFI hN
    obtain ⟨c0, hc0, hpl0, hp0, hs0, _, _, hK0, hF0, hN0⟩ :=
      keyZ_start s0.cab hplay (by omega)
    have hZ : my_input Key.Z s0 = some { s0 with cab := c0 } := by simp [my_input, hc0]
    have hreach : PlaybackReachable { s0 with cab := c0 } :=
      PlaybackReachable.start s0 _ hZ hpl0
    have hd : 0 < s0.cab.i_max_steps.toNat + 1 := Nat.succ_pos _
    have hctl : ∀ fs : List ℚ,
        fs.length < (s0.cab.FrameIndex - 1).toNat * (s0.cab.i_max_steps.toNat + 1) →
        ∃ c1, runCab fs c0 = some c1 ∧ c1.play = true ∧ c1.FrameIndex = s0.cab.FrameIndex ∧
          c1.i_max_steps = s0.cab.i_max_steps ∧ c1.KeyFrame = s0.cab.KeyFrame ∧
          c1.playIndex = ((fs.length / (s0.cab.i_max_steps.toNat + 1) : ℕ) : ℤ) ∧
          c1.i_curr_steps = ((fs.length % (s0.cab.i_max_steps.toNat + 1) : ℕ) : ℤ) := by
      intro fs hlen
      obtain ⟨c1, hc1, hpl1, hF1, hN1, hK1, hp1, hs1⟩ :=
        playback_control_general fs c0 0 hpl0 (by rw [hN0]; omega) (by rw [hF0]; exact hFI)
          (by rw [hp0]; simp) (by rw [hs0]; simp) (by rw [hF0, hN0, Nat.zero_add]; exact hlen)
      rw [Nat.zero_add, hN0] at hp1 hs1
      exact ⟨c1, hc1, hpl1, by rw [hF1, hF0], by rw [hN1, hN0], by rw [hK1, hK0], hp1, hs1⟩
    refine ⟨{ s0 with cab := c0 }, hZ, ?_, ?_⟩
    · intro fs hlen
      obtain ⟨c1, hc1, hpl1, hF1, hN1, hK1, hp1, hs1⟩ := hctl fs hlen
      obtain ⟨s2, hs2, hcab⟩ := runTicks_of_runCab fs { s0 with cab := c0 } c1 hc1
      obtain ⟨hinc, _, _⟩ := playback_invariant s2 (reachable_runTicks fs _ s2 hreach hs2)
        (by rw [hcab]; exact hpl1)
      rw [hcab] at hinc
      rw [hK1, hN1] at hinc
      exact ⟨s2, hs2, by rw [hcab]; exact hpl1, by rw [hcab]; exact hp1,
        by rw [hcab]; exact hs1, by rw [hcab]; exact hinc⟩
    · intro fs hlen
      have hq : 0 < (s0.cab.FrameIndex - 1).toNat := by omega
      have hT : 0 < (s0.cab.FrameIndex - 1).toNat * (s0.cab.i_max_steps.toNat + 1) :=
        Nat.mul_pos hq hd
      obtain ⟨hdiv, hmod⟩ :=
        pred_mul_div_mod (s0.cab.FrameIndex - 1).toNat (s0.cab.i_max_steps.toNat + 1) hq hd
      have hsplit : fs = fs.take (fs.length - 1) ++ fs.drop (fs.length - 1) :=
        (List.take_append_drop _ fs).symm
      have hlt : (fs.take (fs.length - 1)).length = fs.length - 1 := by
        rw [List.length_take]; omega
      have hld : (fs.drop (fs.length - 1)).length = 1 := by
        rw [List.length_drop]; omega
      obtain ⟨g, hg⟩ := List.length_eq_one.mp hld
      obtain ⟨c1, hc1, hpl1, hF1, hN1, _, hp1, hs1⟩ :=
        hctl (fs.take (fs.length - 1)) (by rw [hlt]; omega)
      rw [hlt, hlen, hdiv] at hp1
      rw [hlt, hlen, hmod] at hs1
      have hcastN : ((s0.cab.i_max_steps.toNat : ℕ) : ℤ) = s0.cab.i_max_steps :=
        Int.toNat_of_nonneg hN.le
      have hfin := animateCaballete_finish g c1 hpl1
        (by rw [hs1, hN1]; omega) (by rw [hp1, hF1]; omega)
      have hrun : runCab fs c0 = some { c1 with playIndex := 0, play := false } := by
        rw [hsplit, runCab_append _ _ _ _ hc1, hg]
        simp only [runCab, hfin]
      obtain ⟨s2, hs2, hcab⟩ := runTicks_of_runCab fs { s0 with cab := c0 } _ hrun
      exact ⟨s2, hs2, by rw [hcab], by rw [hcab]⟩

/-- Witness of C17 on the program's initial state: tick 46 of the first
playback enters segment 1, and tick 874 stops the track. -/
theorem assembly_tick_boundary_witness :
    (initialState.cab.play = false ∧ 2 ≤ initialState.cab.FrameIndex ∧
      initialState.cab.FrameIndex ≤ MAX_FRAMES ∧ 0 < initialState.cab.i_max_steps) ∧
    ∃ s1, my_input Key.Z initialState = some s1 ∧
      (∃ s, runTicks (List.replicate 46 1) s1 = some s ∧ s.cab.play = true ∧
        s.cab.playIndex = 1 ∧ s.cab.i_curr_steps = 0) ∧
      (∃ s, runTicks (List.replicate 874 1) s1 = some s ∧ s.cab.play = false ∧
        s.cab.playIndex = 0) := by
  refine ⟨⟨by decide, by decide, by decide, by decide⟩, ?_⟩
  obtain ⟨s1, h1, hrun, hfin⟩ :=
    assembly_tick_boundary.2.2 initialState (by decide) (by decide) (by decide) (by decide)
  refine ⟨s1, h1, ?_, ?_⟩
  · obtain ⟨s, hs, hpl, hp, hst, _⟩ := hrun (List.replicate 46 1)
      (by rw [List.length_replicate]; decide)
    rw [List.length_replicate] at hp hst
    exact ⟨s, hs, hpl, by rw [hp]; decide, by rw [hst]; decide⟩
  · exact hfin (List.replicate 874 1) (by rw [List.length_replicate]; decide)

/-! ## The chair chain and the modulo-indexed reference step -/

theorem animateSilla_eq_ref (f : ℚ) (c : Silla) (hplay : c.playSilla = true)
    (hfirst : c.firstPlaySilla = false)
    (hlo : 0 ≤ c.playIndexSilla) (hhi : c.playIndexSilla ≤ 3) :
    animateSilla f c = sillaRefStep f c := by
  have e : f / (c.i_max_steps_silla : ℚ) = (c.i_max_steps_silla : ℚ)⁻¹ * f := by ring
  have h4 : c.playIndexSilla = 0 ∨ c.playIndexSilla = 1 ∨ c.playIndexSilla = 2 ∨
      c.playIndexSilla = 3 := by omega
  by_cases ht : 1 ≤ c.sillaInterpT + (c.i_max_steps_silla : ℚ)⁻¹ * f
  · rcases h4 with h | h | h | h <;>
      simp [animateSilla, sillaRefStep, sillaTramo, hplay, hfirst, ht, h, e]
  · rcases h4 with h | h | h | h <;>
      simp [animateSilla, sillaRefStep, sillaTramo, hplay, hfirst, ht, h, e]

theorem animateSilla_first (f : ℚ) (c : Silla) (hplay : c.playSilla = true)
    (hfirst : c.firstPlaySilla = true) :
    animateSilla f c
      = animateSilla f { c with playIndexSilla := 0, sillaInterpT := 0, firstPlaySilla := false } := by
  simp [animateSilla, hplay, hfirst]

/-- C18: for every state with the chair active and every speed factor `f`, the
if/else-if chain of `animate()` produces the same state as the reference step
`t1 = t + f / i_max_steps_silla`;
`rotSilla = lerp(SillaKeyFrame[s], SillaKeyFrame[(s+1) mod 4], t1)`; if
`t1 >= 1` then `t = 0` and `s = (s+1) mod 4`, else `t = t1` and `s` unchanged,
where `s` in {0,1,2,3} and `t` are `playIndexSilla` and `sillaInterpT` as the
chain finds them: those of the state itself when no activation reset is
pending (`firstPlaySilla` false), and segment 0 with `t = 0` when one is. -/
theorem chair_tick_refines_reference (f : ℚ) (c : Silla) (hplay : c.playSilla = true) :
    (c.firstPlaySilla = false → 0 ≤ c.playIndexSilla → c.playIndexSilla ≤ 3 →
      animateSilla f c = sillaRefStep f c) ∧
    (c.firstPlaySilla = true →
      animateSilla f c = sillaRefStep f
        { c with playIndexSilla := 0, sillaInterpT := 0, firstPlaySilla := false }) ∧
    (0 ≤ (sillaFirstPlay c).playIndexSilla → (sillaFirstPlay c).playIndexSilla ≤ 3 →
      animateSilla f c = sillaRefStep f (sillaFirstPlay c)) := by
  have h1 : c.firstPlaySilla = false → 0 ≤ c.playIndexSilla → c.playIndexSilla ≤ 3 →
      animateSilla f c = sillaRefStep f c :=
    fun hf hlo hhi => animateSilla_eq_ref f c hplay hf hlo hhi
  have h2 : c.firstPlaySilla = true →
      animateSilla f c = sillaRefStep f
        { c with playIndexSilla := 0, sillaInterpT := 0, firstPlaySilla := false } := by
    intro hf
    rw [animateSilla_first f c hplay hf]
    exact animateSilla_eq_ref f _ hplay rfl (by simp) (by simp)
  refine ⟨h1, h2, ?_⟩
  intro hlo hhi
  cases hf : c.firstPlaySilla with
  | true =>
    have e : sillaFirstPlay c
        = { c with playIndexSilla := 0, sillaInterpT := 0, firstPlaySilla := false } := by
      simp [sillaFirstPlay, hf]
    rw [e]
    exact h2 hf
  | false =>
    have e : sillaFirstPlay c = c := by simp [sillaFirstPlay, hf]
    rw [e] at hlo hhi ⊢
    exact h1 hf hlo hhi

/-- Witness of C18: the chair of the initial state, activated and one tick
old, steps as the reference step does. -/
theorem chair_tick_refines_reference_witness :
    ((animateSilla 1 (keyE initialSilla)).playSilla = true ∧
      (animateSilla 1 (keyE initialSilla)).firstPlaySilla = false ∧
      0 ≤ (animateSilla 1 (keyE initialSilla)).playIndexSilla ∧
      (animateSilla 1 (keyE initialSilla)).playIndexSilla ≤ 3) ∧
    animateSilla 1 (animateSilla 1 (keyE initialSilla))
      = sillaRefStep 1 (animateSilla 1 (keyE initialSilla)) := by
  obtain ⟨hp, _, _, hf, _, _, hi, _⟩ := animateSilla_active 1 (keyE initialSilla) rfl
    (fun _ => ⟨rfl, rfl⟩) (by decide) (by decide)
  have hidx : (animateSilla 1 (keyE initialSilla)).playIndexSilla = 0 := by
    rw [hi]
    norm_num [keyE, initialSilla]
  exact ⟨⟨hp, hf, by rw [hidx], by rw [hidx]; decide⟩,
    (chair_tick_refines_reference 1 _ hp).1 hf (by rw [hidx]) (by rw [hidx]; decide)⟩

/-! ## The brush track -/

theorem animateWith_pincel (f : ℚ) (s s1 : State) (h : animateWith f s = some s1) :
    s1.pincel = animatePincel f s.pincel := by
  unfold animateWith at h
  cases hc : animateCaballete f s.cab with
  | none => simp [hc] at h
  | some c =>
    simp only [hc, Option.some.injEq] at h
    rw [← h]

theorem runPincel_append (fs gs : List ℚ) (c : Pincel) :
    runPincel (fs ++ gs) c = runPincel gs (runPincel fs c) := by
  induction fs generalizing c with
  | nil => rfl
  | cons f fs ih =>
    show runPincel (fs ++ gs) (animatePincel f c)
      = runPincel gs (runPincel fs (animatePincel f c))
    exact ih _

theorem runPincel_succ (n : ℕ) (f : ℚ) (c : Pincel) :
    runPincel (List.replicate (n + 1) f) c
      = animatePincel f (runPincel (List.replicate n f) c) := by
  rw [List.replicate_add, runPincel_append]
  rfl

theorem keyQ_activate (c0 : Pincel) (hoff : c0.playPincel = false) :
    (keyQ c0).playPincel = true ∧ (keyQ c0).playIndexPincel = 0 ∧
    (keyQ c0).pincelInterpT = 0 ∧ (keyQ c0).firstPlayPincel = true ∧
    (keyQ c0).PincelKeyFrame = c0.PincelKeyFrame ∧
    (keyQ c0).i_max_steps_pincel = c0.i_max_steps_pincel ∧
    (keyQ c0).pinturaActual = c0.pinturaActual := by
  simp [keyQ, hoff]

/-- One tick of an active brush track in terms of the advanced progress
`t1 = pincelInterpT + 1 / i_max_steps_pincel * f`: the blend of keyframes
`playIndexPincel` and `playIndexPincel + 1` is taken at `t1`; when `t1 >= 1`
the segment is completed, the index moves on modulo 4 and the paint layer
becomes the index of the keyframe reached. -/
theorem animatePincel_active (f : ℚ) (c : Pincel) (hplay : c.playPincel = true)
    (hfirst : c.firstPlayPincel = true → c.playIndexPincel = 0 ∧ c.pincelInterpT = 0)
    (hlo : 0 ≤ c.playIndexPincel) (hhi : c.playIndexPincel ≤ 3) :
    (animatePincel f c).playPincel = true ∧
    (animatePincel f c).PincelKeyFrame = c.PincelKeyFrame ∧
    (animatePincel f c).i_max_steps_pincel = c.i_max_steps_pincel ∧
    (animatePincel f c).firstPlayPincel = false ∧
    (animatePincel f c).posPincelX
      = mix (c.PincelKeyFrame c.playIndexPincel).posX
          (c.PincelKeyFrame (c.playIndexPincel + 1)).posX
          (c.pincelInterpT + 1 / (c.i_max_steps_pincel : ℚ) * f) ∧
    (animatePincel f c).posPincelY
      = mix (c.PincelKeyFrame c.playIndexPincel).posY
          (c.PincelKeyFrame (c.playIndexPincel + 1)).posY
          (c.pincelInterpT + 1 / (c.i_max_steps_pincel : ℚ) * f) ∧
    (animatePincel f c).posPincelZ
      = mix (c.PincelKeyFrame c.playIndexPincel).posZ
          (c.PincelKeyFrame (c.playIndexPincel + 1)).posZ
          (c.pincelInterpT + 1 / (c.i_max_steps_pincel : ℚ) * f) ∧
    (animatePincel f c).rotPincelZ
      = mix (c.PincelKeyFrame c.playIndexPincel).rotZ
          (c.PincelKeyFrame (c.playIndexPincel + 1)).rotZ
          (c.pincelInterpT + 1 / (c.i_max_steps_pincel : ℚ) * f) ∧
    (animatePincel f c).pincelInterpT
      = (if c.pincelInterpT + 1 / (c.i_max_steps_pincel : ℚ) * f ≥ 1 then 0
          else c.pincelInterpT + 1 / (c.i_max_steps_pincel : ℚ) * f) ∧
    (animatePincel f c).playIndexPincel
      = (if c.pincelInterpT + 1 / (c.i_max_steps_pincel : ℚ) * f ≥ 1
          then (c.playIndexPincel + 1) % 4 else c.playIndexPincel) ∧
    (animatePincel f c).pinturaActual
      = (if c.pincelInterpT + 1 / (c.i_max_steps_pincel : ℚ) * f ≥ 1
          then c.playIndexPincel + 1 else c.pinturaActual) ∧
    pincelRollover f c
      = decide (c.pincelInterpT + 1 / (c.i_max_steps_pincel : ℚ) * f ≥ 1) := by
  have h4 : c.playIndexPincel = 0 ∨ c.playIndexPincel = 1 ∨ c.playIndexPincel = 2 ∨
      c.playIndexPincel = 3 := by omega
  cases hf : c.firstPlayPincel with
  | true =>
    obtain ⟨h0, ht0⟩ := hfirst hf
    by_cases ht : 1 ≤ (c.i_max_steps_pincel : ℚ)⁻¹ * f
    · simp [animatePincel, pincelRollover, pincelTramo, hplay, hf, ht, h0, ht0]
    · simp [animatePincel, pincelRollover, pincelTramo, hplay, hf, ht, h0, ht0]
  | false =>
    by_cases ht : 1 ≤ c.pincelInterpT + (c.i_max_steps_pincel : ℚ)⁻¹ * f
    · rcases h4 with h | h | h | h <;>
        simp [animatePincel, pincelRollover, pincelTramo, hplay, hf, ht, h]
    · rcases h4 with h | h | h | h <;>
        simp [animatePincel, pincelRollover, pincelTramo, hplay, hf, ht, h]

theorem animatePincel_inactive (f : ℚ) (c : Pincel) (hoff : c.playPincel = false) :
    animatePincel f c = { c with firstPlayPincel := true } := by
  simp [animatePincel, hoff]

theorem animateSilla_inactive (f : ℚ) (c : Silla) (hoff : c.playSilla = false) :
    animateSilla f c = { c with firstPlaySilla := true } := by
  simp [animateSilla, hoff]

theorem capaTras_succ (r : ℕ) : capaTras (r + 1) = ((r % 4 : ℕ) : ℤ) + 1 := by
  simp [capaTras]

theorem capaTras_range (r : ℕ) : 0 ≤ capaTras r ∧ capaTras r ≤ 4 := by
  unfold capaTras
  split_ifs
  · exact ⟨le_refl _, by decide⟩
  · have h : (r - 1) % 4 < 4 := Nat.mod_lt _ (by decide)
    omega

theorem capaTras_succ_ne (r : ℕ) : capaTras (r + 1) ≠ capaTras r := by
  rw [capaTras_succ]
  unfold capaTras
  split_ifs with h0
  · omega
  · have e : r = (r - 1) + 1 := by omega
    omega

/-- One tick of an active brush track, `r` segment completions after its
activation from paint layer 0. -/
theorem animatePincel_layer_step (f : ℚ) (c : Pincel) (r : ℕ) (hplay : c.playPincel = true)
    (hidx : c.playIndexPincel = ((r % 4 : ℕ) : ℤ))
    (hfirst : c.firstPlayPincel = true → c.playIndexPincel = 0 ∧ c.pincelInterpT = 0)
    (hcapa : c.pinturaActual = capaTras r) :
    (animatePincel f c).playPincel = true ∧
    (animatePincel f c).firstPlayPincel = false ∧
    (animatePincel f c).playIndexPincel
      = (((r + (if pincelRollover f c then 1 else 0)) % 4 : ℕ) : ℤ) ∧
    (animatePincel f c).pinturaActual
      = capaTras (r + (if pincelRollover f c then 1 else 0)) := by
  have hr : r % 4 < 4 := Nat.mod_lt _ (by decide)
  obtain ⟨hp1, _, _, hf1, _, _, _, _, _, hi1, hc1, hroll⟩ :=
    animatePincel_active f c hplay hfirst (by omega) (by omega)
  by_cases ht : c.pincelInterpT + 1 / (c.i_max_steps_pincel : ℚ) * f ≥ 1
  · rw [if_pos ht] at hi1 hc1
    have hroll1 : pincelRollover f c = true := by rw [hroll]; exact decide_eq_true ht
    rw [hroll1]
    refine ⟨hp1, hf1, ?_, ?_⟩
    · rw [hi1, hidx]
      simp only [if_true]
      omega
    · rw [hc1, hidx]
      simp only [if_true]
      rw [capaTras_succ]
  · rw [if_neg ht] at hi1 hc1
    have hroll0 : pincelRollover f c = false := by rw [hroll]; exact decide_eq_false ht
    rw [hroll0]
    refine ⟨hp1, hf1, ?_, ?_⟩
    · rw [hi1, hidx]
      simp
    · rw [hc1, hcapa]
      simp

/-- A run of an active brush track: the segment index is the number of
completed segments modulo 4 and the paint layer is `capaTras` of that number. -/
theorem runPincel_layer (fs : List ℚ) (c : Pincel) (r : ℕ) (hplay : c.playPincel = true)
    (hidx : c.playIndexPincel = ((r % 4 : ℕ) : ℤ))
    (hfirst : c.firstPlayPincel = true → c.playIndexPincel = 0 ∧ c.pincelInterpT = 0)
    (hcapa : c.pinturaActual = capaTras r) :
    (runPincel fs c).playPincel = true ∧
    ((runPincel fs c).firstPlayPincel = true →
      (runPincel fs c).playIndexPincel = 0 ∧ (runPincel fs c).pincelInterpT = 0) ∧
    (runPincel fs c).playIndexPincel = (((r + pincelRollovers fs c) % 4 : ℕ) : ℤ) ∧
    (runPincel fs c).pinturaActual = capaTras (r + pincelRollovers fs c) := by
  induction fs generalizing c r with
  | nil =>
    exact ⟨hplay, hfirst, by simpa [pincelRollovers, runPincel] using hidx,
      by simpa [pincelRollovers, runPincel] using hcapa⟩
  | cons f fs ih =>
    obtain ⟨hp1, hf1, hi1, hc1⟩ := animatePincel_layer_step f c r hplay hidx hfirst hcapa
    have h := ih (animatePincel f c) (r + (if pincelRollover f c then 1 else 0)) hp1 hi1
      (by intro hft; rw [hf1] at hft; exact absurd hft (by simp)) hc1
    simp only [runPincel, pincelRollovers]
    rw [← Nat.add_assoc]
    exact h

/-- A tick at speed factor 1 with `i_max_steps_pincel = d > 0`, `m` ticks after
the activation: the track moves on to segment `((m + 1) / d) % 4` and progress
`((m + 1) % d) / d`; the tick completes a segment exactly when
`m % d + 1 = d`, and then the brush is at the keyframe that ends the segment. -/
theorem animatePincel_unit_step (c : Pincel) (d m : ℕ) (hplay : c.playPincel = true)
    (hd0 : 0 < d) (hd : c.i_max_steps_pincel = (d : ℤ))
    (hidx : c.playIndexPincel = (((m / d) % 4 : ℕ) : ℤ))
    (ht : c.pincelInterpT = ((m % d : ℕ) : ℚ) / (d : ℚ))
    (hfirst : c.firstPlayPincel = true → c.playIndexPincel = 0 ∧ c.pincelInterpT = 0) :
    (animatePincel 1 c).playPincel = true ∧
    (animatePincel 1 c).i_max_steps_pincel = (d : ℤ) ∧
    (animatePincel 1 c).PincelKeyFrame = c.PincelKeyFrame ∧
    (animatePincel 1 c).playIndexPincel = ((((m + 1) / d) % 4 : ℕ) : ℤ) ∧
    (animatePincel 1 c).pincelInterpT = (((m + 1) % d : ℕ) : ℚ) / (d : ℚ) ∧
    (animatePincel 1 c).firstPlayPincel = false ∧
    (pincelRollover 1 c = true ↔ m % d + 1 = d) ∧
    (m % d + 1 = d →
      (animatePincel 1 c).posPincelX = (c.PincelKeyFrame (c.playIndexPincel + 1)).posX ∧
      (animatePincel 1 c).posPincelY = (c.PincelKeyFrame (c.playIndexPincel + 1)).posY ∧
      (animatePincel 1 c).posPincelZ = (c.PincelKeyFrame (c.playIndexPincel + 1)).posZ ∧
      (animatePincel 1 c).rotPincelZ = (c.PincelKeyFrame (c.playIndexPincel + 1)).rotZ) := by
  have h4 : (m / d) % 4 < 4 := Nat.mod_lt _ (by decide)
  obtain ⟨hp1, hK1, hN1, hf1, hx, hy, hz, hr, ht1, hi1, _, hroll⟩ :=
    animatePincel_active 1 c hplay hfirst (by omega) (by omega)
  have hdq : (0 : ℚ) < (d : ℚ) := by exact_mod_cast hd0
  have hNq : (c.i_max_steps_pincel : ℚ) = (d : ℚ) := by rw [hd]; norm_cast
  have hstep : c.pincelInterpT + 1 / (c.i_max_steps_pincel : ℚ) * 1
      = (((m % d : ℕ) : ℚ) + 1) / (d : ℚ) := by
    rw [ht, hNq]
    field_simp
  rw [hstep] at ht1 hi1 hroll hx hy hz hr
  have hk : m % d < d := Nat.mod_lt _ hd0
  obtain ⟨hcase1, hcase2⟩ := succ_div_mod m d hd0
  by_cases hend : m % d + 1 = d
  · obtain ⟨e2, e1⟩ := hcase2 hend
    have hone : (((m % d : ℕ) : ℚ) + 1) / (d : ℚ) = 1 := by
      have : ((m % d : ℕ) : ℚ) + 1 = (d : ℚ) := by exact_mod_cast hend
      rw [this]
      exact div_self hdq.ne.symm
    have hge : (((m % d : ℕ) : ℚ) + 1) / (d : ℚ) ≥ 1 := by rw [hone]
    rw [if_pos hge] at ht1 hi1
    rw [hone, mix_one] at hx hy hz hr
    refine ⟨hp1, by rw [hN1, hd], hK1, ?_, ?_, hf1, ?_, fun _ => ⟨hx, hy, hz, hr⟩⟩
    · rw [hi1, hidx, e2]
      omega
    · rw [ht1, e1]
      simp
    · rw [hroll, decide_eq_true_iff]
      exact ⟨fun _ => hend, fun _ => hge⟩
  · obtain ⟨e2, e1⟩ := hcase1 (by omega)
    have hlt : ¬ ((((m % d : ℕ) : ℚ) + 1) / (d : ℚ) ≥ 1) := by
      have h1 : m % d + 1 < d := by omega
      have h1q : ((m % d : ℕ) : ℚ) + 1 < (d : ℚ) := by exact_mod_cast h1
      intro hge
      have h2 : (((m % d : ℕ) : ℚ) + 1) / (d : ℚ) < 1 := (div_lt_one hdq).mpr h1q
      linarith
    rw [if_neg hlt] at ht1 hi1
    refine ⟨hp1, by rw [hN1, hd], hK1, by rw [hi1, hidx, e2], ?_, hf1, ?_,
      fun h => absurd h hend⟩
    · rw [ht1, e1]
      push_cast
      ring
    · rw [hroll, decide_eq_true_iff]
      exact ⟨fun h => absurd h hlt, fun h => absurd h hend⟩

theorem runPincel_unit (n : ℕ) (c : Pincel) (d m : ℕ) (hplay : c.playPincel = true)
    (hd0 : 0 < d) (hd : c.i_max_steps_pincel = (d : ℤ))
    (hidx : c.playIndexPincel = (((m / d) % 4 : ℕ) : ℤ))
    (ht : c.pincelInterpT = ((m % d : ℕ) : ℚ) / (d : ℚ))
    (hfirst : c.firstPlayPincel = true → c.playIndexPincel = 0 ∧ c.pincelInterpT = 0) :
    (runPincel (List.replicate n 1) c).playPincel = true ∧
    (runPincel (List.replicate n 1) c).i_max_steps_pincel = (d : ℤ) ∧
    (runPincel (List.replicate n 1) c).PincelKeyFrame = c.PincelKeyFrame ∧
    (runPincel (List.replicate n 1) c).playIndexPincel = ((((m + n) / d) % 4 : ℕ) : ℤ) ∧
    (runPincel (List.replicate n 1) c).pincelInterpT = (((m + n) % d : ℕ) : ℚ) / (d : ℚ) ∧
    ((runPincel (List.replicate n 1) c).firstPlayPincel = true →
      (runPincel (List.replicate n 1) c).playIndexPincel = 0 ∧
      (runPincel (List.replicate n 1) c).pincelInterpT = 0) ∧
    pincelRollovers (List.replicate n 1) c + m / d = (m + n) / d := by
  induction n generalizing c m with
  | zero =>
    exact ⟨hplay, hd, rfl, by simpa [runPincel] using hidx, by simpa [runPincel] using ht,
      by simpa [runPincel] using hfirst, by simp [pincelRollovers]⟩
  | succ n ih =>
    obtain ⟨hp1, hN1, hK1, hi1, ht1, hf1, hroll, _⟩ :=
      animatePincel_unit_step c d m hplay hd0 hd hidx ht hfirst
    obtain ⟨hp2, hN2, hK2, hi2, ht2, hf2, hcount⟩ := ih (animatePincel 1 c) (m + 1) hp1 hN1
      hi1 ht1 (by intro hft; rw [hf1] at hft; exact absurd hft (by simp))
    have e : m + 1 + n = m + (n + 1) := by omega
    rw [e] at hi2 ht2 hcount
    simp only [List.replicate, runPincel, pincelRollovers]
    refine ⟨hp2, hN2, by rw [hK2, hK1], hi2, ht2, hf2, ?_⟩
    have hk : m % d < d := Nat.mod_lt _ hd0
    obtain ⟨hcase1, hcase2⟩ := succ_div_mod m d hd0
    by_cases hend : m % d + 1 = d
    · rw [if_pos (hroll.mpr hend)]
      have e2 := (hcase2 hend).1
      omega
    · have hr : ¬ (pincelRollover 1 c = true) := fun h => hend (hroll.mp h)
      rw [if_neg hr]
      have e2 := (hcase1 (by omega)).1
      omega

/-- With `i_max_steps_pincel = d > 0` and speed factor 1, tick `d * (j + 1)`
after the activation completes segment `j % 4`: the index moves on to
`(j + 1) % 4` and the brush is at keyframe `j % 4 + 1`. -/
theorem runPincel_segment_end (c0 : Pincel) (d : ℕ) (hoff : c0.playPincel = false)
    (hd0 : 0 < d) (hd : c0.i_max_steps_pincel = (d : ℤ)) (j : ℕ) :
    (∀ n, pincelRollovers (List.replicate n 1) (keyQ c0) = n / d) ∧
    (∀ n, (runPincel (List.replicate n 1) (keyQ c0)).playIndexPincel
      = (((n / d) % 4 : ℕ) : ℤ)) ∧
    pincelRollover 1 (runPincel (List.replicate (d * j + (d - 1)) 1) (keyQ c0)) = true ∧
    (runPincel (List.replicate (d * j + (d - 1) + 1) 1) (keyQ c0)).playIndexPincel
      = (((j + 1) % 4 : ℕ) : ℤ) ∧
    (runPincel (List.replicate (d * j + (d - 1) + 1) 1) (keyQ c0)).posPincelX
      = (c0.PincelKeyFrame (((j % 4 : ℕ) : ℤ) + 1)).posX ∧
    (runPincel (List.replicate (d * j + (d - 1) + 1) 1) (keyQ c0)).posPincelY
      = (c0.PincelKeyFrame (((j % 4 : ℕ) : ℤ) + 1)).posY ∧
    (runPincel (List.replicate (d * j + (d - 1) + 1) 1) (keyQ c0)).posPincelZ
      = (c0.PincelKeyFrame (((j % 4 : ℕ) : ℤ) + 1)).posZ ∧
    (runPincel (List.replicate (d * j + (d - 1) + 1) 1) (keyQ c0)).rotPincelZ
      = (c0.PincelKeyFrame (((j % 4 : ℕ) : ℤ) + 1)).rotZ := by
  obtain ⟨hQp, hQi, hQt, hQf, hQK, hQN, _⟩ := keyQ_activate c0 hoff
  have hunit := fun n => runPincel_unit n (keyQ c0) d 0 hQp hd0 (by rw [hQN, hd])
    (by rw [hQi]; simp) (by rw [hQt]; simp) (fun _ => ⟨hQi, hQt⟩)
  have hcount : ∀ n, pincelRollovers (List.replicate n 1) (keyQ c0) = n / d := by
    intro n
    have h := (hunit n).2.2.2.2.2.2
    simpa using h
  have hindex : ∀ n, (runPincel (List.replicate n 1) (keyQ c0)).playIndexPincel
      = (((n / d) % 4 : ℕ) : ℤ) := by
    intro n
    have h := (hunit n).2.2.2.1
    rw [Nat.zero_add] at h
    exact h
  obtain ⟨hp, hN1, hK, hi, ht, hf, _⟩ := hunit (d * j + (d - 1))
  rw [Nat.zero_add] at hi ht
  obtain ⟨_, _, _, hi2, _, _, hroll, hpos⟩ :=
    animatePincel_unit_step _ d (d * j + (d - 1)) hp hd0 hN1 hi ht hf
  have hlt : d - 1 < d := by omega
  have hm : (d * j + (d - 1)) % d + 1 = d := by
    rw [Nat.mul_add_mod, Nat.mod_eq_of_lt hlt]
    omega
  have hq : (d * j + (d - 1)) / d = j := by
    rw [Nat.mul_add_div hd0, Nat.div_eq_of_lt hlt]
    rfl
  obtain ⟨hx, hy, hz, hr⟩ := hpos hm
  rw [hi, hq, hK, hQK] at hx hy hz hr
  have e : (d * j + (d - 1) + 1) / d % 4 = (j + 1) % 4 := by
    rw [(succ_div_mod (d * j + (d - 1)) d hd0).2 hm |>.1, hq]
  rw [e] at hi2
  rw [runPincel_succ (d * j + (d - 1)) 1 (keyQ c0)]
  exact ⟨hcount, hindex, hroll.mpr hm, hi2, hx, hy, hz, hr⟩

/-- Counterexample to C11: with the program's brush state activated by `Q`
and speed factor 1, tick 150 is the fifth segment completion, and immediately
after it `playIndexPincel` is 1, not 0, and the brush is at `PincelKeyFrame[1]`
(`posPincelX = 2885`), not at `PincelKeyFrame[0]` (`posX = 2875`). -/
theorem brush_fifth_completion_not_closed :
    pincelRollovers (List.replicate 149 1) (keyQ initialPincel) = 4 ∧
    pincelRollover 1 (runPincel (List.replicate 149 1) (keyQ initialPincel)) = true ∧
    pincelRollovers (List.replicate 150 1) (keyQ initialPincel) = 5 ∧
    (runPincel (List.replicate 150 1) (keyQ initialPincel)).playIndexPincel = 1 ∧
    (runPincel (List.replicate 150 1) (keyQ initialPincel)).posPincelX = 2885 ∧
    (initialPincel.PincelKeyFrame 0).posX = 2875 ∧
    ¬ ((runPincel (List.replicate 150 1) (keyQ initialPincel)).playIndexPincel = 0 ∧
      (runPincel (List.replicate 150 1) (keyQ initialPincel)).posPincelX
        = (initialPincel.PincelKeyFrame 0).posX) := by
  obtain ⟨hcount, _, hroll, hi, hx, _⟩ :=
    runPincel_segment_end initialPincel 30 rfl (by decide) rfl 4
  have hroll1 : pincelRollover 1 (runPincel (List.replicate 149 1) (keyQ initialPincel))
      = true := hroll
  have hi1 : (runPincel (List.replicate 150 1) (keyQ initialPincel)).playIndexPincel = 1 := hi
  have hx1 : (runPincel (List.replicate 150 1) (keyQ initialPincel)).posPincelX = 2885 := by
    have h : (runPincel (List.replicate 150 1) (keyQ initialPincel)).posPincelX
        = (initialPincel.PincelKeyFrame (((4 % 4 : ℕ) : ℤ) + 1)).posX := hx
    rw [h]
    norm_num [initialPincel, authoredPincelKeyFrame]
  refine ⟨by rw [hcount], hroll1, by rw [hcount], hi1, hx1,
    by norm_num [initialPincel, authoredPincelKeyFrame], ?_⟩
  intro h
  rw [hi1] at h
  exact absurd h.1 (by decide)

/-- C11 (amended): in exact arithmetic, the brush track is a closed cycle of 4
segments over its 5 keyframes (0→1→2→3→0, the fourth segment leading from
`PincelKeyFrame[3]` to `PincelKeyFrame[4]`, which equals `PincelKeyFrame[0]`):
starting from the activation by `Q` (segment 0, `t = 0`) with the authored
brush keyframes, a positive `i_max_steps_pincel` and speed factor 1 on every
tick, the number of completed segments after `n` ticks is
`n / i_max_steps_pincel`, the segment index is that number modulo 4, and
immediately after the fourth completion `playIndexPincel` is 0 again and
`posPincelX`, `posPincelY`, `posPincelZ`, `rotPincelZ` equal those of
`PincelKeyFrame[0]`. The progress `pincelInterpT` is an exact rational here, so
the completing tick blends at exactly `t = 1`; a sum of rounded `float`
increments that ends above 1 blends slightly past the keyframe. -/
theorem brush_closed_loop_four_segments (c0 : Pincel) (hoff : c0.playPincel = false)
    (hK : c0.PincelKeyFrame = authoredPincelKeyFrame) (hN : 0 < c0.i_max_steps_pincel) :
    (∀ n, pincelRollovers (List.replicate n 1) (keyQ c0) = n / c0.i_max_steps_pincel.toNat) ∧
    (∀ n, (runPincel (List.replicate n 1) (keyQ c0)).playIndexPincel
      = (((n / c0.i_max_steps_pincel.toNat) % 4 : ℕ) : ℤ)) ∧
    pincelRollover 1
      (runPincel (List.replicate (4 * c0.i_max_steps_pincel.toNat - 1) 1) (keyQ c0)) = true ∧
    (runPincel (List.replicate (4 * c0.i_max_steps_pincel.toNat) 1) (keyQ c0)).playIndexPincel
      = 0 ∧
    (runPincel (List.replicate (4 * c0.i_max_steps_pincel.toNat) 1) (keyQ c0)).posPincelX
      = (authoredPincelKeyFrame 0).posX ∧
    (runPincel (List.replicate (4 * c0.i_max_steps_pincel.toNat) 1) (keyQ c0)).posPincelY
      = (authoredPincelKeyFrame 0).posY ∧
    (runPincel (List.replicate (4 * c0.i_max_steps_pincel.toNat) 1) (keyQ c0)).posPincelZ
      = (authoredPincelKeyFrame 0).posZ ∧
    (runPincel (List.replicate (4 * c0.i_max_steps_pincel.toNat) 1) (keyQ c0)).rotPincelZ
      = (authoredPincelKeyFrame 0).rotZ := by
  have hd0 : 0 < c0.i_max_steps_pincel.toNat := by omega
  have hd : c0.i_max_steps_pincel = ((c0.i_max_steps_pincel.toNat : ℕ) : ℤ) :=
    (Int.toNat_of_nonneg hN.le).symm
  obtain ⟨hcount, hindex, hroll, hi, hx, hy, hz, hr⟩ :=
    runPincel_segment_end c0 c0.i_max_steps_pincel.toNat hoff hd0 hd 3
  have e1 : c0.i_max_steps_pincel.toNat * 3 + (c0.i_max_steps_pincel.toNat - 1)
      = 4 * c0.i_max_steps_pincel.toNat - 1 := by omega
  have e2 : 4 * c0.i_max_steps_pincel.toNat - 1 + 1 = 4 * c0.i_max_steps_pincel.toNat := by
    omega
  rw [e1] at hroll hi hx hy hz hr
  rw [e2] at hi hx hy hz hr
  rw [hK] at hx hy hz hr
  refine ⟨hcount, hindex, hroll, by rw [hi]; rfl, ?_, ?_, ?_, ?_⟩
  · rw [hx]; norm_num [authoredPincelKeyFrame]
  · rw [hy]; norm_num [authoredPincelKeyFrame]
  · rw [hz]; norm_num [authoredPincelKeyFrame]
  · rw [hr]; norm_num [authoredPincelKeyFrame]

/-- Witness of C11 (amended) on the program's initial brush state: in exact
arithmetic the fourth completion is at tick 120 and brings the brush back to
its start. -/
theorem brush_closed_loop_four_segments_witness :
    (initialPincel.playPincel = false ∧
      initialPincel.PincelKeyFrame = authoredPincelKeyFrame ∧
      0 < initialPincel.i_max_steps_pincel) ∧
    pincelRollovers (List.replicate 119 1) (keyQ initialPincel) = 3 ∧
    pincelRollovers (List.replicate 120 1) (keyQ initialPincel) = 4 ∧
    (runPincel (List.replicate 120 1) (keyQ initialPincel)).playIndexPincel = 0 ∧
    (runPincel (List.replicate 120 1) (keyQ initialPincel)).posPincelX = 2875 ∧
    (runPincel (List.replicate 120 1) (keyQ initialPincel)).rotPincelZ = 0 := by
  obtain ⟨hcount, _, _, hi, hx, _, _, hr⟩ :=
    brush_closed_loop_four_segments initialPincel rfl rfl (by decide)
  have hi1 : (runPincel (List.replicate 120 1) (keyQ initialPincel)).playIndexPincel = 0 := hi
  have hx1 : (runPincel (List.replicate 120 1) (keyQ initialPincel)).posPincelX
      = (authoredPincelKeyFrame 0).posX := hx
  have hr1 : (runPincel (List.replicate 120 1) (keyQ initialPincel)).rotPincelZ
      = (authoredPincelKeyFrame 0).rotZ := hr
  have h119 : pincelRollovers (List.replicate 119 1) (keyQ initialPincel) = 3 := hcount 119
  have h120 : pincelRollovers (List.replicate 120 1) (keyQ initialPincel) = 4 := hcount 120
  refine ⟨⟨rfl, rfl, by decide⟩, h119, h120, hi1, ?_, ?_⟩
  · rw [hx1]; norm_num [authoredPincelKeyFrame]
  · rw [hr1]; norm_num [authoredPincelKeyFrame]

/-- Counterexample to C12: with the program's brush state activated by `Q`
and speed factor 1, after the fourth segment completion (tick 120) the new
segment is 0 but the paint layer is 4, and after the fifth (tick 150) the
paint layer is 1: the layer after 4 is 1, not 0. -/
theorem paint_layer_sequence_not_cyclic :
    pincelRollovers (List.replicate 120 1) (keyQ initialPincel) = 4 ∧
    (runPincel (List.replicate 120 1) (keyQ initialPincel)).playIndexPincel = 0 ∧
    (runPincel (List.replicate 120 1) (keyQ initialPincel)).pinturaActual = 4 ∧
    pincelRollovers (List.replicate 150 1) (keyQ initialPincel) = 5 ∧
    (runPincel (List.replicate 150 1) (keyQ initialPincel)).pinturaActual = 1 ∧
    ¬ ((runPincel (List.replicate 150 1) (keyQ initialPincel)).pinturaActual = 0) := by
  obtain ⟨hcount, hindex, _⟩ :=
    runPincel_segment_end initialPincel 30 rfl (by decide) rfl 0
  have hlayer := fun fs => (runPincel_layer fs (keyQ initialPincel) 0 rfl rfl
    (fun _ => ⟨rfl, rfl⟩) rfl).2.2.2
  have h120 := hlayer (List.replicate 120 1)
  have h150 := hlayer (List.replicate 150 1)
  rw [hcount] at h120 h150
  have c4 : capaTras (0 + 120 / 30) = 4 := by decide
  have c5 : capaTras (0 + 150 / 30) = 1 := by decide
  rw [c4] at h120
  rw [c5] at h150
  refine ⟨by rw [hcount], by rw [hindex]; rfl, h120, by rw [hcount], h150, ?_⟩
  rw [h150]
  decide

/-- C12 (amended): starting from the paint layer `pinturaActual = 0` with the
brush track activated by `Q`, for every run of ticks: `pinturaActual` changes
on every tick that completes a segment and on no other tick, and after `r`
completions its value is `capaTras r`, that is, the successive values are
0, 1, 2, 3, 4, 1, 2, 3, 4, ... (after each completion the layer is the index
of the keyframe just reached: the new segment index when that is 1, 2 or 3,
and 4 when the new segment is 0); layer 0 is not selected again. -/
theorem paint_layer_sequence (c0 : Pincel) (hoff : c0.playPincel = false)
    (h0 : c0.pinturaActual = 0) (fs : List ℚ) (f : ℚ) :
    (runPincel fs (keyQ c0)).pinturaActual = capaTras (pincelRollovers fs (keyQ c0)) ∧
    (pincelRollover f (runPincel fs (keyQ c0)) = true →
      (animatePincel f (runPincel fs (keyQ c0))).pinturaActual
        = capaTras (pincelRollovers fs (keyQ c0) + 1) ∧
      (animatePincel f (runPincel fs (keyQ c0))).pinturaActual
        ≠ (runPincel fs (keyQ c0)).pinturaActual ∧
      (animatePincel f (runPincel fs (keyQ c0))).pinturaActual
        = (if (animatePincel f (runPincel fs (keyQ c0))).playIndexPincel = 0 then 4
            else (animatePincel f (runPincel fs (keyQ c0))).playIndexPincel)) ∧
    (pincelRollover f (runPincel fs (keyQ c0)) = false →
      (animatePincel f (runPincel fs (keyQ c0))).pinturaActual
        = (runPincel fs (keyQ c0)).pinturaActual) ∧
    (capaTras 0 = 0 ∧ capaTras 1 = 1 ∧ capaTras 2 = 2 ∧ capaTras 3 = 3 ∧ capaTras 4 = 4 ∧
      capaTras 5 = 1 ∧ capaTras 6 = 2 ∧ capaTras 7 = 3 ∧ capaTras 8 = 4) ∧
    (∀ r, capaTras (r + 1) ≠ 0 ∧ capaTras (r + 1 + 4) = capaTras (r + 1)) := by
  obtain ⟨hQp, hQi, hQt, hQf, _, _, hQc⟩ := keyQ_activate c0 hoff
  obtain ⟨hp, hf, hi, hc⟩ := runPincel_layer fs (keyQ c0) 0 hQp (by rw [hQi]; rfl)
    (fun _ => ⟨hQi, hQt⟩) (by rw [hQc, h0]; rfl)
  rw [Nat.zero_add] at hi hc
  obtain ⟨_, _, hi1, hc1⟩ := animatePincel_layer_step f (runPincel fs (keyQ c0))
    (pincelRollovers fs (keyQ c0)) hp hi hf hc
  refine ⟨hc, ?_, ?_, by decide, ?_⟩
  · intro hroll
    rw [hroll] at hi1 hc1
    simp only [if_true] at hi1 hc1
    refine ⟨hc1, ?_, ?_⟩
    · rw [hc1, hc]
      exact capaTras_succ_ne _
    · rw [hc1, hi1, capaTras_succ]
      have h4 : pincelRollovers fs (keyQ c0) % 4 < 4 := Nat.mod_lt _ (by decide)
      split_ifs with hz <;> omega
  · intro hroll
    rw [hroll] at hc1
    simp only [Bool.false_eq_true, if_false, Nat.add_zero] at hc1
    rw [hc1, hc]
  · intro r
    refine ⟨?_, ?_⟩
    · rw [capaTras_succ]
      omega
    · rw [capaTras_succ, capaTras_succ]
      omega

/-- Witness of C12 (amended) on the program's initial brush state: the first
completion, at tick 30 with speed factor 1, selects layer 1. -/
theorem paint_layer_sequence_witness :
    (initialPincel.playPincel = false ∧ initialPincel.pinturaActual = 0) ∧
    (runPincel (List.replicate 29 1) (keyQ initialPincel)).pinturaActual = 0 ∧
    (runPincel (List.replicate 30 1) (keyQ initialPincel)).pinturaActual = 1 := by
  obtain ⟨hcount, _, hroll, _⟩ :=
    runPincel_segment_end initialPincel 30 rfl (by decide) rfl 0
  have hroll1 : pincelRollover 1 (runPincel (List.replicate 29 1) (keyQ initialPincel))
      = true := hroll
  obtain ⟨h29, hstep, _⟩ :=
    paint_layer_sequence initialPincel rfl rfl (List.replicate 29 1) 1
  obtain ⟨h30, _⟩ := hstep hroll1
  rw [hcount] at h29 h30
  rw [← runPincel_succ 29 1 (keyQ initialPincel)] at h30
  exact ⟨⟨rfl, rfl⟩, h29, h30⟩

/-! ## Deactivation and reactivation of the cyclic tracks -/

theorem runSilla_inactive (fs : List ℚ) (c : Silla) (hoff : c.playSilla = false) :
    (runSilla fs c).playSilla = false ∧ (runSilla fs c).SillaKeyFrame = c.SillaKeyFrame ∧
    (runSilla fs c).i_max_steps_silla = c.i_max_steps_silla ∧
    (runSilla fs c).rotSilla = c.rotSilla ∧
    (runSilla fs c).playIndexSilla = c.playIndexSilla ∧
    (runSilla fs c).sillaInterpT = c.sillaInterpT := by
  induction fs generalizing c with
  | nil => exact ⟨hoff, rfl, rfl, rfl, rfl, rfl⟩
  | cons f fs ih =>
    simp only [runSilla]
    rw [animateSilla_inactive f c hoff]
    exact ih _ hoff

theorem runPincel_inactive (fs : List ℚ) (c : Pincel) (hoff : c.playPincel = false) :
    (runPincel fs c).playPincel = false ∧
    (runPincel fs c).PincelKeyFrame = c.PincelKeyFrame ∧
    (runPincel fs c).i_max_steps_pincel = c.i_max_steps_pincel ∧
    (runPincel fs c).posPincelX = c.posPincelX ∧
    (runPincel fs c).posPincelY = c.posPincelY ∧
    (runPincel fs c).posPincelZ = c.posPincelZ ∧
    (runPincel fs c).rotPincelZ = c.rotPincelZ ∧
    (runPincel fs c).playIndexPincel = c.playIndexPincel ∧
    (runPincel fs c).pincelInterpT = c.pincelInterpT ∧
    (runPincel fs c).pinturaActual = c.pinturaActual := by
  induction fs generalizing c with
  | nil => exact ⟨hoff, rfl, rfl, rfl, rfl, rfl, rfl, rfl, rfl, rfl⟩
  | cons f fs ih =>
    simp only [runPincel]
    rw [animatePincel_inactive f c hoff]
    exact ih _ hoff

theorem keyE_deactivate (c : Silla) (hon : c.playSilla = true) :
    keyE c = { c with playSilla := false } := by
  simp [keyE, hon]

theorem keyQ_deactivate (c : Pincel) (hon : c.playPincel = true) :
    keyQ c = { c with playPincel := false } := by
  simp [keyQ, hon]

theorem sillaTramo_frame (c : Silla) (a b next : Int) :
    (sillaTramo c a b next).SillaKeyFrame = c.SillaKeyFrame ∧
    (sillaTramo c a b next).i_max_steps_silla = c.i_max_steps_silla ∧
    (sillaTramo c a b next).playSilla = c.playSilla := by
  simp only [sillaTramo]
  split_ifs <;> exact ⟨rfl, rfl, rfl⟩

theorem pincelTramo_frame (c : Pincel) (a b next capa : Int) :
    (pincelTramo c a b next capa).PincelKeyFrame = c.PincelKeyFrame ∧
    (pincelTramo c a b next capa).i_max_steps_pincel = c.i_max_steps_pincel ∧
    (pincelTramo c a b next capa).playPincel = c.playPincel := by
  simp only [pincelTramo]
  split_ifs <;> exact ⟨rfl, rfl, rfl⟩

theorem animateSilla_frame (f : ℚ) (c : Silla) :
    (animateSilla f c).SillaKeyFrame = c.SillaKeyFrame ∧
    (animateSilla f c).i_max_steps_silla = c.i_max_steps_silla ∧
    (animateSilla f c).playSilla = c.playSilla := by
  simp only [animateSilla]
  split_ifs <;> first | exact sillaTramo_frame _ _ _ _ | exact ⟨rfl, rfl, rfl⟩

theorem animatePincel_frame (f : ℚ) (c : Pincel) :
    (animatePincel f c).PincelKeyFrame = c.PincelKeyFrame ∧
    (animatePincel f c).i_max_steps_pincel = c.i_max_steps_pincel ∧
    (animatePincel f c).playPincel = c.playPincel := by
  simp only [animatePincel]
  split_ifs <;> first | exact pincelTramo_frame _ _ _ _ _ | exact ⟨rfl, rfl, rfl⟩

theorem runSilla_frame (fs : List ℚ) (c : Silla) :
    (runSilla fs c).SillaKeyFrame = c.SillaKeyFrame ∧
    (runSilla fs c).i_max_steps_silla = c.i_max_steps_silla ∧
    (runSilla fs c).playSilla = c.playSilla := by
  induction fs generalizing c with
  | nil => exact ⟨rfl, rfl, rfl⟩
  | cons f fs ih =>
    obtain ⟨h1, h2, h3⟩ := animateSilla_frame f c
    obtain ⟨g1, g2, g3⟩ := ih (animateSilla f c)
    simp only [runSilla]
    exact ⟨by rw [g1, h1], by rw [g2, h2], by rw [g3, h3]⟩

/-- C13: for the chair track and for the brush track, for every state in which
the track is active (at any segment index and progress), toggling the track
off (key `E` / `Q`), running any number of ticks, and toggling it on again
leaves the track active with segment 0 and `t = 0`, and the first tick after
the reactivation blends keyframe 0 and keyframe 1 at
`t = speedFactor / maxSteps`. -/
theorem restart_not_resume :
    (∀ (c : Silla) (fs : List ℚ) (f : ℚ), c.playSilla = true →
      (keyE (runSilla fs (keyE c))).playSilla = true ∧
      (keyE (runSilla fs (keyE c))).playIndexSilla = 0 ∧
      (keyE (runSilla fs (keyE c))).sillaInterpT = 0 ∧
      (animateSilla f (keyE (runSilla fs (keyE c)))).rotSilla
        = mix (c.SillaKeyFrame 0).rotSilla (c.SillaKeyFrame 1).rotSilla
            (f / (c.i_max_steps_silla : ℚ))) ∧
    (∀ (p : Pincel) (fs : List ℚ) (f : ℚ), p.playPincel = true →
      (keyQ (runPincel fs (keyQ p))).playPincel = true ∧
      (keyQ (runPincel fs (keyQ p))).playIndexPincel = 0 ∧
      (keyQ (runPincel fs (keyQ p))).pincelInterpT = 0 ∧
      (animatePincel f (keyQ (runPincel fs (keyQ p)))).posPincelX
        = mix (p.PincelKeyFrame 0).posX (p.PincelKeyFrame 1).posX
            (f / (p.i_max_steps_pincel : ℚ)) ∧
      (animatePincel f (keyQ (runPincel fs (keyQ p)))).posPincelY
        = mix (p.PincelKeyFrame 0).posY (p.PincelKeyFrame 1).posY
            (f / (p.i_max_steps_pincel : ℚ)) ∧
      (animatePincel f (keyQ (runPincel fs (keyQ p)))).posPincelZ
        = mix (p.PincelKeyFrame 0).posZ (p.PincelKeyFrame 1).posZ
            (f / (p.i_max_steps_pincel : ℚ)) ∧
      (animatePincel f (keyQ (runPincel fs (keyQ p)))).rotPincelZ
        = mix (p.PincelKeyFrame 0).rotZ (p.PincelKeyFrame 1).rotZ
            (f / (p.i_max_steps_pincel : ℚ))) := by
  refine ⟨?_, ?_⟩
  · intro c fs f hon
    have hoff : (keyE c).playSilla = false := by rw [keyE_deactivate c hon]
    have hK0 : (keyE c).SillaKeyFrame = c.SillaKeyFrame := by rw [keyE_deactivate c hon]
    have hN0 : (keyE c).i_max_steps_silla = c.i_max_steps_silla := by
      rw [keyE_deactivate c hon]
    obtain ⟨hoff1, hK1, hN1, _⟩ := runSilla_inactive fs (keyE c) hoff
    obtain ⟨hp, hi, ht, hf, hK2, hN2⟩ := keyE_activate (runSilla fs (keyE c)) hoff1
    obtain ⟨_, _, _, _, hrot, _⟩ := animateSilla_active f _ hp (fun _ => ⟨hi, ht⟩)
      (by rw [hi]) (by rw [hi]; decide)
    refine ⟨hp, hi, ht, ?_⟩
    rw [hrot, hi, ht, hK2, hK1, hK0, hN2, hN1, hN0]
    have e : (0 : ℚ) + 1 / (c.i_max_steps_silla : ℚ) * f = f / (c.i_max_steps_silla : ℚ) := by
      ring
    rw [e]
    rfl
  · intro p fs f hon
    have hoff : (keyQ p).playPincel = false := by rw [keyQ_deactivate p hon]
    have hK0 : (keyQ p).PincelKeyFrame = p.PincelKeyFrame := by rw [keyQ_deactivate p hon]
    have hN0 : (keyQ p).i_max_steps_pincel = p.i_max_steps_pincel := by
      rw [keyQ_deactivate p hon]
    obtain ⟨hoff1, hK1, hN1, _⟩ := runPincel_inactive fs (keyQ p) hoff
    obtain ⟨hp, hi, ht, hf, hK2, hN2, _⟩ := keyQ_activate (runPincel fs (keyQ p)) hoff1
    obtain ⟨_, _, _, _, hx, hy, hz, hr, _⟩ := animatePincel_active f _ hp
      (fun _ => ⟨hi, ht⟩) (by rw [hi]) (by rw [hi]; decide)
    have e : (0 : ℚ) + 1 / (p.i_max_steps_pincel : ℚ) * f
        = f / (p.i_max_steps_pincel : ℚ) := by ring
    rw [hi, ht, hK2, hK1, hK0, hN2, hN1, hN0, e] at hx hy hz hr
    exact ⟨hp, hi, ht, hx, hy, hz, hr⟩

/-- Witness of C13: the program's chair, activated, run for 50 ticks (it is
then in segment 1), switched off for 3 ticks and switched on again. -/
theorem restart_not_resume_witness :
    (runSilla (List.replicate 50 1) (keyE initialSilla)).playSilla = true ∧
    (keyE (runSilla [1, 1, 1] (keyE (runSilla (List.replicate 50 1)
      (keyE initialSilla))))).playIndexSilla = 0 ∧
    (animateSilla 1 (keyE (runSilla [1, 1, 1] (keyE (runSilla (List.replicate 50 1)
      (keyE initialSilla)))))).rotSilla = 10 / 35 := by
  obtain ⟨hK, hN, hon⟩ := runSilla_frame (List.replicate 50 1) (keyE initialSilla)
  have hon : (runSilla (List.replicate 50 1) (keyE initialSilla)).playSilla = true := by
    rw [hon]; rfl
  obtain ⟨_, hi, _, hrot⟩ :=
    restart_not_resume.1 (runSilla (List.replicate 50 1) (keyE initialSilla)) [1, 1, 1] 1 hon
  refine ⟨hon, hi, ?_⟩
  rw [hrot, hK, hN]
  norm_num [keyE, initialSilla, authoredSillaKeyFrame, mix]

/-! ## The state invariant of the cyclic tracks -/

theorem sillaInv_keyE (c : Silla) (h : SillaInv c) : SillaInv (keyE c) := by
  obtain ⟨h1, h2, h3, h4, h5, h6⟩ := h
  cases hp : c.playSilla with
  | true =>
    rw [keyE_deactivate c hp]
    exact ⟨h1, h2, h3, h4, h5, fun hc => absurd hc (by simp)⟩
  | false =>
    obtain ⟨_, hi, ht, _, _, hN⟩ := keyE_activate c hp
    exact ⟨by rw [ht], by rw [ht]; norm_num, by rw [hi], by rw [hi]; decide, by rw [hN, h5],
      fun _ _ => ⟨hi, ht⟩⟩

theorem sillaInv_tick (f : ℚ) (c : Silla) (h : SillaInv c) (hf : 1 / 10 ≤ f) :
    SillaInv (animateSilla f c) := by
  obtain ⟨h1, h2, h3, h4, h5, h6⟩ := h
  cases hp : c.playSilla with
  | false =>
    rw [animateSilla_inactive f c hp]
    exact ⟨h1, h2, h3, h4, h5, fun hc => absurd (hp.symm.trans hc) (by simp)⟩
  | true =>
    obtain ⟨_, _, hN, hfirst, _, ht, hi, _⟩ := animateSilla_active f c hp (h6 hp) h3 h4
    have hstep : 0 ≤ c.sillaInterpT + 1 / (c.i_max_steps_silla : ℚ) * f := by
      rw [h5]
      have : (0 : ℚ) ≤ 1 / ((35 : ℤ) : ℚ) * f := by
        have hf0 : (0 : ℚ) ≤ f := by linarith
        have : (0 : ℚ) ≤ 1 / ((35 : ℤ) : ℚ) := by norm_num
        exact mul_nonneg this hf0
      linarith
    refine ⟨?_, ?_, ?_, ?_, by rw [hN, h5], fun _ hc => absurd (hfirst.symm.trans hc) (by simp)⟩
    · rw [ht]
      split_ifs
      · exact le_refl _
      · exact hstep
    · rw [ht]
      split_ifs with hge
      · norm_num
      · exact not_le.mp hge
    · rw [hi]
      split_ifs <;> omega
    · rw [hi]
      split_ifs <;> omega

theorem pincelInv_keyQ (c : Pincel) (h : PincelInv c) : PincelInv (keyQ c) := by
  obtain ⟨h1, h2, h3, h4, h5, h6, h7, h8⟩ := h
  cases hp : c.playPincel with
  | true =>
    rw [keyQ_deactivate c hp]
    exact ⟨h1, h2, h3, h4, h5, h6, h7, fun hc => absurd hc (by simp)⟩
  | false =>
    obtain ⟨_, hi, ht, _, _, hN, hc⟩ := keyQ_activate c hp
    exact ⟨by rw [ht], by rw [ht]; norm_num, by rw [hi], by rw [hi]; decide, by rw [hc]; exact h5,
      by rw [hc]; exact h6, by rw [hN, h7], fun _ _ => ⟨hi, ht⟩⟩

theorem pincelInv_tick (f : ℚ) (c : Pincel) (h : PincelInv c) (hf : 1 / 10 ≤ f) :
    PincelInv (animatePincel f c) := by
  obtain ⟨h1, h2, h3, h4, h5, h6, h7, h8⟩ := h
  cases hp : c.playPincel with
  | false =>
    rw [animatePincel_inactive f c hp]
    exact ⟨h1, h2, h3, h4, h5, h6, h7, fun hc => absurd (hp.symm.trans hc) (by simp)⟩
  | true =>
    obtain ⟨_, _, hN, hfirst, _, _, _, _, ht, hi, hc, _⟩ :=
      animatePincel_active f c hp (h8 hp) h3 h4
    have hstep : 0 ≤ c.pincelInterpT + 1 / (c.i_max_steps_pincel : ℚ) * f := by
      rw [h7]
      have : (0 : ℚ) ≤ 1 / ((30 : ℤ) : ℚ) * f := by
        have hf0 : (0 : ℚ) ≤ f := by linarith
        have : (0 : ℚ) ≤ 1 / ((30 : ℤ) : ℚ) := by norm_num
        exact mul_nonneg this hf0
      linarith
    refine ⟨?_, ?_, ?_, ?_, ?_, ?_, by rw [hN, h7],
      fun _ hc => absurd (hfirst.symm.trans hc) (by simp)⟩
    · rw [ht]
      split_ifs
      · exact le_refl _
      · exact hstep
    · rw [ht]
      split_ifs with hge
      · norm_num
      · exact not_le.mp hge
    · rw [hi]
      split_ifs <;> omega
    · rw [hi]
      split_ifs <;> omega
    · rw [hc]
      split_ifs <;> omega
    · rw [hc]
      split_ifs <;> omega

theorem reachable_cyclic_inv (s : State) (h : Reachable s) :
    SillaInv s.silla ∧ PincelInv s.pincel := by
  induction h with
  | init =>
    refine ⟨⟨le_refl _, by norm_num [initialState, initialSilla], by decide, by decide, rfl,
      fun hc => absurd hc (by decide)⟩,
      ⟨le_refl _, by norm_num [initialState, initialPincel], by decide, by decide, by decide,
        by decide, rfl, fun hc => absurd hc (by decide)⟩⟩
  | key s s1 k hs hk ih =>
    obtain ⟨ihS, ihP⟩ := ih
    cases k with
    | Z =>
      simp only [my_input] at hk
      cases hc : keyZ s.cab with
      | none => simp [hc] at hk
      | some c =>
        simp only [hc, Option.some.injEq] at hk
        rw [← hk]
        exact ⟨ihS, ihP⟩
    | E =>
      simp only [my_input, Option.some.injEq] at hk
      rw [← hk]
      exact ⟨sillaInv_keyE _ ihS, ihP⟩
    | Q =>
      simp only [my_input, Option.some.injEq] at hk
      rw [← hk]
      exact ⟨ihS, pincelInv_keyQ _ ihP⟩
  | tick s s1 f hs hlo hhi ht ih =>
    obtain ⟨ihS, ihP⟩ := ih
    rw [animateWith_silla f s s1 ht, animateWith_pincel f s s1 ht]
    exact ⟨sillaInv_tick f _ ihS hlo, pincelInv_tick f _ ihP hlo⟩

/-- C19: in every state reachable from the start of the render loop by the
animation keys and by `animate()` ticks with speed factors in `[0.1, 5.0]`
(in particular at the end of each tick), the chair and brush progress values
satisfy `0 <= t < 1`, `playIndexSilla` and `playIndexPincel` are in
`{0, 1, 2, 3}`, and `pinturaActual` is in `{0, .., 4}`, a valid index of the
5-entry paint-layer table. -/
theorem cyclic_tracks_invariant (s : State) (h : Reachable s) :
    (0 ≤ s.silla.sillaInterpT ∧ s.silla.sillaInterpT < 1) ∧
    (0 ≤ s.pincel.pincelInterpT ∧ s.pincel.pincelInterpT < 1) ∧
    (0 ≤ s.silla.playIndexSilla ∧ s.silla.playIndexSilla ≤ 3) ∧
    (0 ≤ s.pincel.playIndexPincel ∧ s.pincel.playIndexPincel ≤ 3) ∧
    (0 ≤ s.pincel.pinturaActual ∧ s.pincel.pinturaActual ≤ 4) := by
  obtain ⟨⟨a1, a2, a3, a4, _⟩, ⟨b1, b2, b3, b4, b5, b6, _⟩⟩ := reachable_cyclic_inv s h
  exact ⟨⟨a1, a2⟩, ⟨b1, b2⟩, ⟨a3, a4⟩, ⟨b3, b4⟩, ⟨b5, b6⟩⟩

/-- The state after the keys `E` and `Q` and one tick at speed factor 1. -/
theorem reachable_after_first_tick :
    Reachable { initialState with
      foco := animateFoco 1 initialFoco
      silla := animateSilla 1 (keyE initialSilla)
      pincel := animatePincel 1 (keyQ initialPincel) } :=
  Reachable.tick _ _ 1
    (Reachable.key _ _ Key.Q (Reachable.key _ _ Key.E Reachable.init rfl) rfl)
    (by norm_num) (by norm_num) rfl

/-- Witness of C19: the state after the keys `E` and `Q` and one tick at speed
factor 1; both progress values lie in `[0, 1)`. -/
theorem cyclic_tracks_invariant_witness :
    Reachable { initialState with
      foco := animateFoco 1 initialFoco
      silla := animateSilla 1 (keyE initialSilla)
      pincel := animatePincel 1 (keyQ initialPincel) } ∧
    (0 ≤ (animateSilla 1 (keyE initialSilla)).sillaInterpT ∧
      (animateSilla 1 (keyE initialSilla)).sillaInterpT < 1) ∧
    (0 ≤ (animatePincel 1 (keyQ initialPincel)).pincelInterpT ∧
      (animatePincel 1 (keyQ initialPincel)).pincelInterpT < 1) :=
  ⟨reachable_after_first_tick,
    (cyclic_tracks_invariant _ reachable_after_first_tick).1,
    (cyclic_tracks_invariant _ reachable_after_first_tick).2.1⟩

/-! ## The range of the spotlight intensity -/

theorem runTicks_foco (fs : List ℚ) (s s1 : State) (h : runTicks fs s = some s1) :
    s1.foco = runFoco fs s.foco := by
  induction fs generalizing s with
  | nil =>
    simp only [runTicks, Option.some.injEq] at h
    rw [← h]
    rfl
  | cons f fs ih =>
    simp only [runTicks] at h
    cases hc : animateWith f s with
    | none => simp [hc] at h
    | some s2 =>
      simp only [hc] at h
      rw [ih s2 h, animateWith_foco f s s2 hc]
      rfl

/-- One spotlight step keeps the intensity within one step of `[0, 1]`: a
rising intensity lies in `[-0.1, 1]`, a falling one in `[0, 1.1]`. -/
theorem animateFoco_band (f : ℚ) (c : Foco) (hlo : 1 / 10 ≤ f) (hhi : f ≤ 5)
    (hr : c.focoSubiendo = true → -1 / 10 ≤ c.focoIntensidad ∧ c.focoIntensidad ≤ 1)
    (hf : c.focoSubiendo = false → 0 ≤ c.focoIntensidad ∧ c.focoIntensidad ≤ 11 / 10) :
    ((animateFoco f c).focoSubiendo = true →
      -1 / 10 ≤ (animateFoco f c).focoIntensidad ∧ (animateFoco f c).focoIntensidad ≤ 1) ∧
    ((animateFoco f c).focoSubiendo = false →
      0 ≤ (animateFoco f c).focoIntensidad ∧ (animateFoco f c).focoIntensidad ≤ 11 / 10) := by
  cases hs : c.focoSubiendo with
  | true =>
    obtain ⟨h1, h2⟩ := hr hs
    obtain ⟨hi, hflag⟩ := animateFoco_rising f c hs
    rw [hi]
    by_cases hge : c.focoIntensidad + 2 / 100 * f ≥ 1
    · have hfl := hflag.mpr hge
      refine ⟨fun h => absurd (hfl.symm.trans h) (by simp), fun _ => ⟨by linarith, by linarith⟩⟩
    · have hfl : (animateFoco f c).focoSubiendo = true := by
        cases hb : (animateFoco f c).focoSubiendo with
        | true => rfl
        | false => exact absurd (hflag.mp hb) hge
      refine ⟨fun _ => ⟨by linarith, by linarith⟩, fun h => absurd (hfl.symm.trans h) (by simp)⟩
  | false =>
    obtain ⟨h1, h2⟩ := hf hs
    obtain ⟨hi, hflag⟩ := animateFoco_falling f c hs
    rw [hi]
    by_cases hle : c.focoIntensidad - 2 / 100 * f ≤ 0
    · have hfl := hflag.mpr hle
      refine ⟨fun _ => ⟨by linarith, by linarith⟩, fun h => absurd (hfl.symm.trans h) (by simp)⟩
    · have hfl : (animateFoco f c).focoSubiendo = false := by
        cases hb : (animateFoco f c).focoSubiendo with
        | false => rfl
        | true => exact absurd (hflag.mp hb) hle
      refine ⟨fun h => absurd (hfl.symm.trans h) (by simp), fun _ => ⟨by linarith, by linarith⟩⟩

theorem runFoco_band (fs : List ℚ) (c : Foco) (hfs : ∀ f ∈ fs, 1 / 10 ≤ f ∧ f ≤ 5)
    (hr : c.focoSubiendo = true → -1 / 10 ≤ c.focoIntensidad ∧ c.focoIntensidad ≤ 1)
    (hf : c.focoSubiendo = false → 0 ≤ c.focoIntensidad ∧ c.focoIntensidad ≤ 11 / 10) :
    ((runFoco fs c).focoSubiendo = true →
      -1 / 10 ≤ (runFoco fs c).focoIntensidad ∧ (runFoco fs c).focoIntensidad ≤ 1) ∧
    ((runFoco fs c).focoSubiendo = false →
      0 ≤ (runFoco fs c).focoIntensidad ∧ (runFoco fs c).focoIntensidad ≤ 11 / 10) := by
  induction fs generalizing c with
  | nil => exact ⟨hr, hf⟩
  | cons g fs ih =>
    obtain ⟨hg1, hg2⟩ := hfs g (List.mem_cons_self g fs)
    obtain ⟨h1, h2⟩ := animateFoco_band g c hg1 hg2 hr hf
    exact ih (animateFoco g c) (fun f hmem => hfs f (List.mem_cons_of_mem g hmem)) h1 h2

theorem runFoco_append (fs gs : List ℚ) (c : Foco) :
    runFoco (fs ++ gs) c = runFoco gs (runFoco fs c) := by
  induction fs generalizing c with
  | nil => rfl
  | cons f fs ih => exact ih _

/-- A falling spotlight keeps falling by `0.02 * f` per tick while the result
stays positive. -/
theorem runFoco_falling_replicate (n : ℕ) (f : ℚ) (c : Foco) (hf : 0 ≤ f)
    (hc : c.focoSubiendo = false) (hpos : 0 < c.focoIntensidad - 2 / 100 * f * (n : ℚ)) :
    (runFoco (List.replicate n f) c).focoIntensidad = c.focoIntensidad - 2 / 100 * f * (n : ℚ) ∧
    (runFoco (List.replicate n f) c).focoSubiendo = false := by
  induction n generalizing c with
  | zero => exact ⟨by simp [runFoco], hc⟩
  | succ n ih =>
    push_cast at hpos
    have hn : (0 : ℚ) ≤ (n : ℚ) := Nat.cast_nonneg n
    have hfn : 0 ≤ f * (n : ℚ) := mul_nonneg hf hn
    obtain ⟨hi, hflag⟩ := animateFoco_falling f c hc
    have hc1 : (animateFoco f c).focoSubiendo = false := by
      cases hb : (animateFoco f c).focoSubiendo with
      | false => rfl
      | true =>
        have := hflag.mp hb
        linarith
    obtain ⟨h1, h2⟩ := ih (animateFoco f c) hc1 (by rw [hi]; linarith)
    refine ⟨?_, h2⟩
    show (runFoco (List.replicate n f) (animateFoco f c)).focoIntensidad = _
    rw [h1, hi]
    push_cast
    ring

/-- A rising spotlight keeps rising by `0.02 * f` per tick while the result
stays below 1. -/
theorem runFoco_rising_replicate (n : ℕ) (f : ℚ) (c : Foco) (hf : 0 ≤ f)
    (hc : c.focoSubiendo = true) (hlt : c.focoIntensidad + 2 / 100 * f * (n : ℚ) < 1) :
    (runFoco (List.replicate n f) c).focoIntensidad = c.focoIntensidad + 2 / 100 * f * (n : ℚ) ∧
    (runFoco (List.replicate n f) c).focoSubiendo = true := by
  induction n generalizing c with
  | zero => exact ⟨by simp [runFoco], hc⟩
  | succ n ih =>
    push_cast at hlt
    have hn : (0 : ℚ) ≤ (n : ℚ) := Nat.cast_nonneg n
    have hfn : 0 ≤ f * (n : ℚ) := mul_nonneg hf hn
    obtain ⟨hi, hflag⟩ := animateFoco_rising f c hc
    have hc1 : (animateFoco f c).focoSubiendo = true := by
      cases hb : (animateFoco f c).focoSubiendo with
      | true => rfl
      | false =>
        have := hflag.mp hb
        linarith
    obtain ⟨h1, h2⟩ := ih (animateFoco f c) hc1 (by rw [hi]; linarith)
    refine ⟨?_, h2⟩
    show (runFoco (List.replicate n f) (animateFoco f c)).focoIntensidad = _
    rw [h1, hi]
    push_cast
    ring

/-- The spotlight from the program's initial state: one tick at speed factor
1, then ticks at speed factor 5. After 201 of them the intensity is `-0.08`
and rising; after 212 it is `1.02`. -/
theorem runFoco_from_start :
    (runFoco (1 :: List.replicate 201 5) initialFoco).focoIntensidad = -8 / 100 ∧
    (runFoco (1 :: List.replicate 201 5) initialFoco).focoSubiendo = true ∧
    (runFoco (1 :: List.replicate 212 5) initialFoco).focoIntensidad = 102 / 100 := by
  have h0i : (animateFoco 1 initialFoco).focoIntensidad = 2002 / 100 := by
    rw [(animateFoco_rising 1 initialFoco rfl).1]
    norm_num [initialFoco]
  have h0f : (animateFoco 1 initialFoco).focoSubiendo = false := by
    rw [(animateFoco_rising 1 initialFoco rfl).2]
    norm_num [initialFoco]
  obtain ⟨h1i, h1f⟩ := runFoco_falling_replicate 200 5 (animateFoco 1 initialFoco)
    (by norm_num) h0f (by rw [h0i]; norm_num)
  rw [h0i] at h1i
  have h2i := (animateFoco_falling 5 _ h1f).1
  have h2f : (animateFoco 5 (runFoco (List.replicate 200 5)
      (animateFoco 1 initialFoco))).focoSubiendo = true := by
    rw [(animateFoco_falling 5 _ h1f).2, h1i]
    norm_num
  rw [h1i] at h2i
  have e201 : runFoco (1 :: List.replicate 201 5) initialFoco
      = animateFoco 5 (runFoco (List.replicate 200 5) (animateFoco 1 initialFoco)) := by
    show runFoco (List.replicate (200 + 1) 5) (animateFoco 1 initialFoco) = _
    rw [List.replicate_add, runFoco_append]
    rfl
  obtain ⟨h3i, h3f⟩ := runFoco_rising_replicate 10 5 _ (by norm_num) h2f
    (by rw [h2i]; norm_num)
  rw [h2i] at h3i
  have h4i := (animateFoco_rising 5 _ h3f).1
  rw [h3i] at h4i
  have e212 : runFoco (1 :: List.replicate 212 5) initialFoco
      = animateFoco 5 (runFoco (List.replicate 10 5)
          (animateFoco 5 (runFoco (List.replicate 200 5) (animateFoco 1 initialFoco)))) := by
    show runFoco (List.replicate (201 + (10 + 1)) 5) (animateFoco 1 initialFoco) = _
    rw [List.replicate_add, runFoco_append]
    have e : runFoco (List.replicate 201 5) (animateFoco 1 initialFoco)
        = runFoco (1 :: List.replicate 201 5) initialFoco := rfl
    rw [e, e201, List.replicate_add, runFoco_append]
    rfl
  refine ⟨?_, ?_, ?_⟩
  · rw [e201, h2i]
    norm_num
  · rw [e201]
    exact h2f
  · rw [e212, h4i]
    norm_num

/-- Counterexample to C21: the program's initial spotlight state has intensity
20, outside `[0, 1]`, and so has the state after one tick at speed factor 1
(20.02). Later states leave `[0, 1]` too: after one tick at speed factor 1
and 201 ticks at speed factor 5 the intensity is `-0.08`, after 212 ticks at
speed factor 5 it is `1.02`. -/
theorem spotlight_range_fails_at_start :
    initialFoco.focoIntensidad = 20 ∧
    ¬ (0 ≤ (runFoco [] initialFoco).focoIntensidad ∧
      (runFoco [] initialFoco).focoIntensidad ≤ 1) ∧
    (runFoco [1] initialFoco).focoIntensidad = 2002 / 100 ∧
    ¬ (0 ≤ (runFoco [1] initialFoco).focoIntensidad ∧
      (runFoco [1] initialFoco).focoIntensidad ≤ 1) ∧
    (∀ f ∈ (1 : ℚ) :: List.replicate 212 5, 1 / 10 ≤ f ∧ f ≤ 5) ∧
    (runFoco (1 :: List.replicate 201 5) initialFoco).focoIntensidad = -8 / 100 ∧
    (runFoco (1 :: List.replicate 212 5) initialFoco).focoIntensidad = 102 / 100 := by
  have h1 : (runFoco [1] initialFoco).focoIntensidad = 2002 / 100 := by
    show (animateFoco 1 initialFoco).focoIntensidad = 2002 / 100
    rw [(animateFoco_rising 1 initialFoco rfl).1]
    norm_num [initialFoco]
  refine ⟨rfl, ?_, h1, ?_, ?_, runFoco_from_start.1, runFoco_from_start.2.2⟩
  · intro h
    have h2 : (runFoco [] initialFoco).focoIntensidad = 20 := rfl
    rw [h2] at h
    norm_num at h
  · intro h
    rw [h1] at h
    norm_num at h
  · intro f hf
    rcases List.mem_cons.mp hf with h | h
    · rw [h]
      norm_num
    · rw [List.eq_of_mem_replicate h]
      norm_num

/-- C21 (amended): from every spotlight state whose intensity lies in
`[0, 1]`, every state reached by `animate()` ticks with speed factors in
`[0.1, 5.0]` has `focoIntensidad` in `[-0.1, 1.1]`: the intensity bounces
between 0 and 1 and may pass either bound by one step of at most
`0.02 * 5.0 = 0.1` before it turns. Both excesses occur: one tick at speed
factor 5 takes a rising 0.99 to 1.09 and a falling 0.01 to -0.09. -/
theorem spotlight_range_with_overshoot :
    (∀ (c : Foco) (fs : List ℚ), 0 ≤ c.focoIntensidad → c.focoIntensidad ≤ 1 →
      (∀ f ∈ fs, 1 / 10 ≤ f ∧ f ≤ 5) →
      -1 / 10 ≤ (runFoco fs c).focoIntensidad ∧ (runFoco fs c).focoIntensidad ≤ 11 / 10) ∧
    (animateFoco 5 { focoIntensidad := 99 / 100, focoSubiendo := true }).focoIntensidad
      = 109 / 100 ∧
    (animateFoco 5 { focoIntensidad := 1 / 100, focoSubiendo := false }).focoIntensidad
      = -9 / 100 := by
  refine ⟨?_, ?_, ?_⟩
  · intro c fs h0 h1 hfs
    obtain ⟨hr, hf⟩ := runFoco_band fs c hfs (fun _ => ⟨by linarith, h1⟩)
      (fun _ => ⟨h0, by linarith⟩)
    cases hs : (runFoco fs c).focoSubiendo with
    | true =>
      obtain ⟨a, b⟩ := hr hs
      exact ⟨a, by linarith⟩
    | false =>
      obtain ⟨a, b⟩ := hf hs
      exact ⟨by linarith, b⟩
  · rw [(animateFoco_rising 5 _ rfl).1]
    norm_num
  · rw [(animateFoco_falling 5 _ rfl).1]
    norm_num

/-- Witness of C21 (amended): from intensity 0, rising, seventeen ticks at
speed factor 3. -/
theorem spotlight_range_with_overshoot_witness :
    ((0 : ℚ) ≤ ({ focoIntensidad := 0, focoSubiendo := true } : Foco).focoIntensidad ∧
      ({ focoIntensidad := 0, focoSubiendo := true } : Foco).focoIntensidad ≤ 1 ∧
      ∀ f ∈ List.replicate 17 (3 : ℚ), 1 / 10 ≤ f ∧ f ≤ 5) ∧
    -1 / 10 ≤ (runFoco (List.replicate 17 3)
      { focoIntensidad := 0, focoSubiendo := true }).focoIntensidad ∧
    (runFoco (List.replicate 17 3)
      { focoIntensidad := 0, focoSubiendo := true }).focoIntensidad ≤ 11 / 10 := by
  have hfs : ∀ f ∈ List.replicate 17 (3 : ℚ), 1 / 10 ≤ f ∧ f ≤ 5 := by
    intro f hf
    rw [List.eq_of_mem_replicate hf]
    norm_num
  exact ⟨⟨le_refl _, by norm_num, hfs⟩,
    spotlight_range_with_overshoot.1 { focoIntensidad := 0, focoSubiendo := true }
      (List.replicate 17 3) (le_refl _) (by norm_num) hfs⟩

/-! ## Frame conditions of ticks and keys -/

theorem animateCaballete_frame (f : ℚ) (c c1 : Caballete)
    (h : animateCaballete f c = some c1) :
    c1.KeyFrame = c.KeyFrame ∧ c1.FrameIndex = c.FrameIndex ∧
    c1.i_max_steps = c.i_max_steps := by
  rcases animateCaballete_cases f c c1 h with
    ⟨_, he⟩ | ⟨_, _, _, _, hK, hF, hN, _⟩ | ⟨hp, hge, hlast, _⟩ |
    ⟨_, _, _, _, _, _, _, hK, hF, hN, _⟩
  · rw [he]
    exact ⟨rfl, rfl, rfl⟩
  · exact ⟨hK, hF, hN⟩
  · rw [animateCaballete_finish f c hp hge hlast, Option.some.injEq] at h
    rw [← h]
    exact ⟨rfl, rfl, rfl⟩
  · exact ⟨hK, hF, hN⟩

theorem keyZ_frame (c c1 : Caballete) (h : keyZ c = some c1) :
    c1.KeyFrame = c.KeyFrame ∧ c1.FrameIndex = c.FrameIndex ∧
    c1.i_max_steps = c.i_max_steps := by
  by_cases hg : c.play = false ∧ c.FrameIndex > 1
  · obtain ⟨c2, hc2, _, _, _, _, _, hK, hF, hN⟩ := keyZ_start c hg.1 hg.2
    rw [h, Option.some.injEq] at hc2
    rw [hc2]
    exact ⟨hK, hF, hN⟩
  · unfold keyZ at h
    rw [if_neg hg, Option.some.injEq] at h
    rw [← h]
    exact ⟨rfl, rfl, rfl⟩

theorem keyZ_stop (c : Caballete) (hplay : c.play = true) :
    keyZ c = some { c with play := false } := by
  unfold keyZ
  rw [if_neg (by rw [hplay]; simp)]

/-- C22: a tick taken while a track's play flag is false leaves that track
frozen. With `play` false the tick returns and the whole assembly state (the
16 attributes, the increments, `playIndex`, `i_curr_steps`) is unchanged; with
`playSilla` false the chair state is the old one with `firstPlaySilla` set, so
`rotSilla`, `playIndexSilla` and `sillaInterpT` are unchanged; with
`playPincel` false the brush state is the old one with `firstPlayPincel` set,
so the brush position and rotation, `playIndexPincel`, `pincelInterpT` and
`pinturaActual` are unchanged. -/
theorem freeze_while_inactive :
    (∀ (s : State) (f : ℚ), s.cab.play = false →
      ∃ s1, animateWith f s = some s1 ∧ s1.cab = s.cab) ∧
    (∀ (s s1 : State) (f : ℚ), animateWith f s = some s1 → s.silla.playSilla = false →
      s1.silla = { s.silla with firstPlaySilla := true } ∧
      s1.silla.rotSilla = s.silla.rotSilla ∧
      s1.silla.playIndexSilla = s.silla.playIndexSilla ∧
      s1.silla.sillaInterpT = s.silla.sillaInterpT) ∧
    (∀ (s s1 : State) (f : ℚ), animateWith f s = some s1 → s.pincel.playPincel = false →
      s1.pincel = { s.pincel with firstPlayPincel := true } ∧
      s1.pincel.posPincelX = s.pincel.posPincelX ∧
      s1.pincel.posPincelY = s.pincel.posPincelY ∧
      s1.pincel.posPincelZ = s.pincel.posPincelZ ∧
      s1.pincel.rotPincelZ = s.pincel.rotPincelZ ∧
      s1.pincel.playIndexPincel = s.pincel.playIndexPincel ∧
      s1.pincel.pincelInterpT = s.pincel.pincelInterpT ∧
      s1.pincel.pinturaActual = s.pincel.pinturaActual) := by
  refine ⟨?_, ?_, ?_⟩
  · intro s f hplay
    exact animateWith_of_cab f s s.cab (animateCaballete_idle f s.cab hplay)
  · intro s s1 f ht hoff
    have e : s1.silla = { s.silla with firstPlaySilla := true } := by
      rw [animateWith_silla f s s1 ht, animateSilla_inactive f s.silla hoff]
    rw [e]
    exact ⟨rfl, rfl, rfl, rfl⟩
  · intro s s1 f ht hoff
    have e : s1.pincel = { s.pincel with firstPlayPincel := true } := by
      rw [animateWith_pincel f s s1 ht, animatePincel_inactive f s.pincel hoff]
    rw [e]
    exact ⟨rfl, rfl, rfl, rfl, rfl, rfl, rfl, rfl⟩

/-- Witness of C22: a tick of the initial state, in which no track is
active. -/
theorem freeze_while_inactive_witness :
    (initialState.cab.play = false ∧ initialState.silla.playSilla = false ∧
      initialState.pincel.playPincel = false) ∧
    ∃ s1, animateWith 1 initialState = some s1 ∧ s1.cab = initialState.cab ∧
      s1.silla.rotSilla = 0 ∧ s1.pincel.posPincelX = 2875 ∧ s1.pincel.pinturaActual = 0 := by
  obtain ⟨hcab, hsilla, hpincel⟩ := freeze_while_inactive
  obtain ⟨s1, hs1, hc⟩ := hcab initialState 1 rfl
  obtain ⟨_, hrot, _⟩ := hsilla initialState s1 1 hs1 rfl
  obtain ⟨_, hx, _, _, _, _, _, hcapa⟩ := hpincel initialState s1 1 hs1 rfl
  exact ⟨⟨rfl, rfl, rfl⟩, s1, hs1, hc, by rw [hrot]; rfl, by rw [hx]; rfl, by rw [hcapa]; rfl⟩

theorem animateWith_frame (f : ℚ) (s s1 : State) (h : animateWith f s = some s1) :
    s1.cab.KeyFrame = s.cab.KeyFrame ∧ s1.silla.SillaKeyFrame = s.silla.SillaKeyFrame ∧
    s1.pincel.PincelKeyFrame = s.pincel.PincelKeyFrame ∧
    s1.cab.FrameIndex = s.cab.FrameIndex ∧ s1.cab.i_max_steps = s.cab.i_max_steps ∧
    s1.silla.i_max_steps_silla = s.silla.i_max_steps_silla ∧
    s1.pincel.i_max_steps_pincel = s.pincel.i_max_steps_pincel ∧
    s1.silla.playSilla = s.silla.playSilla ∧ s1.pincel.playPincel = s.pincel.playPincel := by
  obtain ⟨hK, hF, hN⟩ := animateCaballete_frame f s.cab s1.cab (animateWith_cab f s s1 h)
  obtain ⟨hSK, hSN, hSp⟩ := animateSilla_frame f s.silla
  obtain ⟨hPK, hPN, hPp⟩ := animatePincel_frame f s.pincel
  rw [← animateWith_silla f s s1 h] at hSK hSN hSp
  rw [← animateWith_pincel f s s1 h] at hPK hPN hPp
  exact ⟨hK, hSK, hPK, hF, hN, hSN, hPN, hSp, hPp⟩

theorem runTicks_flags (fs : List ℚ) (s s1 : State) (h : runTicks fs s = some s1) :
    s1.silla.playSilla = s.silla.playSilla ∧ s1.pincel.playPincel = s.pincel.playPincel := by
  induction fs generalizing s with
  | nil =>
    simp only [runTicks, Option.some.injEq] at h
    rw [← h]
    exact ⟨rfl, rfl⟩
  | cons f fs ih =>
    simp only [runTicks] at h
    cases hc : animateWith f s with
    | none => simp [hc] at h
    | some s2 =>
      simp only [hc] at h
      obtain ⟨h1, h2⟩ := ih s2 h
      obtain ⟨_, _, _, _, _, _, _, g1, g2⟩ := animateWith_frame f s s2 hc
      exact ⟨by rw [h1, g1], by rw [h2, g2]⟩

theorem my_input_frame (k : Key) (s s1 : State) (h : my_input k s = some s1) :
    s1.cab.KeyFrame = s.cab.KeyFrame ∧ s1.silla.SillaKeyFrame = s.silla.SillaKeyFrame ∧
    s1.pincel.PincelKeyFrame = s.pincel.PincelKeyFrame ∧
    s1.cab.FrameIndex = s.cab.FrameIndex := by
  cases k with
  | Z =>
    simp only [my_input] at h
    cases hc : keyZ s.cab with
    | none => simp [hc] at h
    | some c =>
      simp only [hc, Option.some.injEq] at h
      obtain ⟨hK, hF, _⟩ := keyZ_frame s.cab c hc
      rw [← h]
      exact ⟨hK, rfl, rfl, hF⟩
  | E =>
    simp only [my_input, Option.some.injEq] at h
    rw [← h]
    refine ⟨rfl, ?_, rfl, rfl⟩
    simp only [keyE]
    split_ifs <;> rfl
  | Q =>
    simp only [my_input, Option.some.injEq] at h
    rw [← h]
    refine ⟨rfl, rfl, ?_, rfl⟩
    simp only [keyQ]
    split_ifs <;> rfl

/-- C23: for every state and every speed factor, an `animate()` tick that
returns changes none of the keyframe stores (`KeyFrame`, `SillaKeyFrame`,
`PincelKeyFrame`), nor `FrameIndex`, nor the step counts, and leaves
`playSilla` and `playPincel` as they are; so a cyclic track that is active is
still active after any number of ticks. The key commands `Z`, `E`, `Q` leave
all keyframe stores and `FrameIndex` unchanged. -/
theorem tick_frame_condition :
    (∀ (s s1 : State) (f : ℚ), animateWith f s = some s1 →
      s1.cab.KeyFrame = s.cab.KeyFrame ∧ s1.silla.SillaKeyFrame = s.silla.SillaKeyFrame ∧
      s1.pincel.PincelKeyFrame = s.pincel.PincelKeyFrame ∧
      s1.cab.FrameIndex = s.cab.FrameIndex ∧ s1.cab.i_max_steps = s.cab.i_max_steps ∧
      s1.silla.i_max_steps_silla = s.silla.i_max_steps_silla ∧
      s1.pincel.i_max_steps_pincel = s.pincel.i_max_steps_pincel ∧
      s1.silla.playSilla = s.silla.playSilla ∧ s1.pincel.playPincel = s.pincel.playPincel) ∧
    (∀ (s s1 : State) (fs : List ℚ), runTicks fs s = some s1 →
      (s.silla.playSilla = true → s1.silla.playSilla = true) ∧
      (s.pincel.playPincel = true → s1.pincel.playPincel = true)) ∧
    (∀ (s s1 : State) (k : Key), my_input k s = some s1 →
      s1.cab.KeyFrame = s.cab.KeyFrame ∧ s1.silla.SillaKeyFrame = s.silla.SillaKeyFrame ∧
      s1.pincel.PincelKeyFrame = s.pincel.PincelKeyFrame ∧
      s1.cab.FrameIndex = s.cab.FrameIndex) := by
  refine ⟨fun s s1 f h => animateWith_frame f s s1 h, ?_,
    fun s s1 k h => my_input_frame k s s1 h⟩
  intro s s1 fs h
  obtain ⟨h1, h2⟩ := runTicks_flags fs s s1 h
  exact ⟨fun hp => by rw [h1]; exact hp, fun hp => by rw [h2]; exact hp⟩

/-- Witness of C23: the first playback, three ticks long, keeps the authored
keyframes and `FrameIndex = 20`. -/
theorem tick_frame_condition_witness :
    ∃ s1, runTicks [1, 2, 3] playbackStart = some s1 ∧
      animateWith 1 playbackStart ≠ none ∧
      (∀ s2, animateWith 1 playbackStart = some s2 →
        s2.cab.KeyFrame = authoredKeyFrame ∧ s2.cab.FrameIndex = 20) := by
  obtain ⟨c1, hc1, _⟩ := runCab_advance [1, 2, 3] playbackStart.cab (by decide) (by decide)
  obtain ⟨s1, hs1, _⟩ := runTicks_of_runCab [1, 2, 3] playbackStart c1 hc1
  obtain ⟨c2, hc2, _⟩ := animateCaballete_advance 1 playbackStart.cab (by decide) (by decide)
  obtain ⟨s2, hs2, _⟩ := animateWith_of_cab 1 playbackStart c2 hc2
  refine ⟨s1, hs1, by rw [hs2]; simp, ?_⟩
  intro s3 hs3
  obtain ⟨hK, _, _, hF, _⟩ := tick_frame_condition.1 playbackStart s3 1 hs3
  exact ⟨by rw [hK]; rfl, by rw [hF]; decide⟩

/-- C29: for every state with `play == true`, the `Z` command returns, sets
`play = false` and changes nothing else (the new state is the old one with
`play` cleared: the 16 animated attributes, the increments, `playIndex` and
`i_curr_steps` keep their values); with `FrameIndex > 1`, a second `Z` command
then starts the playback afresh: `play = true`, `playIndex = 0`,
`i_curr_steps = 0`, the attributes at their `KeyFrame[0]` values and the
increments of segment 0. -/
theorem keyZ_stops_playback (s : State) (hplay : s.cab.play = true) :
    ∃ s1, my_input Key.Z s = some s1 ∧
      s1 = { s with cab := { s.cab with play := false } } ∧ s1.cab.play = false ∧
      (∀ a, s1.cab.attr a = s.cab.attr a) ∧ (∀ a, s1.cab.inc a = s.cab.inc a) ∧
      s1.cab.playIndex = s.cab.playIndex ∧ s1.cab.i_curr_steps = s.cab.i_curr_steps ∧
      (s.cab.FrameIndex > 1 →
        ∃ s2, my_input Key.Z s1 = some s2 ∧ s2.cab.play = true ∧ s2.cab.playIndex = 0 ∧
          s2.cab.i_curr_steps = 0 ∧
          (∀ a, s2.cab.attr a = (s.cab.KeyFrame 0).attr a) ∧
          (∀ a, s2.cab.inc a = ((s.cab.KeyFrame 1).attr a - (s.cab.KeyFrame 0).attr a)
            / (s.cab.i_max_steps : ℚ))) := by
  have hstop := keyZ_stop s.cab hplay
  refine ⟨{ s with cab := { s.cab with play := false } }, by simp [my_input, hstop], rfl, rfl,
    ?_, ?_, rfl, rfl, ?_⟩
  · intro a
    cases a <;> rfl
  · intro a
    cases a <;> rfl
  · intro hFI
    obtain ⟨c2, hc2, hpl, hp, hs, hattr, hinc, _⟩ :=
      keyZ_start { s.cab with play := false } rfl hFI
    exact ⟨{ s with cab := c2 }, by simp [my_input, hc2], hpl, hp, hs, hattr, hinc⟩

/-- Witness of C29: the first playback, stopped by a second `Z` right after its
start and restarted by a third. -/
theorem keyZ_stops_playback_witness :
    (playbackStart.cab.play = true ∧ playbackStart.cab.FrameIndex > 1) ∧
    ∃ s1, my_input Key.Z playbackStart = some s1 ∧ s1.cab.play = false ∧
      ∃ s2, my_input Key.Z s1 = some s2 ∧ s2.cab.play = true ∧ s2.cab.playIndex = 0 := by
  obtain ⟨s1, h1, _, hp, _, _, _, _, hagain⟩ := keyZ_stops_playback playbackStart (by decide)
  obtain ⟨s2, h2, hp2, hi2, _⟩ := hagain (by decide)
  exact ⟨⟨by decide, by decide⟩, s1, h1, hp, s2, h2, hp2, hi2⟩

/-! ## The authored keyframes, the rendered pose and the frame clock -/

/-- C24 (the code at the failing statement): the last statement of the
authoring code, `KeyFrame[20] = KeyFrame[19]`, assigns slot 20: whatever the
memory held before, after the authoring slot 20 holds the value of slot 19
(for the zero-initialised store, `posX` goes from 0 to 3000), and 20 is not an
index of the `MAX_FRAMES = 20` slots of the array. -/
theorem authoring_writes_slot_twenty :
    (∀ K : Int → FRAME, authorKeyFrames K 20 = authorKeyFrames K 19) ∧
    (FRAME.zero).posX = 0 ∧ (authoredKeyFrame 20).posX = 3000 ∧
    MAX_FRAMES = 20 ∧ ¬ ((0 : ℤ) ≤ 20 ∧ (20 : ℤ) < MAX_FRAMES) := by
  refine ⟨?_, rfl, ?_, rfl, by decide⟩
  · intro K
    simp [authorKeyFrames, setKeyFrame]
  · norm_num [authoredKeyFrame, authorKeyFrames, setKeyFrame, FRAME.zero]

/-- C25 (the code at the failing input): with `FrameIndex = 20` the last two
meaningful authored keyframes differ: `KeyFrame[18]` has `posX = 2980` and
`posZ = -2480`, `KeyFrame[19]` is the copy of `KeyFrame[0]` with `posX = 3000`
and `posZ = -2500`. The duplicate of the rest keyframe is in slot 20. -/
theorem rest_keyframes_differ :
    initialCaballete.FrameIndex = 20 ∧ initialCaballete.KeyFrame = authoredKeyFrame ∧
    (authoredKeyFrame 18).posX = 2980 ∧ (authoredKeyFrame 19).posX = 3000 ∧
    (authoredKeyFrame 18).posZ = -2480 ∧ (authoredKeyFrame 19).posZ = -2500 ∧
    authoredKeyFrame 18 ≠ authoredKeyFrame 19 ∧
    authoredKeyFrame 20 = authoredKeyFrame 19 := by
  have h18 : (authoredKeyFrame 18).posX = 2980 := by
    norm_num [authoredKeyFrame, authorKeyFrames, setKeyFrame, FRAME.zero]
  have h19 : (authoredKeyFrame 19).posX = 3000 := by
    norm_num [authoredKeyFrame, authorKeyFrames, setKeyFrame, FRAME.zero]
  refine ⟨rfl, rfl, h18, h19, ?_, ?_, ?_, ?_⟩
  · norm_num [authoredKeyFrame, authorKeyFrames, setKeyFrame, FRAME.zero]
  · norm_num [authoredKeyFrame, authorKeyFrames, setKeyFrame, FRAME.zero]
  · intro h
    have h2 : (authoredKeyFrame 18).posX = (authoredKeyFrame 19).posX := by rw [h]
    rw [h18, h19] at h2
    norm_num at h2
  · simp [authoredKeyFrame, authorKeyFrames, setKeyFrame]

/-- C28 (the code at the failing input): `LOOP_TIME` is 16 milliseconds, and
for `deltaTime = LOOP_TIME` the speed factor computed by `animate()` is the
upper clamp 5.0 (the product `16 * 80 = 1280` is clamped); the same holds for
every `deltaTime` of at least one millisecond. -/
theorem speedFactor_at_frame_duration :
    LOOP_TIME = 16 ∧ speedFactor ((LOOP_TIME : ℤ) : ℚ) = 5 ∧
    (∀ dt : ℚ, 1 ≤ dt → speedFactor dt = 5) := by
  have hall : ∀ dt : ℚ, 1 ≤ dt → speedFactor dt = 5 := by
    intro dt h
    rw [speedFactor_pos dt (by linarith)]
    unfold clamp
    rw [max_eq_left (by linarith)]
    exact min_eq_right (by linarith)
  have h16 : LOOP_TIME = 16 := by decide
  refine ⟨h16, ?_, hall⟩
  rw [h16]
  exact hall _ (by norm_num)

theorem renderCaballete_depends (c c1 : Caballete) (hK : c1.KeyFrame = c.KeyFrame)
    (hp : c1.playIndex = c.playIndex) (hz : c1.pinturaRotZ = c.pinturaRotZ) :
    renderCaballete c1 = renderCaballete c := by
  unfold renderCaballete
  rw [hK, hp, hz]

/-- C27 (the code at the failing input): the pose that the render loop uses
depends on the assembly state only through `KeyFrame`, `playIndex` and
`pinturaRotZ`; and `n <= 45` ticks at speed factor 1 into segment 0 of the
first playback, the current interpolated `basePosY` is `-500 * n / 45` while
the `basePosY` used to place the base is still `KeyFrame[0].basePosY = 0`. -/
theorem render_reads_keyframe :
    (∀ c c1 : Caballete, c1.KeyFrame = c.KeyFrame → c1.playIndex = c.playIndex →
      c1.pinturaRotZ = c.pinturaRotZ → renderCaballete c1 = renderCaballete c) ∧
    (∀ n : ℕ, n ≤ 45 →
      ∃ s p, runTicks (List.replicate n 1) playbackStart = some s ∧
        renderCaballete s.cab = some p ∧ s.cab.play = true ∧ s.cab.playIndex = 0 ∧
        s.cab.basePosY = -500 * (n : ℚ) / 45 ∧ p.basePosY = 0) ∧
    (authoredKeyFrame 0).basePosY = 0 ∧ (authoredKeyFrame 1).basePosY = -500 := by
  have hK0 : (authoredKeyFrame 0).basePosY = 0 := by
    norm_num [authoredKeyFrame, authorKeyFrames, setKeyFrame, FRAME.zero]
  have hK1 : (authoredKeyFrame 1).basePosY = -500 := by
    norm_num [authoredKeyFrame, authorKeyFrames, setKeyFrame, FRAME.zero]
  refine ⟨renderCaballete_depends, ?_, hK0, hK1⟩
  intro n hn
  have hN : playbackStart.cab.i_max_steps = 45 := by decide
  have hS : playbackStart.cab.i_curr_steps = 0 := by decide
  obtain ⟨c1, hc1, hattr, _, _, hpl, hp, hK, _⟩ :=
    runCab_advance (List.replicate n 1) playbackStart.cab (by decide)
      (by rw [hS, hN, List.length_replicate]; omega)
  obtain ⟨s, hs, hcab⟩ := runTicks_of_runCab _ playbackStart c1 hc1
  have hp0 : c1.playIndex = 0 := by rw [hp]; decide
  have hKa : c1.KeyFrame = authoredKeyFrame := by rw [hK]; rfl
  have hrender : renderCaballete c1 = some
      { posX := (c1.KeyFrame c1.playIndex).posX
        posY := (c1.KeyFrame c1.playIndex).posY
        posZ := (c1.KeyFrame c1.playIndex).posZ
        pinturaRot := (c1.KeyFrame c1.playIndex).pinturaRot
        pinturaRotZ := c1.pinturaRotZ
        soporteTrasPosY := (c1.KeyFrame c1.playIndex).soporteTrasPosY
        soporteTrasRot := (c1.KeyFrame c1.playIndex).soporteTrasRot
        adornoPosY := (c1.KeyFrame c1.playIndex).adornoPosY
        adornoRot := (c1.KeyFrame c1.playIndex).adornoRot
        basePosY := (c1.KeyFrame c1.playIndex).basePosY
        baseRot := (c1.KeyFrame c1.playIndex).baseRot
        pataDerPosY := (c1.KeyFrame c1.playIndex).pataDerPosY
        pataDerRot := (c1.KeyFrame c1.playIndex).pataDerRot
        pataIzqPosY := (c1.KeyFrame c1.playIndex).pataIzqPosY
        pataIzqRot := (c1.KeyFrame c1.playIndex).pataIzqRot
        pataTrasPosY := (c1.KeyFrame c1.playIndex).pataTrasPosY
        pataTrasRot := (c1.KeyFrame c1.playIndex).pataTrasRot } := by
    unfold renderCaballete
    rw [if_pos (by rw [hp0]; decide)]
  refine ⟨s, _, hs, by rw [hcab]; exact hrender, by rw [hcab]; exact hpl,
    by rw [hcab]; exact hp0, ?_, ?_⟩
  · have h := hattr Attr.basePosY
    rw [sum_replicate_rat] at h
    have hinc : playbackStart.cab.inc Attr.basePosY = -500 / 45 := by
      norm_num [playbackStart, initialState, initialCaballete, my_input, keyZ, interpolation,
        resetElements, MAX_FRAMES, authoredKeyFrame, authorKeyFrames, setKeyFrame,
        FRAME.zero, Caballete.inc]
    have hatt : playbackStart.cab.attr Attr.basePosY = 0 := by
      norm_num [playbackStart, initialState, initialCaballete, my_input, keyZ, interpolation,
        resetElements, MAX_FRAMES, authoredKeyFrame, authorKeyFrames, setKeyFrame,
        FRAME.zero, Caballete.attr]
    rw [hinc, hatt] at h
    rw [hcab]
    show c1.attr Attr.basePosY = _
    rw [h]
    ring
  · show (c1.KeyFrame c1.playIndex).basePosY = 0
    rw [hKa, hp0, hK0]

/-- The attributes when segment `i` of a playback at constant speed `f`
completes, before and after the boundary tick. -/
theorem segment_complete (K : Int → FRAME) (FI N : Int) (f : ℚ) (c : Caballete)
    (h : SegStart K FI N f 0 c) (hN0 : 0 < N) (hFI : FI ≤ MAX_FRAMES)
    (i : ℕ) (hi : (i : ℤ) ≤ FI - 2) :
    (∃ c1, runCab (List.replicate (i * (N.toNat + 1) + N.toNat) f) c = some c1 ∧
      c1.play = true ∧ c1.playIndex = (i : ℤ) ∧ c1.i_curr_steps = N ∧
      (∀ a, c1.attr a = (K 0).attr a + f * ((K ((i : ℤ) + 1)).attr a - (K 0).attr a))) ∧
    (∃ c2, runCab (List.replicate ((i + 1) * (N.toNat + 1)) f) c = some c2 ∧
      (∀ a, c2.attr a = (K 0).attr a + f * ((K ((i : ℤ) + 1)).attr a - (K 0).attr a))) := by
  have hcast : ((N.toNat : ℤ)) = N := Int.toNat_of_nonneg hN0.le
  have hcastq : ((N.toNat : ℕ) : ℚ) = (N : ℚ) := by exact_mod_cast hcast
  have hne : (N : ℚ) ≠ 0 := by exact_mod_cast hN0.ne.symm
  obtain ⟨c0, hc0, hseg⟩ := segStart_iterate K FI N f c h hN0 hFI i hi
  constructor
  · obtain ⟨c1, hc1, hpl, hp, hs, _, _, _, hattr, _⟩ :=
      segStart_advance K FI N f i c0 hseg N.toNat (by omega)
    refine ⟨c1, ?_, hpl, hp, by rw [hs, hcast], ?_⟩
    · rw [List.replicate_add, runCab_append _ _ _ _ hc0]
      exact hc1
    · intro a
      rw [hattr, hcastq]
      field_simp
      ring
  · by_cases hlast : (i : ℤ) + 1 ≤ FI - 2
    · obtain ⟨c2, hc2, _, _, _, _, _, _, hattr, _⟩ :=
        segStart_iterate K FI N f c h hN0 hFI (i + 1) (by push_cast; omega)
      refine ⟨c2, hc2, ?_⟩
      intro a
      rw [hattr]
      push_cast
      rfl
    · obtain ⟨c2, hc2, _, _, hattr⟩ :=
        segStart_last K FI N f i c0 hseg hN0 (by omega)
      refine ⟨c2, ?_, hattr⟩
      rw [Nat.succ_mul, List.replicate_add, runCab_append _ _ _ _ hc0]
      exact hc2

/-- C30: attributes are never re-set to keyframe values at a segment
boundary. For every constant speed factor `f` used on all ticks of a playback
started by `Z` (so from `KeyFrame[0]`), when segment `i` completes every
animated attribute `a` equals
`KeyFrame[0].a + f * (KeyFrame[i+1].a - KeyFrame[0].a)`, and still does after
the boundary tick; for `f != 1` this differs from `KeyFrame[i+1].a` whenever
`KeyFrame[i+1].a != KeyFrame[0].a`. With the authored keyframes and
`FrameIndex = 20` the playback ends, for every `f`, with every attribute at
its `KeyFrame[0]` value. -/
theorem speed_coupling_without_snapping (s0 : State) (f : ℚ)
    (hplay : s0.cab.play = false) (hFI2 : 2 ≤ s0.cab.FrameIndex)
    (hFI : s0.cab.FrameIndex ≤ MAX_FRAMES) (hN : 0 < s0.cab.i_max_steps) :
    ∃ s1, my_input Key.Z s0 = some s1 ∧
      (∀ i : ℕ, (i : ℤ) ≤ s0.cab.FrameIndex - 2 →
        ∃ s2 s3,
          runTicks (List.replicate (i * (s0.cab.i_max_steps.toNat + 1)
            + s0.cab.i_max_steps.toNat) f) s1 = some s2 ∧
          s2.cab.play = true ∧ s2.cab.playIndex = (i : ℤ) ∧
          s2.cab.i_curr_steps = s0.cab.i_max_steps ∧
          (∀ a, s2.cab.attr a = (s0.cab.KeyFrame 0).attr a
            + f * ((s0.cab.KeyFrame ((i : ℤ) + 1)).attr a - (s0.cab.KeyFrame 0).attr a)) ∧
          (∀ a, f ≠ 1 → (s0.cab.KeyFrame ((i : ℤ) + 1)).attr a ≠ (s0.cab.KeyFrame 0).attr a →
            s2.cab.attr a ≠ (s0.cab.KeyFrame ((i : ℤ) + 1)).attr a) ∧
          runTicks (List.replicate ((i + 1) * (s0.cab.i_max_steps.toNat + 1)) f) s1
            = some s3 ∧
          (∀ a, s3.cab.attr a = s2.cab.attr a)) ∧
      (s0.cab.KeyFrame = authoredKeyFrame → s0.cab.FrameIndex = 20 →
        ∃ s2, runTicks (List.replicate (19 * (s0.cab.i_max_steps.toNat + 1)) f) s1
            = some s2 ∧
          s2.cab.play = false ∧ s2.cab.playIndex = 0 ∧
          ∀ a, s2.cab.attr a = (authoredKeyFrame 0).attr a) := by
  obtain ⟨c1, hZ, _⟩ := keyZ_start s0.cab hplay (by omega)
  have hseg := segStart_of_keyZ s0.cab c1 f hplay (by omega) hZ
  refine ⟨{ s0 with cab := c1 }, by simp [my_input, hZ], ?_, ?_⟩
  · intro i hi
    obtain ⟨⟨c2, hc2, hpl, hp, hs, hattr⟩, ⟨c3, hc3, hattr3⟩⟩ :=
      segment_complete _ _ _ f c1 hseg hN hFI i hi
    obtain ⟨s2, hs2, hcab2⟩ := runTicks_of_runCab _ { s0 with cab := c1 } c2 hc2
    obtain ⟨s3, hs3, hcab3⟩ := runTicks_of_runCab _ { s0 with cab := c1 } c3 hc3
    refine ⟨s2, s3, hs2, by rw [hcab2]; exact hpl, by rw [hcab2]; exact hp,
      by rw [hcab2]; exact hs, by rw [hcab2]; exact hattr, ?_, hs3, ?_⟩
    · intro a hf hne heq
      rw [hcab2, hattr] at heq
      have hd : (s0.cab.KeyFrame ((i : ℤ) + 1)).attr a - (s0.cab.KeyFrame 0).attr a ≠ 0 :=
        sub_ne_zero.mpr hne
      have hz : (f - 1) * ((s0.cab.KeyFrame ((i : ℤ) + 1)).attr a
          - (s0.cab.KeyFrame 0).attr a) = 0 := by linarith
      rcases mul_eq_zero.mp hz with h1 | h1
      · exact hf (by linarith)
      · exact hd h1
    · intro a
      rw [hcab3, hcab2, hattr3, hattr]
  · intro hK hF
    obtain ⟨c2, hc2, hpl, hp, hattr⟩ :=
      playback_finishes _ _ _ f c1 hseg hN hFI2 hFI
    have e : (s0.cab.FrameIndex - 1).toNat = 19 := by rw [hF]; rfl
    rw [e] at hc2
    obtain ⟨s2, hs2, hcab2⟩ := runTicks_of_runCab _ { s0 with cab := c1 } c2 hc2
    refine ⟨s2, hs2, by rw [hcab2]; exact hpl, by rw [hcab2]; exact hp, ?_⟩
    intro a
    rw [hcab2, hattr, hF, hK]
    have e2 : ((20 : ℤ) - 1) = 19 := by norm_num
    rw [e2, authored_rest_eq_start]
    ring

/-- Witness of C30 on the program's initial state with the speed factor 2:
when segment 0 completes, after 45 ticks, `basePosY` is `-1000`, twice the
authored `-500` of `KeyFrame[1]`; after the whole playback, 874 ticks, it is
back at `0`. -/
theorem speed_coupling_without_snapping_witness :
    (initialState.cab.play = false ∧ 2 ≤ initialState.cab.FrameIndex ∧
      initialState.cab.FrameIndex ≤ MAX_FRAMES ∧ 0 < initialState.cab.i_max_steps) ∧
    ∃ s1 s2 s3, my_input Key.Z initialState = some s1 ∧
      runTicks (List.replicate 45 2) s1 = some s2 ∧
      s2.cab.attr Attr.basePosY = -1000 ∧
      (initialState.cab.KeyFrame 1).attr Attr.basePosY = -500 ∧
      runTicks (List.replicate 874 2) s1 = some s3 ∧ s3.cab.play = false ∧
      s3.cab.attr Attr.basePosY = 0 := by
  refine ⟨⟨by decide, by decide, by decide, by decide⟩, ?_⟩
  obtain ⟨s1, hZ, hseg, hend⟩ :=
    speed_coupling_without_snapping initialState 2 (by decide) (by decide) (by decide)
      (by decide)
  obtain ⟨s2, _, hs2, _, _, _, hattr, _, _, _⟩ := hseg 0 (by decide)
  obtain ⟨s3, hs3, hpl, _, hattr3⟩ := hend rfl rfl
  have hK1 : (initialState.cab.KeyFrame 1).attr Attr.basePosY = -500 := by
    norm_num [initialState, initialCaballete, authoredKeyFrame, authorKeyFrames, setKeyFrame,
      FRAME.attr, FRAME.zero]
  have hK0 : (initialState.cab.KeyFrame 0).attr Attr.basePosY = 0 := by
    norm_num [initialState, initialCaballete, authoredKeyFrame, authorKeyFrames, setKeyFrame,
      FRAME.attr, FRAME.zero]
  refine ⟨s1, s2, s3, hZ, hs2, ?_, hK1, hs3, hpl, ?_⟩
  · have h := hattr Attr.basePosY
    have e : (((0 : ℕ) : ℤ) + 1) = 1 := by norm_num
    rw [e, hK1, hK0] at h
    rw [h]
    norm_num
  · rw [hattr3]
    exact hK0

theorem attr_eq_campo (k : FRAME) (a : Attr) : k.attr a = k.campo a.campo := by
  cases a <;> rfl

theorem resetElements_attr (c : Caballete) (a : Attr) :
    (resetElements c).attr a = (c.KeyFrame 0).attr a := by
  cases a <;> rfl

theorem setKeyFrame_rotSilla (K : Int → FRAME) (i : Int) (v : FRAME) (j : Int) :
    (setKeyFrame K i v j).rotSilla = if j = i then v.rotSilla else (K j).rotSilla := by
  unfold setKeyFrame
  split_ifs <;> rfl

theorem setKeyFrame_rotRodIzq (K : Int → FRAME) (i : Int) (v : FRAME) (j : Int) :
    (setKeyFrame K i v j).rotRodIzq = if j = i then v.rotRodIzq else (K j).rotRodIzq := by
  unfold setKeyFrame
  split_ifs <;> rfl

/-- The two fields marked unused in the record are never written by the
authoring code. -/
theorem authored_unused_zero (i : ℤ) :
    (authoredKeyFrame i).rotSilla = 0 ∧ (authoredKeyFrame i).rotRodIzq = 0 := by
  constructor
  · simp [authoredKeyFrame, authorKeyFrames, setKeyFrame_rotSilla, FRAME.zero]
  · simp [authoredKeyFrame, authorKeyFrames, setKeyFrame_rotRodIzq, FRAME.zero]

theorem campo_no_attr (a : Attr) :
    a.campo ≠ Campo.pinturaPosY ∧ a.campo ≠ Campo.pinturaRot := by
  cases a <;> exact ⟨fun h => Campo.noConfusion h, fun h => Campo.noConfusion h⟩

/-- The functions `resetElements` and `interpolation` do not read the fields
`pinturaPosY` and `pinturaRot`: overwriting the two fields in every keyframe
changes nothing in their results but the keyframe store itself. -/
theorem interpolation_ignores_canvas (c : Caballete) (u v : Int → ℚ) :
    resetElements { c with KeyFrame := fun i =>
        { c.KeyFrame i with pinturaPosY := u i, pinturaRot := v i } }
      = { resetElements c with KeyFrame := fun i =>
        { c.KeyFrame i with pinturaPosY := u i, pinturaRot := v i } } ∧
    interpolation { c with KeyFrame := fun i =>
        { c.KeyFrame i with pinturaPosY := u i, pinturaRot := v i } }
      = (interpolation c).map (fun c1 => { c1 with KeyFrame := fun i =>
        { c.KeyFrame i with pinturaPosY := u i, pinturaRot := v i } }) := by
  refine ⟨rfl, ?_⟩
  unfold interpolation
  by_cases hv : 0 ≤ c.playIndex ∧ c.playIndex + 1 < MAX_FRAMES
  · rw [if_pos hv, if_pos hv]
    rfl
  · rw [if_neg hv, if_neg hv]
    rfl

/-- C26 (counterexample): the fields `pinturaPosY` and `pinturaRot` differ
between the adjacent authored keyframes 6 and 7 (0 and 350, -10 and -15), but
no animated attribute of the track state is interpolated from either of them,
and `resetElements` and `interpolation` do not read them; so it is not true
that every field that differs between adjacent authored keyframes has a
current value and an increment. -/
theorem canvas_fields_not_interpolated :
    (authoredKeyFrame 6).campo Campo.pinturaPosY = 0 ∧
    (authoredKeyFrame 7).campo Campo.pinturaPosY = 350 ∧
    (authoredKeyFrame 6).campo Campo.pinturaRot = -10 ∧
    (authoredKeyFrame 7).campo Campo.pinturaRot = -15 ∧
    (∀ a : Attr, a.campo ≠ Campo.pinturaPosY ∧ a.campo ≠ Campo.pinturaRot) ∧
    (∀ (c : Caballete) (u v : Int → ℚ),
      interpolation { c with KeyFrame := fun i =>
          { c.KeyFrame i with pinturaPosY := u i, pinturaRot := v i } }
        = (interpolation c).map (fun c1 => { c1 with KeyFrame := fun i =>
          { c.KeyFrame i with pinturaPosY := u i, pinturaRot := v i } })) ∧
    ¬ (∀ c : Campo,
        (∃ i : ℤ, 0 ≤ i ∧ i + 1 < MAX_FRAMES ∧
          (authoredKeyFrame i).campo c ≠ (authoredKeyFrame (i + 1)).campo c) →
        ∃ a : Attr, a.campo = c) := by
  have h6 : (authoredKeyFrame 6).campo Campo.pinturaPosY = 0 := by
    norm_num [authoredKeyFrame, authorKeyFrames, setKeyFrame, FRAME.zero, FRAME.campo]
  have h7 : (authoredKeyFrame 7).campo Campo.pinturaPosY = 350 := by
    norm_num [authoredKeyFrame, authorKeyFrames, setKeyFrame, FRAME.zero, FRAME.campo]
  refine ⟨h6, h7, ?_, ?_, campo_no_attr, fun c u v => (interpolation_ignores_canvas c u v).2, ?_⟩
  · norm_num [authoredKeyFrame, authorKeyFrames, setKeyFrame, FRAME.zero, FRAME.campo]
  · norm_num [authoredKeyFrame, authorKeyFrames, setKeyFrame, FRAME.zero, FRAME.campo]
  · intro h
    obtain ⟨a, ha⟩ := h Campo.pinturaPosY ⟨6, by norm_num, by norm_num [MAX_FRAMES], by
      have e : (6 : ℤ) + 1 = 7 := by norm_num
      rw [e, h6, h7]
      norm_num⟩
    exact (campo_no_attr a).1 ha

/-- C26 (amended): every field of the keyframe record that differs between
some pair of adjacent authored keyframes, other than `pinturaPosY` and
`pinturaRot`, is the field of an animated attribute: `resetElements` sets the
current value of the attribute from that field of `KeyFrame[0]`,
`interpolation` computes its increment from that field of
`KeyFrame[playIndex + 1]` and `KeyFrame[playIndex]`, and an advancing tick
adds the increment times the speed factor to the current value. -/
theorem animated_fields_interpolated (c : Campo)
    (hdiff : ∃ i : ℤ, 0 ≤ i ∧ i + 1 < MAX_FRAMES ∧
      (authoredKeyFrame i).campo c ≠ (authoredKeyFrame (i + 1)).campo c)
    (hY : c ≠ Campo.pinturaPosY) (hR : c ≠ Campo.pinturaRot) :
    ∃ a : Attr, a.campo = c ∧
      (∀ cab : Caballete, (resetElements cab).attr a = (cab.KeyFrame 0).campo c) ∧
      (∀ cab c1 : Caballete, interpolation cab = some c1 →
        c1.inc a = ((cab.KeyFrame (cab.playIndex + 1)).campo c
          - (cab.KeyFrame cab.playIndex).campo c) / (cab.i_max_steps : ℚ) ∧
        c1.attr a = cab.attr a) ∧
      (∀ (f : ℚ) (cab : Caballete), cab.play = true → cab.i_curr_steps < cab.i_max_steps →
        ∃ c1, animateCaballete f cab = some c1 ∧ c1.attr a = cab.attr a + cab.inc a * f) := by
  have hex : ∃ a : Attr, a.campo = c := by
    obtain ⟨i, _, _, hne⟩ := hdiff
    cases c
    case rotSilla =>
      exact absurd (by
        show (authoredKeyFrame i).rotSilla = (authoredKeyFrame (i + 1)).rotSilla
        rw [(authored_unused_zero i).1, (authored_unused_zero (i + 1)).1]) hne
    case rotRodIzq =>
      exact absurd (by
        show (authoredKeyFrame i).rotRodIzq = (authoredKeyFrame (i + 1)).rotRodIzq
        rw [(authored_unused_zero i).2, (authored_unused_zero (i + 1)).2]) hne
    case pinturaPosY => exact absurd rfl hY
    case pinturaRot => exact absurd rfl hR
    case posX => exact ⟨Attr.posX, rfl⟩
    case posY => exact ⟨Attr.posY, rfl⟩
    case posZ => exact ⟨Attr.posZ, rfl⟩
    case basePosY => exact ⟨Attr.basePosY, rfl⟩
    case baseRot => exact ⟨Attr.baseRot, rfl⟩
    case pataIzqPosY => exact ⟨Attr.pataIzqPosY, rfl⟩
    case pataIzqRot => exact ⟨Attr.pataIzqRot, rfl⟩
    case pataDerPosY => exact ⟨Attr.pataDerPosY, rfl⟩
    case pataDerRot => exact ⟨Attr.pataDerRot, rfl⟩
    case pataTrasPosY => exact ⟨Attr.pataTrasPosY, rfl⟩
    case pataTrasRot => exact ⟨Attr.pataTrasRot, rfl⟩
    case soporteTrasPosY => exact ⟨Attr.soporteTrasPosY, rfl⟩
    case soporteTrasRot => exact ⟨Attr.soporteTrasRot, rfl⟩
    case pinturaRotZ => exact ⟨Attr.pinturaRotZ, rfl⟩
    case adornoPosY => exact ⟨Attr.adornoPosY, rfl⟩
    case adornoRot => exact ⟨Attr.adornoRot, rfl⟩
  obtain ⟨a, ha⟩ := hex
  subst ha
  refine ⟨a, rfl, ?_, ?_, ?_⟩
  · intro cab
    rw [resetElements_attr, attr_eq_campo]
  · intro cab c1 h
    obtain ⟨h0, h1⟩ := interpolation_some_valid cab c1 h
    obtain ⟨c2, hc2, hinc, hattr, _⟩ := interpolation_spec cab h0 h1
    rw [h, Option.some.injEq] at hc2
    subst hc2
    rw [hinc, attr_eq_campo, attr_eq_campo]
    exact ⟨rfl, hattr a⟩
  · intro f cab hplay hlt
    obtain ⟨c1, hc1, hattr, _⟩ := animateCaballete_advance f cab hplay hlt
    exact ⟨c1, hc1, hattr a⟩

/-- Witness of C26 (amended) on the field `basePosY`, which differs between
the authored keyframes 0 and 1 (0 and -500). -/
theorem animated_fields_interpolated_witness :
    ((∃ i : ℤ, 0 ≤ i ∧ i + 1 < MAX_FRAMES ∧
        (authoredKeyFrame i).campo Campo.basePosY
          ≠ (authoredKeyFrame (i + 1)).campo Campo.basePosY) ∧
      Campo.basePosY ≠ Campo.pinturaPosY ∧ Campo.basePosY ≠ Campo.pinturaRot) ∧
    ∃ a : Attr, a.campo = Campo.basePosY ∧
      ∀ cab c1 : Caballete, interpolation cab = some c1 →
        c1.inc a = ((cab.KeyFrame (cab.playIndex + 1)).campo Campo.basePosY
          - (cab.KeyFrame cab.playIndex).campo Campo.basePosY) / (cab.i_max_steps : ℚ) ∧
        c1.attr a = cab.attr a := by
  have hd : ∃ i : ℤ, 0 ≤ i ∧ i + 1 < MAX_FRAMES ∧
      (authoredKeyFrame i).campo Campo.basePosY
        ≠ (authoredKeyFrame (i + 1)).campo Campo.basePosY :=
    ⟨0, by norm_num, by norm_num [MAX_FRAMES], by
      norm_num [authoredKeyFrame, authorKeyFrames, setKeyFrame, FRAME.zero, FRAME.campo]⟩
  have hY : Campo.basePosY ≠ Campo.pinturaPosY := fun h => Campo.noConfusion h
  have hR : Campo.basePosY ≠ Campo.pinturaRot := fun h => Campo.noConfusion h
  obtain ⟨a, ha, _, hint, _⟩ := animated_fields_interpolated Campo.basePosY hd hY hR
  exact ⟨⟨hd, hY, hR⟩, a, ha, hint⟩

end CasaAzul
